import Mathlib

set_option exponentiation.threshold 4000

set_option maxRecDepth 10000

/-!
Shallow embedding of the ralph-loop plan parser/writer core
(src/internal/plan/parser.go, src/internal/plan/writer.go,
src/internal/prompt/builder.go, src/internal/loop/runner.go).

Strings are modelled as Lean `String`s; the Go regular expressions are
ported as deterministic character-list matchers that follow Go's
leftmost-first matching with the exact backtracking behaviour relevant to
each pattern.  Go's `time.Now()` is made an explicit `now : String`
parameter of the writer, and `bufio.Scanner`'s 64 KiB token limit is
modelled explicitly in `Parse`.
-/

namespace RalphLoop

/-! ### Character classes

`goRegexSpace` is the Go regexp `\s` class (`[\t\n\f\r ]`);
`goSpace` is Go's `unicode.IsSpace` (used by `strings.TrimSpace`). -/

def goRegexSpace (c : Char) : Bool :=
  c = ' ' || c = '\t' || c = '\n' || c = '\x0c' || c = '\r'

def goSpace (c : Char) : Bool :=
  c = ' ' || c = '\t' || c = '\n' || c = '\x0b' || c = '\x0c' || c = '\r'
    || c = '\x85' || c = '\xa0' || c = ' '
    || (c.val ≥ 0x2000 && c.val ≤ 0x200a)
    || c = ' ' || c = ' ' || c = ' ' || c = ' ' || c = '　'

def goWordChar (c : Char) : Bool :=
  ('0' ≤ c && c ≤ '9') || ('a' ≤ c && c ≤ 'z') || ('A' ≤ c && c ≤ 'Z') || c = '_'

def goDigit (c : Char) : Bool := '0' ≤ c && c ≤ '9'

/-! ### Basic string utilities mirroring the Go standard library -/

def trimLeftChars (cs : List Char) : List Char := cs.dropWhile (fun c => goSpace c)

def trimChars (cs : List Char) : List Char :=
  ((trimLeftChars cs).reverse.dropWhile (fun c => goSpace c)).reverse

/-- Go `strings.TrimSpace`. -/
def goTrim (s : String) : String := String.mk (trimChars s.data)

/-- Go `strings.Contains` on character lists. -/
def containsChars : List Char → List Char → Bool
  | cs, pat =>
    pat.isPrefixOf cs ||
      (match cs with
       | [] => false
       | _ :: rest => containsChars rest pat)

/-- Go `strings.Index` on character lists (`none` for Go's `-1`). -/
def indexOfChars : List Char → List Char → Option Nat
  | cs, pat =>
    if pat.isPrefixOf cs then some 0
    else
      match cs with
      | [] => none
      | _ :: rest => (indexOfChars rest pat).map (· + 1)

/-- Decimal value of a digit run (the effect of `fmt.Sscanf("%d")` on the
captures of `(\d+)`, ignoring 64-bit overflow which no claim exercises). -/
def natOfDigits (cs : List Char) : Nat :=
  cs.foldl (fun n c => 10 * n + (c.toNat - '0'.toNat)) 0

/-- Fuel-based decimal printer (the effect of `fmt.Sprintf("%d")`),
structural so that concrete evaluations reduce in the kernel. -/
def natDigitsAux : Nat → Nat → List Char
  | 0, _ => []
  | fuel + 1, n =>
    if n < 10 then [Nat.digitChar n]
    else natDigitsAux fuel (n / 10) ++ [Nat.digitChar (n % 10)]

def natDigits (n : Nat) : String := String.mk (natDigitsAux (n + 1) n)

/-- Go `strings.Split(s, "\n")`. -/
def splitAux : List Char → List Char → List String
  | [], acc => [String.mk acc.reverse]
  | c :: rest, acc =>
    if c = '\n' then String.mk acc.reverse :: splitAux rest []
    else splitAux rest (c :: acc)

def splitOnNl (s : String) : List String := splitAux s.data []

/-- Go `strings.Join(ls, "\n")`. -/
def joinNl : List String → String
  | [] => ""
  | [l] => l
  | l :: ls => l ++ "\n" ++ joinNl ls

/-- UTF-8 byte length of a line (Go `len`). -/
def lineBytes (s : String) : Nat := (s.data.map Char.utf8Size).sum

def bufioMaxScanTokenSize : Nat := 65536

/-- Whether `bufio.Scanner` with the default 64 KiB buffer fails with
`ErrTooLong` on this line list: a newline-terminated (non-final) line must
fit strictly inside the buffer together with progress towards its
terminator, so any non-final line of `≥ 65536` bytes, or a final line of
`> 65536` bytes, aborts the scan. -/
def scanTooLong : List String → Bool
  | [] => false
  | [l] => decide (bufioMaxScanTokenSize < lineBytes l)
  | l :: l2 :: ls => decide (bufioMaxScanTokenSize ≤ lineBytes l) || scanTooLong (l2 :: ls)

/-- One token of Go `bufio.ScanLines`: drop a single trailing `'\r'`. -/
def dropCR (s : String) : String :=
  if s.data.getLast? = some '\r' then String.mk s.data.dropLast else s

/-- The token sequence produced by `bufio.Scanner` with `ScanLines`:
split on `'\n'`, drop the final empty token, strip one trailing `'\r'`
per token. -/
def goScanLines (s : String) : List String :=
  (if (splitOnNl s).getLast? = some "" then (splitOnNl s).dropLast
   else splitOnNl s).map dropCR

/-! ### Data model (src/internal/plan/types.go) -/

inductive StepStatus
  | pending
  | completed
  | failed
  | skipped
deriving DecidableEq, Repr

structure Step where
  number : Nat
  description : String
  status : StepStatus
  lastRun : Option String
  notes : String
  retryCount : Nat
deriving DecidableEq, Repr

instance : Inhabited Step :=
  ⟨{ number := 0, description := "", status := StepStatus.pending,
     lastRun := none, notes := "", retryCount := 0 }⟩

structure Plan where
  projectName : String
  context : String
  steps : List Step
  rawContent : String
deriving DecidableEq, Repr

structure StepResult where
  success : Bool
  output : String
  reason : String
  status : Option StepStatus
  retryCount : Nat
deriving DecidableEq, Repr

/-- `(*Plan).NextStep`: first pending-or-failed step. -/
def NextStep (p : Plan) : Option Step :=
  p.steps.find? (fun s => s.status = StepStatus.pending || s.status = StepStatus.failed)

/-- `(*Plan).IsComplete`. -/
def IsComplete (p : Plan) : Bool :=
  p.steps.all (fun s => s.status = StepStatus.completed || s.status = StepStatus.skipped)
    && !p.steps.isEmpty

/-! ### The parser's line matchers (parser.go lines 12-39)

Each matcher is a deterministic port of one anchored Go regular expression,
including the backtracking at a trailing `\s+(.+)$` (the greedy space run
gives one character back when `(.+)` would otherwise be empty). -/

/-- Count of leading regexp-whitespace characters. -/
def wsCount (cs : List Char) : Nat := (cs.takeWhile (fun c => goRegexSpace c)).length

/-- Match `\s+(.+)$` against `cs`, returning the capture. -/
def tailCapture (cs : List Char) : Option (List Char) :=
  if wsCount cs = 0 then none
  else
    if (cs.drop (wsCount cs)).isEmpty then
      if 2 ≤ wsCount cs then some (cs.drop (wsCount cs - 1)) else none
    else some (cs.drop (wsCount cs))

def stepMarkers : List Char := [' ', 'x', '!', '-']

/-- The `\s+` after the label's colon together with the outer `(.+)$`. -/
def stepColonTail (cs2 : List Char) : Option (List Char) :=
  if wsCount cs2 = 0 then none
  else
    if (cs2.drop (wsCount cs2)).isEmpty then
      if 2 ≤ wsCount cs2 then some (cs2.drop (wsCount cs2 - 1)) else none
    else some (cs2.drop (wsCount cs2))

/-- Match `\s+(\d+):\s+` then require at least one character for the outer
`(.+)$`; `cs` is positioned after the literal `Step`.  Returns the
description characters.  (The captured number is ignored by the parser.) -/

def stepLabelTail (cs : List Char) : Option (List Char) :=
  if wsCount cs = 0 then none
  else
    if ((cs.drop (wsCount cs)).takeWhile (fun c => goDigit c)).isEmpty then none
    else
      if ((cs.drop (wsCount cs)).drop
          ((cs.drop (wsCount cs)).takeWhile (fun c => goDigit c)).length).head? = some ':' then
        stepColonTail ((cs.drop (wsCount cs)).drop
          (((cs.drop (wsCount cs)).takeWhile (fun c => goDigit c)).length + 1))
      else none

/-- The `\[([ x!\-])\]\s+...` part of `stepLineRegex`, applied after the
leading `-\s+`. -/
def bracketTail (cs : List Char) : Option (Char × List Char) :=
  match cs with
  | b1 :: m :: b2 :: cs2 =>
    if b1 = '[' && b2 = ']' && m ∈ stepMarkers then
      if wsCount cs2 = 0 then none
      else
        match (if ['S', 't', 'e', 'p'].isPrefixOf (cs2.drop (wsCount cs2)) then
            stepLabelTail ((cs2.drop (wsCount cs2)).drop 4) else none) with
        | some desc => some (m, desc)
        | none =>
          if (cs2.drop (wsCount cs2)).isEmpty then
            if 2 ≤ wsCount cs2 then some (m, cs2.drop (wsCount cs2 - 1)) else none
          else some (m, cs2.drop (wsCount cs2))
    else none
  | _ => none

/-- `stepLineRegex`: `^-\s+\[([ x!\-])\]\s+(?:Step\s+(\d+):\s+)?(.+)$`.
Returns the marker and the raw description capture. -/
def matchStepLineChars (cs : List Char) : Option (Char × List Char) :=
  match cs with
  | [] => none
  | c0 :: cs1 =>
    if c0 = '-' then
      if wsCount cs1 = 0 then none
      else bracketTail (cs1.drop (wsCount cs1))
    else none

/-- `projectNameRegex`: `^#\s+Project:\s+(.+)$`. -/
def matchProjectChars (cs : List Char) : Option (List Char) :=
  match cs with
  | [] => none
  | c0 :: cs1 =>
    if c0 = '#' then
      if wsCount cs1 = 0 then none
      else
        if ['P', 'r', 'o', 'j', 'e', 'c', 't', ':'].isPrefixOf (cs1.drop (wsCount cs1)) then
          tailCapture ((cs1.drop (wsCount cs1)).drop 8)
        else none
    else none

/-- Helper for the tail of `notesSectionRegex`: `\s+(\d+)$` applied after
the literal `Step`. -/
def digitsTail (cs3 : List Char) : Option Nat :=
  if wsCount cs3 = 0 then none
  else
    if ((cs3.drop (wsCount cs3)).takeWhile (fun c => goDigit c)).isEmpty then none
    else
      if ((cs3.drop (wsCount cs3)).drop
          ((cs3.drop (wsCount cs3)).takeWhile (fun c => goDigit c)).length).isEmpty then
        some (natOfDigits ((cs3.drop (wsCount cs3)).takeWhile (fun c => goDigit c)))
      else none

def matchNotesHeaderChars (cs : List Char) : Option Nat :=
  if ['#', '#', '#'].isPrefixOf cs then
    if wsCount (cs.drop 3) = 0 then none
    else
      if ['S', 't', 'e', 'p'].isPrefixOf ((cs.drop 3).drop (wsCount (cs.drop 3))) then
        digitsTail (((cs.drop 3).drop (wsCount (cs.drop 3))).drop 4)
      else none
  else none

def statusLabel : List Char := ['*', '*', 'S', 't', 'a', 't', 'u', 's', '*', '*', ':']

/-- `statusRegex`: `^\*\*Status\*\*:\s+(\w+)$`. -/
def matchStatusChars (cs : List Char) : Option (List Char) :=
  if statusLabel.isPrefixOf cs then
    if wsCount (cs.drop statusLabel.length) = 0 then none
    else
      if ((cs.drop statusLabel.length).drop (wsCount (cs.drop statusLabel.length))).isEmpty then
        none
      else
        if ((cs.drop statusLabel.length).drop
            (wsCount (cs.drop statusLabel.length))).all (fun c => goWordChar c) then
          some ((cs.drop statusLabel.length).drop (wsCount (cs.drop statusLabel.length)))
        else none
  else none

def lastRunLabel : List Char :=
  ['*', '*', 'L', 'a', 's', 't', ' ', 'R', 'u', 'n', '*', '*', ':']

/-- `lastRunRegex`: `^\*\*Last Run\*\*:\s+(.+)$`. -/
def matchLastRunChars (cs : List Char) : Option (List Char) :=
  if lastRunLabel.isPrefixOf cs then tailCapture (cs.drop lastRunLabel.length) else none

def notesLabel : List Char := ['*', '*', 'N', 'o', 't', 'e', 's', '*', '*', ':']

/-- `notesRegex`: `^\*\*Notes\*\*:\s+(.*)$`. -/
def matchNotesChars (cs : List Char) : Option (List Char) :=
  if notesLabel.isPrefixOf cs then
    if wsCount (cs.drop notesLabel.length) = 0 then none
    else some ((cs.drop notesLabel.length).drop (wsCount (cs.drop notesLabel.length)))
  else none

def retriesLabel : List Char :=
  ['*', '*', 'R', 'e', 't', 'r', 'i', 'e', 's', '*', '*', ':']

/-- `retriesRegex`: `^\*\*Retries\*\*:\s+(\d+)$`. -/
def matchRetriesChars (cs : List Char) : Option Nat :=
  if retriesLabel.isPrefixOf cs then
    if wsCount (cs.drop retriesLabel.length) = 0 then none
    else
      if ((cs.drop retriesLabel.length).drop
          (wsCount (cs.drop retriesLabel.length))).isEmpty then none
      else
        if ((cs.drop retriesLabel.length).drop
            (wsCount (cs.drop retriesLabel.length))).all (fun c => goDigit c) then
          some (natOfDigits ((cs.drop retriesLabel.length).drop
            (wsCount (cs.drop retriesLabel.length))))
        else none
  else none

/-- `contextSectionRegex`: `^##\s+Context\s*$`. -/
def matchContextHeader (cs : List Char) : Bool :=
  if ['#', '#'].isPrefixOf cs then
    wsCount (cs.drop 2) ≠ 0 &&
      (['C', 'o', 'n', 't', 'e', 'x', 't'].isPrefixOf ((cs.drop 2).drop (wsCount (cs.drop 2)))
        && (((cs.drop 2).drop (wsCount (cs.drop 2))).drop 7).all (fun c => goRegexSpace c))
  else false

/-- `sectionHeaderRegex`: `^##\s+\w+` (prefix match, used via `MatchString`). -/
def matchSectionHeader (cs : List Char) : Bool :=
  if ['#', '#'].isPrefixOf cs then
    wsCount (cs.drop 2) ≠ 0 &&
      (match (cs.drop 2).drop (wsCount (cs.drop 2)) with
       | c :: _ => goWordChar c
       | [] => false)
  else false

/-! ### Parser (parser.go `Parse`, lines 51-199) -/

/-- `parseCheckbox` (parser.go lines 182-193). -/
def parseCheckbox (marker : Char) : StepStatus :=
  if marker = 'x' then StepStatus.completed
  else if marker = '!' then StepStatus.failed
  else if marker = '-' then StepStatus.skipped
  else StepStatus.pending

/-- The `stepNotes` accumulator (parser.go lines 175-180). -/
structure StepNotesRec where
  status : String
  lastRun : String
  notes : String
  retryCount : Nat
deriving DecidableEq, Repr

def emptyNotes : StepNotesRec := ⟨"", "", "", 0⟩

/-- Scan state of `Parse`'s single top-to-bottom loop. -/
structure PState where
  projectName : String
  steps : List Step
  stepCount : Nat
  notesMap : Nat → Option StepNotesRec
  currentNoteStep : Nat
  inNotesSection : Bool
  inContextSection : Bool
  contextLines : List String
  context : String

def initPState : PState :=
  { projectName := "", steps := [], stepCount := 0, notesMap := fun _ => none,
    currentNoteStep := 0, inNotesSection := false, inContextSection := false,
    contextLines := [], context := "" }

/-- Field handling inside an open notes block (parser.go lines 121-149). -/
def applyNotesField (st : PState) (line : String) : PState :=
  let upd := fun (f : StepNotesRec → StepNotesRec) =>
    { st with notesMap := fun k =>
        if k = st.currentNoteStep then
          some (f ((st.notesMap st.currentNoteStep).getD emptyNotes))
        else st.notesMap k }
  match matchStatusChars line.data with
  | some w => upd (fun n => { n with status := String.mk w })
  | none =>
    match matchLastRunChars line.data with
    | some cap => upd (fun n => { n with lastRun := String.mk cap })
    | none =>
      match matchNotesChars line.data with
      | some cap => upd (fun n => { n with notes := String.mk cap })
      | none =>
        match matchRetriesChars line.data with
        | some k => upd (fun n => { n with retryCount := k })
        | none =>
          match line.data with
          | c :: _ =>
            if c = '#' then { st with inNotesSection := false, currentNoteStep := 0 } else st
          | [] => st

/-- Step lines and notes blocks (parser.go lines 96-149). -/
def parseLineMain (st : PState) (line : String) : PState :=
  match matchStepLineChars line.data with
  | some (m, desc) =>
    { st with stepCount := st.stepCount + 1,
              steps := st.steps ++
                [{ number := st.stepCount + 1, description := goTrim (String.mk desc),
                   status := parseCheckbox m, lastRun := none, notes := "", retryCount := 0 }] }
  | none =>
    match matchNotesHeaderChars line.data with
    | some num =>
      { st with currentNoteStep := num, inNotesSection := true,
                notesMap := fun k =>
                  if k = num then some ((st.notesMap num).getD emptyNotes) else st.notesMap k }
    | none =>
      if st.inNotesSection && 0 < st.currentNoteStep then applyNotesField st line else st

/-- One iteration of `Parse`'s scan loop (parser.go lines 66-150). -/
def parseLine (st : PState) (line : String) : PState :=
  match matchProjectChars line.data with
  | some cap => { st with projectName := goTrim (String.mk cap) }
  | none =>
    if matchContextHeader line.data then { st with inContextSection := true }
    else if st.inContextSection && !matchSectionHeader line.data then
      { st with contextLines := st.contextLines ++ [line] }
    else
      let st1 :=
        if st.inContextSection then
          { st with context := goTrim (joinNl st.contextLines),
                    inContextSection := false, contextLines := [] }
        else st
      parseLineMain st1 line

/-- Format check standing in for Go `time.Parse("2006-01-02 15:04:05", s)`
(parser.go line 161).  Go additionally rejects calendar-impossible dates;
no claim inspects the parsed timestamp, so the coarser shape-and-range
check is never load-bearing. -/
def goTimeParseOk (s : String) : Bool :=
  match s.data with
  | [y1, y2, y3, y4, d1, m1, m2, d2, dd1, dd2, sp, h1, h2, c1, mi1, mi2, c2, s1, s2] =>
    goDigit y1 && goDigit y2 && goDigit y3 && goDigit y4 && d1 = '-' &&
    goDigit m1 && goDigit m2 && d2 = '-' && goDigit dd1 && goDigit dd2 && sp = ' ' &&
    goDigit h1 && goDigit h2 && c1 = ':' && goDigit mi1 && goDigit mi2 && c2 = ':' &&
    goDigit s1 && goDigit s2 &&
    1 ≤ natOfDigits [m1, m2] && natOfDigits [m1, m2] ≤ 12 &&
    1 ≤ natOfDigits [dd1, dd2] && natOfDigits [dd1, dd2] ≤ 31 &&
    natOfDigits [h1, h2] ≤ 23 && natOfDigits [mi1, mi2] ≤ 59 && natOfDigits [s1, s2] ≤ 59
  | _ => false

/-- Merge a notes block onto its step (parser.go lines 157-170). -/
def mergeNotes (notesMap : Nat → Option StepNotesRec) (s : Step) : Step :=
  match notesMap s.number with
  | none => s
  | some n =>
    let s1 :=
      if n.lastRun ≠ "" && n.lastRun ≠ "N/A" && goTimeParseOk n.lastRun then
        { s with lastRun := some n.lastRun }
      else s
    let s2 := if n.notes ≠ "(none)" then { s1 with notes := n.notes } else s1
    { s2 with retryCount := n.retryCount }

/-- The scan over a token list plus the merge phase. -/
def parseLines (lines : List String) (raw : String) : Plan :=
  let st := lines.foldl parseLine initPState
  { projectName := st.projectName, context := st.context,
    steps := st.steps.map (mergeNotes st.notesMap), rawContent := raw }

/-- `Parse` (parser.go line 51).  The only error path is `scanner.Err()`:
with the default `bufio.Scanner` buffer an over-long line aborts the scan. -/
def Parse (content : String) : Except String Plan :=
  if scanTooLong (splitOnNl content) then
    Except.error "error scanning plan: bufio.Scanner: token too long"
  else Except.ok (parseLines (goScanLines content) content)

/-! ### Writer (writer.go `updateStepInContent`, lines 28-177) -/

/-- `summarizeOutput`'s backward search for the last meaningful line
(writer.go lines 165-176).  Go measures the 100-character budget in bytes
and slices bytes; this is modelled in characters, which agrees on ASCII. -/
def summarizeLoop : List String → String
  | [] => "Completed successfully"
  | l :: rest =>
    let t := trimChars l.data
    if t ≠ [] && !(['S', 'T', 'E', 'P', '_'].isPrefixOf t) then
      if 100 < t.length then String.mk (t.take 97) ++ "..." else String.mk t
    else summarizeLoop rest

/-- `summarizeOutput` (writer.go lines 156-177). -/
def summarizeOutput (output : String) : String :=
  let lines := splitOnNl (goTrim output)
  if lines.isEmpty then "(no output)" else summarizeLoop lines.reverse

/-- The notes text the writer derives from a result (writer.go lines 83-87
and 134-137). -/
def notesFor (result : StepResult) : String :=
  if !result.success && result.reason ≠ "" then "Failed: " ++ result.reason
  else summarizeOutput result.output

/-- The status word the writer derives from a result (writer.go lines
74-79 and 130-133): the explicit `result.Status` override is ignored. -/
def statusWordFor (result : StepResult) : String :=
  if result.success then "completed" else "failed"

def newMarkerFor (result : StepResult) : Char :=
  if result.success then 'x' else '!'

/-- Left-to-right non-overlapping replacement of `\[([ x!])\]` by `[m]`,
fuel-based so the recursion is structural (the fuel is the list length,
which bounds the number of scan steps). -/
def updateCheckboxAux (m : Char) : Nat → List Char → List Char
  | 0, cs => cs
  | fuel + 1, cs =>
    match cs with
    | [] => []
    | c0 :: rest =>
      if c0 = '[' then
        match rest with
        | c :: c2 :: rest2 =>
          if c2 = ']' && (c = ' ' || c = 'x' || c = '!') then
            '[' :: m :: ']' :: updateCheckboxAux m fuel rest2
          else c0 :: updateCheckboxAux m fuel rest
        | _ => c0 :: updateCheckboxAux m fuel rest
      else c0 :: updateCheckboxAux m fuel rest

/-- `updateCheckbox` (writer.go lines 124-127): `ReplaceAllString` of
`\[([ x!])\]` with the new marker, over the whole line. -/
def updateCheckboxChars (m : Char) (cs : List Char) : List Char :=
  updateCheckboxAux m cs.length cs

/-- The step count after one line of the writer's first pass
(writer.go lines 40-41). -/
def pass1Count (count : Nat) (l : String) : Nat :=
  if (matchStepLineChars l.data).isSome then count + 1 else count

/-- The (possibly checkbox-rewritten) line the first pass emits
(writer.go lines 42-51). -/
def pass1Rewrite (stepNum : Nat) (newMarker : Char) (count : Nat) (l : String) : String :=
  if (matchStepLineChars l.data).isSome && pass1Count count l = stepNum then
    String.mk (updateCheckboxChars newMarker l.data)
  else l

/-- First pass over all lines (writer.go lines 39-58).  Returns the
rewritten lines, the final step count and the `notesSectionExists`
flag. -/
def pass1 (stepNum : Nat) (newMarker : Char) : List String → Nat → (List String × Nat × Bool)
  | [], count => ([], count, false)
  | l :: ls, count =>
    (pass1Rewrite stepNum newMarker count l ::
        (pass1 stepNum newMarker ls (pass1Count count l)).1,
      (pass1 stepNum newMarker ls (pass1Count count l)).2.1,
      (matchNotesHeaderChars l.data).isSome ||
        (pass1 stepNum newMarker ls (pass1Count count l)).2.2)

def stepHeaderLit : List Char := ['#', '#', '#', ' ', 'S', 't', 'e', 'p']

/-- Scan state of the writer's second pass: `inNotesSection`,
`notesStepNum` and `foundNotesSection` (writer.go lines 33-35). -/
structure W2State where
  inNotes : Bool
  curNum : Nat
  found : Bool
deriving DecidableEq, Repr

/-- The field rewriting of the second pass (writer.go lines 73-89),
applied when the scan sits inside the target step's notes block. -/
def pass2FieldRewrite (stWord notesText now : String) (l : String) : String :=
  if (matchStatusChars l.data).isSome then "**Status**: " ++ stWord
  else if (matchLastRunChars l.data).isSome then "**Last Run**: " ++ now
  else if (matchNotesChars l.data).isSome then "**Notes**: " ++ notesText
  else l

/-- One iteration of the second pass (writer.go lines 61-97).  `none` is
the Go panic path: when the scan state is inside a notes section, a line
with prefix `### Step` that does not fully match `notesSectionRegex`
makes writer.go line 92 index a nil submatch slice.  On a line that does
match `notesSectionRegex`, the leave-check at line 92 compares the
just-assigned `notesStepNum` with the number parsed from the same line,
so it never clears `inNotesSection` there; the `some k` branch bakes in
that equality. -/
def pass2Line (stepNum : Nat) (stWord notesText now : String) (st : W2State) (l : String) :
    Option (String × W2State) :=
  match matchNotesHeaderChars l.data with
  | some k =>
    some ((if k = stepNum then pass2FieldRewrite stWord notesText now l else l),
      { inNotes := true, curNum := k, found := st.found || decide (k = stepNum) })
  | none =>
    if st.inNotes && stepHeaderLit.isPrefixOf l.data then none
    else
      some ((if st.inNotes && st.curNum = stepNum then
          pass2FieldRewrite stWord notesText now l
        else l), st)

/-- Second pass over all lines. -/
def pass2 (stepNum : Nat) (stWord notesText now : String) :
    List String → W2State → Option (List String × W2State)
  | [], st => some ([], st)
  | l :: ls, st =>
    match pass2Line stepNum stWord notesText now st l with
    | none => none
    | some (l1, st1) =>
      match pass2 stepNum stWord notesText now ls st1 with
      | none => none
      | some (rest, st2) => some (l1 :: rest, st2)

/-- `createNotesSectionForStep` (writer.go lines 129-143) with the
timestamp made explicit. -/
def createNotesSectionForStep (stepNum : Nat) (result : StepResult) (now : String) : String :=
  "### Step " ++ natDigits stepNum ++ "\n**Status**: " ++ statusWordFor result ++
    "\n**Last Run**: " ++ now ++ "\n**Notes**: " ++ notesFor result

/-- `insertAfter` (writer.go lines 145-154). -/
def insertAfter (slice : List String) (index : Nat) (value : String) : List String :=
  if slice.length ≤ index then slice ++ ["", value]
  else slice.take index ++ ["", value] ++ slice.drop index

def notesSectionLit : List Char := ['#', '#', ' ', 'N', 'o', 't', 'e', 's']

/-- Boundary test of the backward scan (writer.go line 108). -/
def isNotesBoundary (l : String) : Bool :=
  notesSectionLit.isPrefixOf l.data || stepHeaderLit.isPrefixOf l.data

/-- Index of the last boundary line (writer.go lines 107-118). -/
def findLastNotesIdx (output : List String) : Option Nat :=
  match output.reverse.findIdx? isNotesBoundary with
  | some j => some (output.length - 1 - j)
  | none => none

/-- Skip condition of the insertion cursor (writer.go line 111). -/
def insertSkip (l : String) : Bool :=
  goTrim l ≠ "" || ['*', '*'].isPrefixOf (goTrim l).data

def advanceFrom (output : List String) (start : Nat) : Nat :=
  start + ((output.drop start).takeWhile (fun l => insertSkip l)).length

/-- `updateStepInContent` (writer.go lines 28-122), with `time.Now()`
made the explicit `now` parameter.  `none` models the reachable runtime
panic at writer.go line 92. -/
def updateStepInContent (content : String) (stepNum : Nat) (result : StepResult)
    (now : String) : Option String :=
  match pass2 stepNum (statusWordFor result) (notesFor result) now
      (pass1 stepNum (newMarkerFor result) (splitOnNl content) 0).1
      { inNotes := false, curNum := 0, found := false } with
  | none => none
  | some (output, stF) =>
    some (joinNl (
      if !(pass1 stepNum (newMarkerFor result) (splitOnNl content) 0).2.2 then
        output ++ ["", "## Notes", "", createNotesSectionForStep stepNum result now]
      else if !stF.found then
        match findLastNotesIdx output with
        | none => output
        | some i =>
          insertAfter output (advanceFrom output (i + 1))
            (createNotesSectionForStep stepNum result now)
      else output))

/-! ### Result evaluation (builder.go `ParseResult`, lines 70-118) -/

def completeLit : List Char :=
  ['S', 'T', 'E', 'P', '_', 'C', 'O', 'M', 'P', 'L', 'E', 'T', 'E']

def failedTag : List Char :=
  ['S', 'T', 'E', 'P', '_', 'F', 'A', 'I', 'L', 'E', 'D', ':']

/-- Backward scan over the transcript lines (builder.go lines 74-110);
the input list is the line list reversed. -/
def parseResultLoop (output : String) : List String → StepResult
  | [] =>
    { success := false, output := output,
      reason := "No STEP_COMPLETE or STEP_FAILED marker found in output",
      status := none, retryCount := 0 }
  | l :: rest =>
    let t := trimChars l.data
    if t = completeLit then
      { success := true, output := output, reason := "", status := none, retryCount := 0 }
    else if failedTag.isPrefixOf t then
      { success := false, output := output, reason := String.mk (trimChars (t.drop 12)),
        status := none, retryCount := 0 }
    else if containsChars t completeLit then
      { success := true, output := output, reason := "", status := none, retryCount := 0 }
    else if containsChars t failedTag then
      { success := false, output := output,
        reason := String.mk (trimChars (t.drop ((indexOfChars t failedTag).getD 0 + 12))),
        status := none, retryCount := 0 }
    else parseResultLoop output rest

/-- `ParseResult` (builder.go lines 70-118). -/
def ParseResult (output : String) : StepResult :=
  parseResultLoop output (splitOnNl output).reverse

/-! ### Orchestration loop fragments (runner.go) -/

/-- A finite IEEE-754 binary64 value, as a dyadic rational
`m * 2 ^ e`.  Go's `float64` is binary64, and `time.Duration` is an
`int64` nanosecond count; `calculateBackoff` (runner.go lines 178-184)
converts the duration to `float64`, multiplies by the `float64` backoff
factor, and converts back. -/
structure F64 where
  m : ℤ
  e : ℤ
deriving DecidableEq, Repr

/-- The exact rational value of a finite double. -/
def F64.val (x : F64) : ℚ :=
  if 0 ≤ x.e then (x.m : ℚ) * 2 ^ x.e.toNat else (x.m : ℚ) / 2 ^ (-x.e).toNat

/-- The number of binary digits of `n` (`0` for `0`), with the fuel
argument only stepped down as the value is halved, so that it reduces
on literals. -/
def natBitsAux : ℕ → ℕ → ℕ
  | 0, _ => 0
  | fuel + 1, n => if n = 0 then 0 else natBitsAux fuel (n / 2) + 1

def natBits (n : ℕ) : ℕ := natBitsAux n n

/-- `|m| * 2 ^ e` does not exceed the largest finite binary64 value
`(2^53 - 1) * 2^971`. -/
def fitsFinite (m e : ℤ) : Bool :=
  if 0 ≤ e then m.natAbs * 2 ^ e.toNat ≤ (2 ^ 53 - 1) * 2 ^ 971
  else m.natAbs ≤ (2 ^ 53 - 1) * 2 ^ 971 * 2 ^ (-e).toNat

/-- Round the dyadic rational `m * 2 ^ e` to the nearest binary64 value,
ties to even — the rounding IEEE-754 (and the Go spec, for both the
integer-to-float conversion and `float64` multiplication) prescribes:
53 significant bits for normal magnitudes, a granularity floor of
`2 ^ -1074` in the subnormal range, and overflow to infinity (`none`)
past the largest finite value. -/
def roundDyadic (m e : ℤ) : Option F64 :=
  if m = 0 then some ⟨0, 0⟩ else
  let n := m.natAbs
  let bits : ℤ := natBits n
  let g : ℤ := max (e + bits - 53) (-1074)
  if g ≤ e then
    if fitsFinite m e then some ⟨m, e⟩ else none
  else
    let shift := (g - e).toNat
    let q := n / 2 ^ shift
    let r := n % 2 ^ shift
    let half := 2 ^ (shift - 1)
    let q2 : ℕ := if r < half ∨ (r = half ∧ q % 2 = 0) then q else q + 1
    if fitsFinite (m.sign * q2) g then some ⟨m.sign * q2, g⟩ else none

/-- Go `float64(d)` on an `int64`: rounds to the nearest double (never
infinite for `int64` magnitudes). -/
def floatOfInt (i : ℤ) : Option F64 := roundDyadic i 0

/-- Go `float64` multiplication: the exact product, rounded. -/
def fmul (x y : F64) : Option F64 := roundDyadic (x.m * y.m) (x.e + y.e)

/-- Discard the fraction of a finite double, truncating toward zero. -/
def truncF64 (x : F64) : ℤ :=
  if 0 ≤ x.e then x.m * 2 ^ x.e.toNat
  else x.m.sign * (x.m.natAbs / 2 ^ (-x.e).toNat : ℕ)

def int64Max : ℤ := 2 ^ 63 - 1

def int64Min : ℤ := -(2 ^ 63)

/-- Go `time.Duration(x)` on a `float64`: the fraction is discarded
(truncation toward zero); if the result does not fit in `int64` the Go
spec leaves the value implementation-dependent, modelled `none`. -/
def durationOfFloat (x : F64) : Option ℤ :=
  let t := truncF64 x
  if int64Min ≤ t ∧ t ≤ int64Max then some t else none

/-- The loop body of `calculateBackoff` (runner.go lines 180-182):
`delay = time.Duration(float64(delay) * factor)`, iterated `k` times. -/
def backoffLoop (factor : F64) : Nat → ℤ → Option ℤ
  | 0, d => some d
  | k + 1, d =>
    match floatOfInt d with
    | none => none
    | some fd =>
      match fmul fd factor with
      | none => none
      | some p =>
        match durationOfFloat p with
        | none => none
        | some d2 => backoffLoop factor k d2

/-- `calculateBackoff` (runner.go lines 178-184): the delay starts at
`config.RetryDelay` (an `int64` nanosecond `time.Duration`) and is
multiplied `retryCount - 1` times by the `float64` factor. -/
def calculateBackoff (retryDelay : ℤ) (factor : F64) (retryCount : Nat) : Option ℤ :=
  backoffLoop factor (retryCount - 1) retryDelay

/-- The default `BackoffFactor` 2.0 as a binary64 value. -/
def defaultBackoffFactor : F64 := ⟨1, 1⟩

/-- The binary64 value nearest 1.1 (a representable non-dyadic config
factor: `2476979795053773 * 2 ^ -51`). -/
def factor1p1 : F64 := ⟨2476979795053773, -51⟩

/-- The result the runner builds on the retry-budget path
(runner.go lines 85-90). -/
def skipResult (maxRetries retryCount : Nat) : StepResult :=
  { success := false, output := "",
    reason := "Skipped after " ++ natDigits maxRetries ++ " failed attempts",
    status := some StepStatus.skipped, retryCount := retryCount }

/-- Retry-count bookkeeping before persisting (runner.go lines 151-156). -/
def persistResult (parsed : StepResult) (stepRetryCount : Nat) : StepResult :=
  if parsed.success then { parsed with retryCount := stepRetryCount }
  else { parsed with retryCount := stepRetryCount + 1 }

/-! ### Canonical annotated documents

The round-trip and idempotence claims are settled on the family of
documents in the canonical shape that `WriteFile` (writer.go lines
180-227) produces and that `updateStepInContent` maintains: a title
line, a `## Plan` section of checkbox lines, and a `## Notes` section
holding one block per step (with an optional `**Retries**` field, which
the grammar recognizes).  All text values are quantified over, subject
to the `Benign` side conditions. -/

structure CStep where
  marker : Char
  desc : String
  statusText : String
  lastRunText : String
  notesText : String
  retriesText : Option String
deriving DecidableEq, Repr

structure CanonDoc where
  name : String
  steps : List CStep
deriving DecidableEq, Repr

def stepLineOf (i : Nat) (s : CStep) : String :=
  "- [" ++ String.mk [s.marker] ++ "] Step " ++ natDigits i ++ ": " ++ s.desc

def stepLinesFrom : Nat → List CStep → List String
  | _, [] => []
  | i, s :: ss => stepLineOf i s :: stepLinesFrom (i + 1) ss

def blockOf (i : Nat) (s : CStep) : List String :=
  ["", "### Step " ++ natDigits i, "**Status**: " ++ s.statusText,
   "**Last Run**: " ++ s.lastRunText, "**Notes**: " ++ s.notesText] ++
    (match s.retriesText with
     | some t => ["**Retries**: " ++ t]
     | none => [])

def blocksFrom : Nat → List CStep → List String
  | _, [] => []
  | i, s :: ss => blockOf i s ++ blocksFrom (i + 1) ss

def canonLinesCore (d : CanonDoc) : List String :=
  ["# Project: " ++ d.name, "", "## Plan", ""] ++ stepLinesFrom 1 d.steps ++
    ["", "## Notes"] ++ blocksFrom 1 d.steps

def canonLines (d : CanonDoc) : List String := canonLinesCore d ++ [""]

def canonText (d : CanonDoc) : String := joinNl (canonLines d)

/-- A value may appear at the end of a document line: it contains no
newline and does not end in `'\r'` (so `bufio.ScanLines` leaves it
intact). -/
def okLine (s : String) : Prop := '\n' ∉ s.data ∧ s.data.getLast? ≠ some '\r'

instance (s : String) : Decidable (okLine s) := by unfold okLine; infer_instance

def BenignStep (s : CStep) : Prop :=
  s.marker ∈ stepMarkers ∧
  okLine s.desc ∧ goTrim s.desc = s.desc ∧ s.desc ≠ "" ∧ '[' ∉ s.desc.data ∧
    s.desc.length ≤ 2000 ∧
  s.statusText ≠ "" ∧ (∀ c ∈ s.statusText.data, goWordChar c) ∧ s.statusText.length ≤ 2000 ∧
  okLine s.lastRunText ∧ s.lastRunText ≠ "" ∧
    (∀ c, s.lastRunText.data.head? = some c → goRegexSpace c = false) ∧
    s.lastRunText.length ≤ 2000 ∧
  okLine s.notesText ∧
    (∀ c, s.notesText.data.head? = some c → goRegexSpace c = false) ∧
    s.notesText.length ≤ 2000 ∧
  (∀ t, s.retriesText = some t → t ≠ "" ∧ (∀ c ∈ t.data, goDigit c) ∧ t.length ≤ 2000)

instance (s : CStep) : Decidable (BenignStep s) := by unfold BenignStep; infer_instance

def BenignDoc (d : CanonDoc) : Prop :=
  okLine d.name ∧ goTrim d.name = d.name ∧ d.name ≠ "" ∧ d.name.length ≤ 2000 ∧
    d.steps.length ≤ 2000 ∧ ∀ s ∈ d.steps, BenignStep s

instance (d : CanonDoc) : Decidable (BenignDoc d) := by unfold BenignDoc; infer_instance

def BenignNow (now : String) : Prop :=
  okLine now ∧ now ≠ "" ∧
    (∀ c, now.data.head? = some c → goRegexSpace c = false) ∧ now.length ≤ 2000

instance (s : String) : Decidable (BenignNow s) := by unfold BenignNow; infer_instance

def BenignResult (r : StepResult) : Prop :=
  (∀ c ∈ r.reason.data, c ≠ '\n' ∧ c ≠ '\r') ∧ r.reason.length ≤ 1000

instance (r : StepResult) : Decidable (BenignResult r) := by
  unfold BenignResult; infer_instance

def isPlainMarker (c : Char) : Bool := c = ' ' || c = 'x' || c = '!'

/-- The effect of one `updateStepInContent` call on the target step of a
canonical document: the checkbox is rewritten only from a plain marker
(`[-]` is left alone, writer.go line 125 has no `-` in its class), the
status word and timestamp are rewritten, the notes field is replaced by
the derived notes text, and the `**Retries**` field is left untouched. -/
def updCStep (s : CStep) (r : StepResult) (now : String) : CStep :=
  { s with
    marker := if isPlainMarker s.marker then newMarkerFor r else s.marker,
    statusText := statusWordFor r,
    lastRunText := now,
    notesText := notesFor r }

/-- Replace the step labelled `n` by its updated form, walking the list
with its 1-based label `j`. -/
def updStepsFrom (r : StepResult) (now : String) (n : Nat) : Nat → List CStep → List CStep
  | _, [] => []
  | j, s :: ss => (if j = n then updCStep s r now else s) :: updStepsFrom r now n (j + 1) ss

def canonUpdate (d : CanonDoc) (n : Nat) (r : StepResult) (now : String) : CanonDoc :=
  { d with steps := updStepsFrom r now n 1 d.steps }

/-- The marker rewriting performed by the writer's first pass on the
target step's checkbox line. -/
def markCStep (mk : Char) (s : CStep) : CStep :=
  { s with marker := if isPlainMarker s.marker then mk else s.marker }

def markStepsFrom (mk : Char) (n : Nat) : Nat → List CStep → List CStep
  | _, [] => []
  | j, s :: ss => (if j = n then markCStep mk s else s) :: markStepsFrom mk n (j + 1) ss

/-- The field rewriting performed by the writer's second pass on the
target step's annotation block. -/
def fieldUpdFrom (n : Nat) (sw nt now : String) : Nat → List CStep → List CStep
  | _, [] => []
  | j, s :: ss =>
    (if j = n then { s with statusText := sw, lastRunText := now, notesText := nt } else s) ::
      fieldUpdFrom n sw nt now (j + 1) ss

/-- Erase the timestamp value of a canonical step (the document-level
counterpart of `eraseLastRun`). -/
def eraseLRStep (s : CStep) : CStep := { s with lastRunText := "-" }

/-- The `Step` the parser reconstructs from one canonical step. -/
def stepOf (i : Nat) (s : CStep) : Step :=
  { number := i, description := s.desc, status := parseCheckbox s.marker,
    lastRun :=
      if s.lastRunText ≠ "" && s.lastRunText ≠ "N/A" && goTimeParseOk s.lastRunText then
        some s.lastRunText
      else none,
    notes := if s.notesText = "(none)" then "" else s.notesText,
    retryCount :=
      match s.retriesText with
      | some t => natOfDigits t.data
      | none => 0 }

def canonParsedSteps : Nat → List CStep → List Step
  | _, [] => []
  | i, s :: ss => stepOf (i + 1) s :: canonParsedSteps (i + 1) ss

def planOf (d : CanonDoc) : Plan :=
  { projectName := d.name, context := "", steps := canonParsedSteps 0 d.steps,
    rawContent := canonText d }

/-- Erase the values of all `**Last Run**` lines of a document, the
equivalence used to state "identical except for the timestamp field". -/
def eraseLastRun (s : String) : String :=
  joinNl ((splitOnNl s).map fun l =>
    if (matchLastRunChars l.data).isSome then "**Last Run**: -" else l)

/-- The per-line action of `eraseLastRun`. -/
def eraseLine (l : String) : String :=
  if (matchLastRunChars l.data).isSome then "**Last Run**: -" else l

/-- The canonical document with every step's timestamp erased. -/
def erasedDoc (d : CanonDoc) : CanonDoc := ⟨d.name, d.steps.map eraseLRStep⟩

/-! ### Concrete documents used by counterexamples and witnesses -/

/-- A document whose `## Context` block contains a checkbox-shaped line:
the parser swallows it as context text while the writer's first pass
counts it as a step line. -/
def ctxDoc : String := "## Context\n- [ ] a\n## Plan\n- [ ] b"

/-- A plan document whose only step is Skipped. -/
def skippedDoc : String := "- [-] Step 1: a"

/-- A plan document whose only step is Failed with a recorded retry
count of 3 (the default retry budget). -/
def budgetDoc : String :=
  "- [!] Step 1: alpha\n\n## Notes\n\n### Step 1\n**Status**: failed\n**Last Run**: N/A\n**Notes**: x\n**Retries**: 3\n"

/-- A plan document whose only step is Failed with a recorded retry
count of 1. -/
def retryDoc : String :=
  "- [!] Step 1: alpha\n\n## Notes\n\n### Step 1\n**Status**: failed\n**Last Run**: N/A\n**Notes**: x\n**Retries**: 1\n"

/-- A document with an annotated block for step 2 only, a stray
field line after a blank separator, and a single checkbox line. -/
def strayDoc : String := "- [ ] a\n### Step 2\n**Status**: old\n\n**Notes**: stray"

def okResult : StepResult :=
  { success := true, output := "ok", reason := "", status := none, retryCount := 0 }

/-- A transcript line list with a failure sentinel before a success
sentinel and another failure sentinel after it. -/
def lateFailTranscript : String := "STEP_FAILED: a\nSTEP_COMPLETE\nSTEP_FAILED: b"

/-- A single line of 65537 `'a'` characters: one byte beyond the default
`bufio.Scanner` token limit. -/
def longLine : String := String.mk (List.replicate 65537 'a')

def witnessNow : String := "2026-01-01 00:00:00"

/-- One-step canonical document used by witnesses. -/
def witnessDoc : CanonDoc :=
  { name := "Demo",
    steps := [{ marker := ' ', desc := "alpha", statusText := "pending",
                lastRunText := "N/A", notesText := "(none)", retriesText := some "2" }] }

instance : Inhabited CStep :=
  ⟨{ marker := ' ', desc := "", statusText := "", lastRunText := "",
     notesText := "", retriesText := none }⟩

/-! ### Auxiliary definitions for the parser theorems -/

/-- The checkbox markers the scan recognizes as step lines, in document
order, tracking only the context flag (the sole piece of scan state that
decides whether a checkbox-shaped line becomes a step). -/
def markersScan : List String → Bool → List Char
  | [], _ => []
  | l :: ls, inCtx =>
    if (matchProjectChars l.data).isSome then markersScan ls inCtx
    else if matchContextHeader l.data then markersScan ls true
    else if inCtx && !matchSectionHeader l.data then markersScan ls true
    else
      match matchStepLineChars l.data with
      | some (m, _) => m :: markersScan ls false
      | none => markersScan ls false

/-- Agreement of two notes accumulators on everything except the Status
field (which the merge phase never reads). -/
def notesRelOpt : Option StepNotesRec → Option StepNotesRec → Prop
  | none, none => True
  | some a, some b => a.lastRun = b.lastRun ∧ a.notes = b.notes ∧ a.retryCount = b.retryCount
  | _, _ => False

/-- Agreement of two scan states on everything the step list depends on:
only the context accumulator and the Status fields of the notes map may
differ. -/
def pStateRel (s1 s2 : PState) : Prop :=
  s1.projectName = s2.projectName ∧ s1.steps = s2.steps ∧ s1.stepCount = s2.stepCount ∧
    s1.currentNoteStep = s2.currentNoteStep ∧ s1.inNotesSection = s2.inNotesSection ∧
    s1.inContextSection = s2.inContextSection ∧
    ∀ k, notesRelOpt (s1.notesMap k) (s2.notesMap k)

/-- Two lines that are either identical or both `**Status**:` field
lines. -/
def statusLineRel (a b : String) : Prop :=
  a = b ∨ ((matchStatusChars a.data).isSome ∧ (matchStatusChars b.data).isSome)

/-! ### Auxiliary definitions for the canonical-document theorems -/

/-- The notes accumulator the parser builds from one canonical block. -/
def recOf (s : CStep) : StepNotesRec :=
  { status := s.statusText, lastRun := s.lastRunText, notes := s.notesText,
    retryCount :=
      match s.retriesText with
      | some t => natOfDigits t.data
      | none => 0 }

/-- The notes map after scanning the canonical blocks for `ss` keyed from
`j`. -/
def notesMapOf (m : Nat → Option StepNotesRec) : Nat → List CStep → (Nat → Option StepNotesRec)
  | _, [] => m
  | j, s :: ss => notesMapOf (fun k => if k = j then some (recOf s) else m k) (j + 1) ss

/-- The raw (pre-merge) steps produced by the scan phase for the
canonical step lines, numbered from `base + 1`. -/
def mkRawSteps : Nat → List CStep → List Step
  | _, [] => []
  | base, s :: ss =>
    { number := base + 1, description := s.desc, status := parseCheckbox s.marker,
      lastRun := none, notes := "", retryCount := 0 } :: mkRawSteps (base + 1) ss

/-- The projection of a step the round-trip claim compares: description,
status, notes and retry count (everything except the timestamp). -/
def stepCore (s : Step) : String × StepStatus × String × Nat :=
  (s.description, s.status, s.notes, s.retryCount)

/-! ## Theorems -/

/-- C8 counterexample: the identity
`delay = retryDelay * backoffFactor ^ (retryCount - 1)` fails in the
program.  Even at the defaults (retryDelay = 5s, factor = 2.0),
retryCount = 32 drives the final `float64 → time.Duration` conversion
past `int64`, where the Go result is implementation-dependent (modelled
`none`) — and no `int64` at all can equal `5e9 * 2^31 > 2^63 - 1`.
With the non-dyadic factor nearest 1.1 and retryCount = 2, the
`float64` product of the exactly-converted 5e9 rounds and the
conversion truncates, giving 5500000000 ns, while the exact formula
value `5e9 * val(1.1)` is not an integer at all. -/
theorem c8_backoff_cex :
    calculateBackoff 5000000000 defaultBackoffFactor 32 = none ∧
    int64Max < 5000000000 * 2 ^ 31 ∧
    calculateBackoff 5000000000 factor1p1 2 = some 5500000000 ∧
    ((5500000000 : ℚ) ≠ 5000000000 * factor1p1.val) := by
  refine ⟨by decide, by decide, by decide, ?_⟩
  show (5500000000 : ℚ) ≠ 5000000000 *
    (if (0 : ℤ) ≤ -51 then ((2476979795053773 : ℤ) : ℚ) * 2 ^ (51 : ℤ).toNat
     else ((2476979795053773 : ℤ) : ℚ) / 2 ^ (-(-51) : ℤ).toNat)
  rw [if_neg (by decide)]
  have h51 : ((-(-51) : ℤ)).toNat = 51 := rfl
  rw [h51]
  norm_num

/-- C8 (amended): with the default configuration (retryDelay = 5s =
5e9 ns, backoffFactor = 2.0) every conversion and multiplication in
`calculateBackoff` is exact and in range for 1 ≤ retryCount ≤ 31, so
the computed delay equals `retryDelay * 2 ^ (retryCount - 1)` — in
particular retryCount = 3 yields exactly 20 seconds.  Beyond that the
original claim fails: at retryCount = 32 the `float64 → int64`
conversion overflows (implementation-dependent in Go), and for
non-dyadic factors `float64` rounding plus truncation already breaks
the exact identity (see the counterexample). -/
theorem c8_backoff (retryCount : Nat) (h1 : 1 ≤ retryCount) (h2 : retryCount ≤ 31) :
    calculateBackoff 5000000000 defaultBackoffFactor retryCount =
      some (5000000000 * 2 ^ (retryCount - 1)) := by
  interval_cases retryCount <;> rfl

/-- Witness for C8 (amended): the defaults with retryCount = 3 give a
delay of exactly 20 seconds (20e9 ns). -/
theorem c8_backoff_witness :
    (1 : Nat) ≤ 3 ∧ (3 : Nat) ≤ 31 ∧
      calculateBackoff 5000000000 defaultBackoffFactor 3 =
        some (5000000000 * 2 ^ (3 - 1)) ∧
      (5000000000 * 2 ^ (3 - 1) : ℤ) = 20000000000 :=
  ⟨by decide, by decide, c8_backoff 3 (by decide) (by decide), by decide⟩

/-- C2 (code bug): a plan whose first pending-or-failed step has
retryCount = 3 = maxRetries takes the retry-budget branch (runner.go
lines 82-95), which builds a result with the explicit Skipped override;
but `updateStepInContent` never reads `result.Status` (writer.go lines
44-49 and 74-79 branch only on `result.Success`), so the persisted
document shows the step as Failed — re-parsing yields `failed`, not
`skipped`, and the loop will take the same branch forever. -/
theorem c2_skip_persists_failed_not_skipped :
    ∃ p : Plan, Parse budgetDoc = Except.ok p ∧
      (NextStep p).map (fun s => (s.number, s.retryCount)) = some (1, 3) ∧
      (skipResult 3 3).status = some StepStatus.skipped ∧
      ∃ d', updateStepInContent budgetDoc 1 (skipResult 3 3) witnessNow = some d' ∧
        ∃ p', Parse d' = Except.ok p' ∧
          p'.steps.map (fun s => s.status) = [StepStatus.failed] := by
  refine ⟨_, rfl, ?_, ?_, _, rfl, _, rfl, ?_⟩ <;> rfl

/-- C3 (code bug): after a failed attempt the runner persists a result
carrying `retryCount + 1` (runner.go lines 151-156), but the writer's
field rewriting (writer.go lines 73-89) handles only the Status, Last
Run and Notes fields and never writes or updates a `**Retries**` field,
so re-parsing yields the old retry count (here 1, not 2). -/
theorem c3_retry_count_not_persisted :
    (persistResult (ParseResult "STEP_FAILED: boom") 1).retryCount = 2 ∧
    ∃ d', updateStepInContent retryDoc 1
        (persistResult (ParseResult "STEP_FAILED: boom") 1) witnessNow = some d' ∧
      ∃ p', Parse d' = Except.ok p' ∧ p'.steps.map (fun s => s.retryCount) = [1] := by
  refine ⟨rfl, _, rfl, _, rfl, ?_⟩ <;> rfl

/-- C1 counterexample: on a document whose target step is Skipped the
writer's checkbox rewrite (writer.go line 125, class `[ x!]` without
`-`) leaves the marker untouched, so the re-parsed target step does not
carry the status dictated by the successful result. -/
theorem c1_round_trip_cex :
    okResult.success = true ∧
    ∃ d', updateStepInContent skippedDoc 1 okResult witnessNow = some d' ∧
      ∃ p', Parse d' = Except.ok p' ∧
        p'.steps.map (fun s => s.status) = [StepStatus.skipped] := by
  refine ⟨rfl, _, rfl, _, rfl, ?_⟩ <;> rfl

/-- C4 counterexample: a transcript with a failure sentinel after the
success sentinel evaluates to failure — "any transcript containing a
`STEP_FAILED: x` line and `STEP_COMPLETE` on a later line evaluates to
success" fails as stated when yet another sentinel follows. -/
theorem c4_sentinel_cex :
    splitOnNl lateFailTranscript = ["STEP_FAILED: a", "STEP_COMPLETE", "STEP_FAILED: b"] ∧
    (ParseResult lateFailTranscript).success = false := by
  exact ⟨rfl, rfl⟩

/-- C7 counterexample: applying the same result to the same step twice,
with the same timestamp, differs beyond the Last Run field.  The first
application inserts the new block before a stray field line (writer.go
lines 105-118), and the second application then rewrites that stray
line because it now lies inside the target step's block region. -/
theorem c7_idempotence_cex :
    ∃ d1 d2, updateStepInContent strayDoc 1 okResult "T" = some d1 ∧
      updateStepInContent d1 1 okResult "T" = some d2 ∧
      eraseLastRun d2 ≠ eraseLastRun d1 := by
  refine ⟨_, _, rfl, rfl, ?_⟩
  decide

/-- C9 counterexample: in a document whose `## Context` block contains a
checkbox-shaped line, two lines match the checkbox grammar but the
parser swallows the one inside the context block, so the parsed steps
are not numbered `1..N` for N = the count of matching lines. -/
theorem c9_numbering_cex :
    (splitOnNl ctxDoc).countP (fun l => (matchStepLineChars l.data).isSome) = 2 ∧
    ∃ p, Parse ctxDoc = Except.ok p ∧ p.steps.map (fun s => s.number) = [1] ∧
      p.steps.map (fun s => s.number) ≠ List.range' 1 2 := by
  refine ⟨rfl, _, rfl, rfl, ?_⟩
  decide

/-! ### Splitting lemmas -/

theorem splitAux_no_nl : ∀ (cs acc : List Char), '\n' ∉ cs →
    splitAux cs acc = [String.mk (acc.reverse ++ cs)]
  | [], acc, _ => by simp [splitAux]
  | c :: rest, acc, h => by
    have hc : ¬(c = '\n') := fun hh => h (hh ▸ List.mem_cons_self c rest)
    rw [splitAux, if_neg hc, splitAux_no_nl rest (c :: acc) (fun hm => h (List.mem_cons_of_mem c hm))]
    simp

theorem splitOnNl_longLine : splitOnNl longLine = [longLine] := by
  show splitAux (String.mk (List.replicate 65537 'a')).data [] = [longLine]
  rw [show (String.mk (List.replicate 65537 'a')).data = List.replicate 65537 'a' from rfl,
    splitAux_no_nl]
  · rw [List.reverse_nil, List.nil_append]
    rfl
  · intro hmem
    rw [List.mem_replicate] at hmem
    exact absurd hmem.2 (by decide)

theorem lineBytes_longLine : lineBytes longLine = 65537 := by
  show ((List.replicate 65537 'a').map Char.utf8Size).sum = 65537
  rw [List.map_replicate, List.sum_replicate]
  simp [Char.utf8Size]

/-- C6 counterexample: `Parse` does fail on a sufficiently long input:
a single line of 65537 bytes exceeds `bufio.MaxScanTokenSize`, the scan
stops with `ErrTooLong`, and parser.go line 152 returns the error. -/
theorem c6_parse_total_cex :
    Parse longLine = Except.error "error scanning plan: bufio.Scanner: token too long" := by
  unfold Parse
  rw [if_pos]
  rw [splitOnNl_longLine]
  show (decide (bufioMaxScanTokenSize < lineBytes longLine)) = true
  rw [lineBytes_longLine]
  decide

theorem scanTooLong_eq_false : ∀ ls : List String,
    (∀ l ∈ ls, lineBytes l < bufioMaxScanTokenSize) → scanTooLong ls = false
  | [], _ => rfl
  | [l], h => by
    have := h l (List.mem_singleton.mpr rfl)
    simp [scanTooLong]
    omega
  | l :: l2 :: ls, h => by
    have h1 := h l (List.mem_cons_self l (l2 :: ls))
    rw [scanTooLong, scanTooLong_eq_false (l2 :: ls)
      (fun x hx => h x (List.mem_cons_of_mem l hx))]
    simp
    omega

/-- C6 amended: `Parse` never returns an error and silently skips
unrecognized lines, for every input whose lines are each shorter than
the 64 KiB `bufio.Scanner` token limit; with an over-long line the scan
aborts (see the counterexample). -/
theorem c6_parse_total (content : String)
    (h : ∀ l ∈ splitOnNl content, lineBytes l < bufioMaxScanTokenSize) :
    Parse content = Except.ok (parseLines (goScanLines content) content) := by
  unfold Parse
  rw [scanTooLong_eq_false (splitOnNl content) h]
  simp

/-- Witness for C6: a small two-line document parses successfully. -/
theorem c6_parse_total_witness :
    Parse "hello\n- [ ] Step 1: x" =
      Except.ok (parseLines (goScanLines "hello\n- [ ] Step 1: x") "hello\n- [ ] Step 1: x") :=
  c6_parse_total "hello\n- [ ] Step 1: x" (by decide)

/-! ### Sentinel-scan lemmas -/

theorem containsChars_iff (pat : List Char) : ∀ cs, containsChars cs pat = true ↔ pat <:+: cs
  | [] => by
    rw [containsChars]
    simp [List.isPrefixOf_iff_prefix]
  | c :: rest => by
    rw [containsChars, List.infix_cons_iff]
    simp [List.isPrefixOf_iff_prefix, containsChars_iff pat rest]

theorem trimChars_within (cs : List Char) : trimChars cs <:+: cs := by
  have h1 : trimLeftChars cs <:+ cs := List.dropWhile_suffix _
  have h2 : trimChars cs <+: trimLeftChars cs := by
    have h3 : (trimLeftChars cs).reverse.dropWhile (fun c => goSpace c) <:+
        (trimLeftChars cs).reverse := List.dropWhile_suffix _
    have h4 := (@List.reverse_suffix Char
      (((trimLeftChars cs).reverse.dropWhile (fun c => goSpace c)).reverse)
      (trimLeftChars cs)).mp (by simpa using h3)
    exact h4
  exact h2.isInfix.trans h1.isInfix

theorem not_contains_trim {cs pat : List Char} (h : containsChars cs pat = false) :
    containsChars (trimChars cs) pat = false := by
  by_contra hne
  have ht : containsChars (trimChars cs) pat = true := by
    cases hcc : containsChars (trimChars cs) pat
    · exact absurd hcc hne
    · rfl
  have : pat <:+: cs := ((containsChars_iff pat _).mp ht).trans (trimChars_within cs)
  rw [(containsChars_iff pat cs).mpr this] at h
  exact Bool.noConfusion h

/-- A line with neither sentinel leaves the backward scan unchanged. -/
theorem parseResultLoop_skip (output : String) :
    ∀ (ls rest : List String),
      (∀ l ∈ ls, containsChars l.data completeLit = false ∧
          containsChars l.data failedTag = false) →
      parseResultLoop output (ls ++ rest) = parseResultLoop output rest
  | [], _, _ => rfl
  | l :: ls, rest, h => by
    obtain ⟨hc, hf⟩ := h l (List.mem_cons_self l ls)
    have hc' := not_contains_trim hc
    have hf' := not_contains_trim hf
    have hne : ¬(trimChars l.data = completeLit) := by
      intro he
      rw [he, (containsChars_iff completeLit completeLit).mpr (List.infix_refl _)] at hc'
      exact Bool.noConfusion hc'
    have hnp : ¬(failedTag.isPrefixOf (trimChars l.data) = true) := by
      intro hp
      rw [(containsChars_iff failedTag _).mpr
        ((List.isPrefixOf_iff_prefix.mp hp).isInfix)] at hf'
      exact Bool.noConfusion hf'
    rw [List.cons_append, parseResultLoop, if_neg hne]
    rw [if_neg hnp, if_neg (by simp [hc']), if_neg (by simp [hf'])]
    exact parseResultLoop_skip output ls rest (fun x hx => h x (List.mem_cons_of_mem l hx))

/-- A line that contains the success sentinel and does not start with the
failure tag makes the backward scan succeed. -/
theorem parseResultLoop_success (output : String) (l : String) (rest : List String)
    (hj : containsChars (trimChars l.data) completeLit = true)
    (hjf : failedTag.isPrefixOf (trimChars l.data) = false) :
    (parseResultLoop output (l :: rest)).success = true := by
  rw [parseResultLoop]
  by_cases he : trimChars l.data = completeLit
  · rw [if_pos he]
  · rw [if_neg he, if_neg (by simp [hjf]), if_pos (by simp [hj])]

/-- C5: a transcript none of whose lines contains the success sentinel
or the failure tag evaluates to failure with the fixed diagnostic
reason, the whole transcript preserved as the result's output, and the
zero-values for the remaining fields (builder.go lines 112-117). -/
theorem c5_no_sentinel (output : String)
    (h : ∀ l ∈ splitOnNl output, containsChars l.data completeLit = false ∧
        containsChars l.data failedTag = false) :
    ParseResult output =
      { success := false, output := output,
        reason := "No STEP_COMPLETE or STEP_FAILED marker found in output",
        status := none, retryCount := 0 } := by
  unfold ParseResult
  have := parseResultLoop_skip output (splitOnNl output).reverse []
    (fun l hl => h l (List.mem_reverse.mp hl))
  rw [List.append_nil] at this
  rw [this]
  rfl

/-- Witness for C5: a sentinel-free transcript. -/
theorem c5_no_sentinel_witness :
    ParseResult "hello\nworld" =
      { success := false, output := "hello\nworld",
        reason := "No STEP_COMPLETE or STEP_FAILED marker found in output",
        status := none, retryCount := 0 } :=
  c5_no_sentinel "hello\nworld" (by decide)

/-- C4 amended: the evaluation scans from the last line backward and the
first sentinel wins; hence a transcript containing a failure-tagged line
and, on a later line, the success sentinel (exact or embedded) evaluates
to success, provided that the success-bearing line does not itself start
(after trimming) with the failure tag and that no line after it contains
either sentinel.  (Without that proviso the claim fails: see the
counterexample, where a final failure line wins.) -/
theorem c4_sentinel_precedence (output : String) (pre post : List String) (lj : String)
    (hsplit : splitOnNl output = pre ++ lj :: post)
    (hfail : ∃ lf ∈ pre, containsChars lf.data failedTag = true)
    (hj : containsChars (trimChars lj.data) completeLit = true)
    (hjf : failedTag.isPrefixOf (trimChars lj.data) = false)
    (hpost : ∀ l ∈ post, containsChars l.data completeLit = false ∧
        containsChars l.data failedTag = false) :
    (ParseResult output).success = true := by
  unfold ParseResult
  rw [hsplit, List.reverse_append, List.reverse_cons, List.append_assoc,
    List.singleton_append]
  rw [parseResultLoop_skip output post.reverse (lj :: pre.reverse)
    (fun l hl => hpost l (List.mem_reverse.mp hl))]
  exact parseResultLoop_success output lj pre.reverse hj hjf

/-- Witness for C4: an early failure line followed by a final success
sentinel evaluates to success. -/
theorem c4_sentinel_precedence_witness :
    (ParseResult "STEP_FAILED: a\nSTEP_COMPLETE").success = true :=
  c4_sentinel_precedence "STEP_FAILED: a\nSTEP_COMPLETE"
    ["STEP_FAILED: a"] [] "STEP_COMPLETE" (by decide)
    (by decide) (by decide) (by decide) (by decide)

/-! ### Positional numbering -/

/-- Every scan iteration either leaves the step list and counter alone or
appends exactly one step numbered `stepCount + 1`. -/
theorem parseLine_steps_shape (st : PState) (l : String) :
    ((parseLine st l).steps = st.steps ∧ (parseLine st l).stepCount = st.stepCount) ∨
    (∃ m desc, (parseLine st l).steps = st.steps ++
        [{ number := st.stepCount + 1, description := desc, status := parseCheckbox m,
           lastRun := none, notes := "", retryCount := 0 }] ∧
      (parseLine st l).stepCount = st.stepCount + 1) := by
  unfold parseLine
  split
  · exact Or.inl ⟨rfl, rfl⟩
  · split
    · exact Or.inl ⟨rfl, rfl⟩
    · split
      · exact Or.inl ⟨rfl, rfl⟩
      · have hsplit : (if st.inContextSection then
            { st with context := goTrim (joinNl st.contextLines),
                      inContextSection := false, contextLines := ([] : List String) }
            else st).steps = st.steps ∧
            (if st.inContextSection then
            { st with context := goTrim (joinNl st.contextLines),
                      inContextSection := false, contextLines := ([] : List String) }
            else st).stepCount = st.stepCount := by
          split <;> exact ⟨rfl, rfl⟩
        generalize hst1 : (if st.inContextSection then
            { st with context := goTrim (joinNl st.contextLines),
                      inContextSection := false, contextLines := ([] : List String) }
            else st) = st1 at hsplit
        obtain ⟨he1, he2⟩ := hsplit
        unfold parseLineMain
        split
        · rename_i m desc _
          refine Or.inr ⟨m, goTrim (String.mk desc), ?_, ?_⟩ <;> simp [he1, he2]
        · split
          · exact Or.inl ⟨he1, he2⟩
          · dsimp only
            split
            · unfold applyNotesField
              split
              · exact Or.inl ⟨he1, he2⟩
              · split
                · exact Or.inl ⟨he1, he2⟩
                · split
                  · exact Or.inl ⟨he1, he2⟩
                  · split
                    · exact Or.inl ⟨he1, he2⟩
                    · split
                      · split
                        · exact Or.inl ⟨he1, he2⟩
                        · exact Or.inl ⟨he1, he2⟩
                      · exact Or.inl ⟨he1, he2⟩
            · exact Or.inl ⟨he1, he2⟩

theorem foldl_parseLine_numbers : ∀ (ls : List String) (st : PState),
    st.steps.map (fun s => s.number) = List.range' 1 st.steps.length →
    st.stepCount = st.steps.length →
    (ls.foldl parseLine st).steps.map (fun s => s.number) =
        List.range' 1 (ls.foldl parseLine st).steps.length ∧
      (ls.foldl parseLine st).stepCount = (ls.foldl parseLine st).steps.length
  | [], st, h1, h2 => ⟨h1, h2⟩
  | l :: ls, st, h1, h2 => by
    rw [List.foldl_cons]
    rcases parseLine_steps_shape st l with ⟨e1, e2⟩ | ⟨m, desc, e1, e2⟩
    · exact foldl_parseLine_numbers ls (parseLine st l) (by rw [e1]; exact h1)
        (by rw [e1, e2]; exact h2)
    · refine foldl_parseLine_numbers ls (parseLine st l) ?_ ?_
      · rw [e1]
        simp only [List.map_append, List.length_append, List.map_cons, List.map_nil,
          List.length_cons, List.length_nil]
        rw [h1, h2]
        have hrc := @List.range'_concat 1 1 st.steps.length
        simp only [one_mul, Nat.add_comm 1 st.steps.length] at hrc
        rw [← hrc]
      · rw [e1, e2, h2]
        simp

theorem mergeNotes_number (m : Nat → Option StepNotesRec) (s : Step) :
    (mergeNotes m s).number = s.number := by
  unfold mergeNotes
  split
  · rfl
  · split <;> split <;> rfl

/-- C9 amended: the steps of every successfully parsed plan are numbered
exactly `1..N` in document order, where `N` is the number of parsed steps
(the count of checkbox-grammar lines processed outside any context
block); numbering is positional, independent of the `Step n:` labels.
(The original claim's `N` — the count of all lines matching the checkbox
grammar — over-counts lines swallowed by a context block: see the
counterexample.) -/
theorem c9_numbering (content : String) (p : Plan) (h : Parse content = Except.ok p) :
    p.steps.map (fun s => s.number) = List.range' 1 p.steps.length := by
  unfold Parse at h
  split at h
  · cases h
  · have hp : p = parseLines (goScanLines content) content := by
      cases h; rfl
    subst hp
    unfold parseLines
    obtain ⟨h1, _⟩ := foldl_parseLine_numbers (goScanLines content) initPState rfl rfl
    simp only []
    rw [show ∀ (ss : List Step) (m : Nat → Option StepNotesRec),
        (ss.map (mergeNotes m)).map (fun s => s.number) = ss.map (fun s => s.number)
      from fun ss m => by simp [Function.comp, mergeNotes_number], List.length_map]
    exact h1

/-- Witness for C9 (amended): a two-step document with labels that do not
match the positions still gets positional numbers 1, 2. -/
theorem c9_numbering_witness :
    ∃ p, Parse "- [ ] Step 7: a\n- [x] Step 9: b" = Except.ok p ∧
      p.steps.map (fun s => s.number) = List.range' 1 p.steps.length := by
  have hp : Parse "- [ ] Step 7: a\n- [x] Step 9: b" =
      Except.ok (parseLines (goScanLines "- [ ] Step 7: a\n- [x] Step 9: b")
        "- [ ] Step 7: a\n- [x] Step 9: b") := rfl
  exact ⟨_, hp, c9_numbering _ _ hp⟩

/-! ### Checkbox markers decide statuses -/

theorem mergeNotes_status (m : Nat → Option StepNotesRec) (s : Step) :
    (mergeNotes m s).status = s.status := by
  unfold mergeNotes
  split
  · rfl
  · split <;> split <;> rfl

/-- Fields and flags of the notes-field handler: it never touches the
step list, the step counter or the context flag. -/
theorem applyNotesField_inert (st : PState) (l : String) :
    (applyNotesField st l).steps = st.steps ∧
      (applyNotesField st l).stepCount = st.stepCount ∧
      (applyNotesField st l).inContextSection = st.inContextSection := by
  unfold applyNotesField
  split
  · exact ⟨rfl, rfl, rfl⟩
  · split
    · exact ⟨rfl, rfl, rfl⟩
    · split
      · exact ⟨rfl, rfl, rfl⟩
      · split
        · exact ⟨rfl, rfl, rfl⟩
        · split
          · split <;> exact ⟨rfl, rfl, rfl⟩
          · exact ⟨rfl, rfl, rfl⟩

theorem foldl_parseLine_statuses (ls : List String) : ∀ (st : PState),
    (ls.foldl parseLine st).steps.map (fun s => s.status) =
      st.steps.map (fun s => s.status) ++
        (markersScan ls st.inContextSection).map parseCheckbox := by
  induction ls with
  | nil => intro st; simp [markersScan]
  | cons l ls ih =>
    intro st
    rw [List.foldl_cons]
    cases hproj : matchProjectChars l.data with
    | some cap =>
      have hps : parseLine st l = { st with projectName := goTrim (String.mk cap) } := by
        unfold parseLine
        rw [hproj]
      rw [hps, markersScan, if_pos (by rw [hproj]; rfl)]
      exact ih _
    | none =>
      by_cases hctx : matchContextHeader l.data = true
      · have hps : parseLine st l = { st with inContextSection := true } := by
          unfold parseLine
          rw [hproj, if_pos hctx]
        rw [hps, markersScan, if_neg (by rw [hproj]; simp), if_pos hctx]
        exact ih _
      · by_cases hin : (st.inContextSection && !matchSectionHeader l.data) = true
        · have hps : parseLine st l = { st with contextLines := st.contextLines ++ [l] } := by
            unfold parseLine
            rw [hproj, if_neg hctx, if_pos hin]
          have hctxtrue : st.inContextSection = true := by
            cases hc : st.inContextSection
            · rw [hc] at hin; simp at hin
            · rfl
          rw [hps, markersScan, if_neg (by rw [hproj]; simp), if_neg hctx, if_pos hin]
          have hfold := ih { st with contextLines := st.contextLines ++ [l] }
          dsimp only at hfold
          rw [hfold, hctxtrue]
        · have hps : parseLine st l = parseLineMain
              (if st.inContextSection then
                { st with context := goTrim (joinNl st.contextLines),
                          inContextSection := false, contextLines := [] }
              else st) l := by
            unfold parseLine
            rw [hproj, if_neg hctx, if_neg hin]
          rw [hps]
          generalize hst1 : (if st.inContextSection then
              { st with context := goTrim (joinNl st.contextLines),
                        inContextSection := false, contextLines := [] }
            else st) = st1
          rw [markersScan, if_neg (by rw [hproj]; simp), if_neg hctx, if_neg hin]
          have hsteps1 : st1.steps = st.steps := by
            rw [← hst1]; split <;> rfl
          have hctx1 : st1.inContextSection = false := by
            rw [← hst1]
            split
            · rfl
            · rename_i hf
              cases hc : st.inContextSection
              · rfl
              · exact absurd hc hf
          cases hstep : matchStepLineChars l.data with
          | some md =>
            obtain ⟨m, desc⟩ := md
            have hpm : parseLineMain st1 l =
                { st1 with
                  stepCount := st1.stepCount + 1,
                  steps := st1.steps ++
                    [{ number := st1.stepCount + 1, description := goTrim (String.mk desc),
                       status := parseCheckbox m, lastRun := none, notes := "",
                       retryCount := 0 }] } := by
              unfold parseLineMain
              rw [hstep]
            rw [hpm]
            have hfold := ih
              { st1 with
                stepCount := st1.stepCount + 1,
                steps := st1.steps ++
                  [{ number := st1.stepCount + 1, description := goTrim (String.mk desc),
                     status := parseCheckbox m, lastRun := none, notes := "",
                     retryCount := 0 }] }
            dsimp only at hfold
            rw [hfold, hsteps1, hctx1]
            simp
          | none =>
            cases hhdr : matchNotesHeaderChars l.data with
            | some num =>
              have hpm : parseLineMain st1 l =
                  { st1 with
                    currentNoteStep := num,
                    inNotesSection := true,
                    notesMap := fun k =>
                      if k = num then some ((st1.notesMap num).getD emptyNotes)
                      else st1.notesMap k } := by
                unfold parseLineMain
                rw [hstep, hhdr]
              rw [hpm]
              have hfold := ih
                { st1 with
                  currentNoteStep := num,
                  inNotesSection := true,
                  notesMap := fun k =>
                    if k = num then some ((st1.notesMap num).getD emptyNotes)
                    else st1.notesMap k }
              dsimp only at hfold
              rw [hfold, hsteps1, hctx1]
            | none =>
              have hpm : parseLineMain st1 l =
                  (if st1.inNotesSection && decide (0 < st1.currentNoteStep) then
                    applyNotesField st1 l else st1) := by
                unfold parseLineMain
                rw [hstep, hhdr]
              rw [hpm]
              split
              · have hfold := ih (applyNotesField st1 l)
                rw [hfold, (applyNotesField_inert st1 l).1, hsteps1,
                  (applyNotesField_inert st1 l).2.2, hctx1]
              · have hfold := ih st1
                rw [hfold, hsteps1, hctx1]

/-- A `**Status**:` field line matches none of the matchers that decide
step recognition or scan-state transitions. -/
theorem statusLine_profile {cs : List Char} (h : (matchStatusChars cs).isSome = true) :
    matchProjectChars cs = none ∧ matchContextHeader cs = false ∧
      matchSectionHeader cs = false ∧ matchStepLineChars cs = none := by
  have hpre : statusLabel.isPrefixOf cs = true := by
    by_contra hn
    have hfalse : statusLabel.isPrefixOf cs = false := by
      cases hb : statusLabel.isPrefixOf cs
      · rfl
      · exact absurd hb hn
    unfold matchStatusChars at h
    rw [if_neg (by rw [hfalse]; simp)] at h
    simp at h
  obtain ⟨t, ht⟩ := List.isPrefixOf_iff_prefix.mp hpre
  subst ht
  refine ⟨rfl, rfl, rfl, rfl⟩

/-- A `**Status**:` line is transparent to the marker scan. -/
theorem markersScan_statusLine {l : String} (h : (matchStatusChars l.data).isSome = true)
    (ls : List String) (b : Bool) : markersScan (l :: ls) b = markersScan ls b := by
  obtain ⟨q1, q2, q3, q4⟩ := statusLine_profile h
  rw [markersScan, if_neg (by rw [q1]; simp), if_neg (by rw [q2]; simp)]
  cases b
  · rw [if_neg (by simp), q4]
  · rw [if_pos (by rw [q3]; rfl)]

/-- Documents that differ only in their `**Status**:` field values have
the same recognized markers. -/
theorem markersScan_rel : ∀ (ls1 ls2 : List String) (b : Bool),
    List.Forall₂ statusLineRel ls1 ls2 → markersScan ls1 b = markersScan ls2 b := by
  intro ls1 ls2 b hrel
  induction hrel generalizing b with
  | nil => rfl
  | cons hl hrest ih =>
    rename_i l1 l2 t1 t2
    rcases hl with hl | ⟨hs1, hs2⟩
    · subst hl
      rw [markersScan, markersScan]
      split
      · exact ih _
      · split
        · exact ih _
        · split
          · exact ih _
          · split
            · rw [ih _]
            · exact ih _
    · rw [markersScan_statusLine hs1, markersScan_statusLine hs2]
      exact ih _

/-- C10: (a) every parsed step's status is exactly the checkbox mapping
of its source marker — the statuses of a parsed plan are the markers the
scan recognizes, mapped through `parseCheckbox` (space ↦ pending, `x` ↦
completed, `!` ↦ failed, `-` ↦ skipped); and (b) the `**Status**:` field
is recognized by the scanner (stored in the notes accumulator) but never
affects any step's status: two documents whose token lists differ only in
`**Status**:` lines parse to plans with identical step statuses. -/
theorem c10_checkbox_status (d1 d2 : String) (p1 p2 : Plan)
    (h1 : Parse d1 = Except.ok p1) (h2 : Parse d2 = Except.ok p2)
    (hrel : List.Forall₂ statusLineRel (goScanLines d1) (goScanLines d2)) :
    p1.steps.map (fun s => s.status) =
        (markersScan (goScanLines d1) false).map parseCheckbox ∧
      p1.steps.map (fun s => s.status) = p2.steps.map (fun s => s.status) := by
  have key : ∀ (d : String) (p : Plan), Parse d = Except.ok p →
      p.steps.map (fun s => s.status) =
        (markersScan (goScanLines d) false).map parseCheckbox := by
    intro d p h
    unfold Parse at h
    split at h
    · cases h
    · have hp : p = parseLines (goScanLines d) d := by cases h; rfl
      subst hp
      unfold parseLines
      simp only []
      rw [show ∀ (ss : List Step) (m : Nat → Option StepNotesRec),
          (ss.map (mergeNotes m)).map (fun s => s.status) = ss.map (fun s => s.status)
        from fun ss m => by simp [Function.comp, mergeNotes_status]]
      have := foldl_parseLine_statuses (goScanLines d) initPState
      simpa using this
  refine ⟨key d1 p1 h1, ?_⟩
  rw [key d1 p1 h1, key d2 p2 h2, markersScan_rel _ _ false hrel]

/-- Witness for C10: two documents that differ only in the value of a
`**Status**:` line parse to the same step statuses, which are the
checkbox mapping of their markers. -/
theorem c10_checkbox_status_witness :
    ∃ p1 p2, Parse "- [x] a\n### Step 1\n**Status**: pending" = Except.ok p1 ∧
      Parse "- [x] a\n### Step 1\n**Status**: wild" = Except.ok p2 ∧
      p1.steps.map (fun s => s.status) =
        (markersScan (goScanLines "- [x] a\n### Step 1\n**Status**: pending") false).map
          parseCheckbox ∧
      p1.steps.map (fun s => s.status) = p2.steps.map (fun s => s.status) := by
  have h := c10_checkbox_status "- [x] a\n### Step 1\n**Status**: pending"
    "- [x] a\n### Step 1\n**Status**: wild" _ _ rfl rfl
    (List.Forall₂.cons (Or.inl rfl)
      (List.Forall₂.cons (Or.inl rfl)
        (List.Forall₂.cons (Or.inr ⟨by decide, by decide⟩) List.Forall₂.nil)))
  exact ⟨_, _, rfl, rfl, h.1, h.2⟩

/-! ### Character-class and scanning utilities -/

theorem wsCount_cons (c : Char) (cs : List Char) :
    wsCount (c :: cs) = if goRegexSpace c then wsCount cs + 1 else 0 := by
  unfold wsCount
  cases h : goRegexSpace c <;> simp [List.takeWhile_cons, h]

theorem goRegexSpace_cases {c : Char} (h : goRegexSpace c = true) :
    c = ' ' ∨ c = '\t' ∨ c = '\n' ∨ c = '\x0c' ∨ c = '\r' := by
  unfold goRegexSpace at h
  simp only [Bool.or_eq_true, decide_eq_true_eq] at h
  tauto

theorem goRegexSpace_goSpace {c : Char} (h : goRegexSpace c = true) : goSpace c = true := by
  rcases goRegexSpace_cases h with h1 | h1 | h1 | h1 | h1 <;> subst h1 <;> decide

theorem not_goRegexSpace {c : Char} (h : goSpace c = false) : goRegexSpace c = false := by
  cases hr : goRegexSpace c
  · rfl
  · rw [goRegexSpace_goSpace hr] at h
    cases h

theorem goWordChar_not_space {c : Char} (h : goWordChar c = true) : goRegexSpace c = false := by
  cases hr : goRegexSpace c
  · rfl
  · exfalso
    rcases goRegexSpace_cases hr with h1 | h1 | h1 | h1 | h1 <;> subst h1 <;>
      exact absurd h (by decide)

theorem goDigit_not_space {c : Char} (h : goDigit c = true) : goRegexSpace c = false := by
  cases hr : goRegexSpace c
  · rfl
  · exfalso
    rcases goRegexSpace_cases hr with h1 | h1 | h1 | h1 | h1 <;> subst h1 <;>
      exact absurd h (by decide)

theorem head?_dropWhile {p : Char → Bool} : ∀ {cs : List Char} {c : Char},
    (cs.dropWhile p).head? = some c → p c = false
  | [], c, h => by cases h
  | x :: cs, c, h => by
    rw [List.dropWhile_cons] at h
    split at h
    · exact head?_dropWhile h
    · rename_i hp
      rw [List.head?_cons, Option.some_inj] at h
      rw [← h]
      cases hpx : p x
      · rfl
      · exact absurd hpx hp

theorem trimChars_prefix (cs : List Char) : trimChars cs <+: trimLeftChars cs := by
  have h3 : (trimLeftChars cs).reverse.dropWhile (fun c => goSpace c) <:+
      (trimLeftChars cs).reverse := List.dropWhile_suffix _
  exact (@List.reverse_suffix Char
    (((trimLeftChars cs).reverse.dropWhile (fun c => goSpace c)).reverse)
    (trimLeftChars cs)).mp (by simpa using h3)

theorem trim_head {cs : List Char} {c : Char} (h : (trimChars cs).head? = some c) :
    goSpace c = false := by
  obtain ⟨t, ht⟩ := trimChars_prefix cs
  have hh : (trimLeftChars cs).head? = some c := by
    rw [← ht, List.head?_append, h]
    rfl
  exact head?_dropWhile hh

theorem trim_getLast {cs : List Char} {c : Char} (h : (trimChars cs).getLast? = some c) :
    goSpace c = false := by
  unfold trimChars at h
  rw [List.getLast?_reverse] at h
  exact head?_dropWhile h

theorem takeWhile_all_stop {p : Char → Bool} :
    ∀ (ds : List Char) (x : Char) (rest : List Char), (∀ c ∈ ds, p c = true) →
      p x = false → (ds ++ x :: rest).takeWhile p = ds
  | [], x, rest, _, hx => by simp [List.takeWhile_cons, hx]
  | d :: ds, x, rest, hd, hx => by
    have h1 := hd d (List.mem_cons_self d ds)
    rw [List.cons_append, List.takeWhile_cons, if_pos (by rw [h1])]
    rw [takeWhile_all_stop ds x rest (fun c hc => hd c (List.mem_cons_of_mem d hc)) hx]

theorem takeWhile_all {p : Char → Bool} :
    ∀ (ds : List Char), (∀ c ∈ ds, p c = true) → ds.takeWhile p = ds
  | [], _ => rfl
  | d :: ds, hd => by
    rw [List.takeWhile_cons, if_pos (by rw [hd d (List.mem_cons_self d ds)]),
      takeWhile_all ds (fun c hc => hd c (List.mem_cons_of_mem d hc))]

theorem natOfDigits_concat (ds : List Char) (c : Char) :
    natOfDigits (ds ++ [c]) = 10 * natOfDigits ds + (c.toNat - '0'.toNat) := by
  unfold natOfDigits
  rw [List.foldl_append]
  rfl

theorem digitChar_digit {m : Nat} (h : m < 10) : goDigit (Nat.digitChar m) = true := by
  interval_cases m <;> decide

theorem digitChar_val {m : Nat} (h : m < 10) :
    (Nat.digitChar m).toNat - '0'.toNat = m := by
  interval_cases m <;> decide

theorem natDigitsAux_spec : ∀ (fuel n : Nat), n < fuel →
    natDigitsAux fuel n ≠ [] ∧ (∀ c ∈ natDigitsAux fuel n, goDigit c = true) ∧
      natOfDigits (natDigitsAux fuel n) = n
  | 0, n, h => absurd h (Nat.not_lt_zero n)
  | fuel + 1, n, h => by
    by_cases h10 : n < 10
    · rw [natDigitsAux, if_pos h10]
      refine ⟨by simp, ?_, ?_⟩
      · intro c hc
        rw [List.mem_singleton] at hc
        subst hc
        exact digitChar_digit h10
      · show natOfDigits ([] ++ [Nat.digitChar n]) = n
        rw [natOfDigits_concat, digitChar_val h10]
        have hz : natOfDigits ([] : List Char) = 0 := rfl
        omega
    · rw [natDigitsAux, if_neg h10]
      have hlt : n / 10 < fuel := by
        have h1 : n / 10 < n := Nat.div_lt_self (by omega) (by omega)
        omega
      obtain ⟨hne, hdig, hval⟩ := natDigitsAux_spec fuel (n / 10) hlt
      refine ⟨by simp, ?_, ?_⟩
      · intro c hc
        rw [List.mem_append, List.mem_singleton] at hc
        rcases hc with hc | hc
        · exact hdig c hc
        · subst hc
          exact digitChar_digit (Nat.mod_lt n (by omega))
      · rw [natOfDigits_concat, hval, digitChar_val (Nat.mod_lt n (by omega))]
        omega

theorem natDigits_ne_nil (n : Nat) : (natDigits n).data ≠ [] :=
  (natDigitsAux_spec (n + 1) n (Nat.lt_succ_self n)).1

theorem natDigits_digits (n : Nat) : ∀ c ∈ (natDigits n).data, goDigit c = true :=
  (natDigitsAux_spec (n + 1) n (Nat.lt_succ_self n)).2.1

theorem natDigits_val (n : Nat) : natOfDigits (natDigits n).data = n :=
  (natDigitsAux_spec (n + 1) n (Nat.lt_succ_self n)).2.2

theorem natDigits_length_le (n : Nat) : (natDigits n).length ≤ n + 1 := by
  show (natDigitsAux (n + 1) n).length ≤ n + 1
  have key : ∀ (fuel n : Nat), (natDigitsAux fuel n).length ≤ fuel := by
    intro fuel
    induction fuel with
    | zero => intro n; simp [natDigitsAux]
    | succ f ih =>
      intro n
      rw [natDigitsAux]
      split
      · simp
      · have := ih (n / 10)
        simp only [List.length_append, List.length_cons, List.length_nil]
        omega
  exact key (n + 1) n

/-! ### Joining and splitting canonical text -/

theorem splitAux_append_nl : ∀ (cs rest acc : List Char), '\n' ∉ cs →
    splitAux (cs ++ '\n' :: rest) acc = String.mk (acc.reverse ++ cs) :: splitAux rest []
  | [], rest, acc, _ => by simp [splitAux]
  | c :: cs, rest, acc, h => by
    have hc : ¬(c = '\n') := fun hh => h (hh ▸ List.mem_cons_self c cs)
    rw [List.cons_append, splitAux, if_neg hc,
      splitAux_append_nl cs rest (c :: acc) (fun hm => h (List.mem_cons_of_mem c hm))]
    simp

theorem splitOnNl_joinNl : ∀ ls : List String, ls ≠ [] → (∀ l ∈ ls, '\n' ∉ l.data) →
    splitOnNl (joinNl ls) = ls
  | [], h, _ => absurd rfl h
  | [l], _, hl => by
    show splitAux l.data [] = [l]
    rw [splitAux_no_nl l.data [] (hl l (List.mem_singleton.mpr rfl))]
    simp
  | l :: l2 :: ls, _, hl => by
    show splitAux (l ++ "\n" ++ joinNl (l2 :: ls)).data [] = l :: l2 :: ls
    rw [show (l ++ "\n" ++ joinNl (l2 :: ls)).data =
      l.data ++ '\n' :: (joinNl (l2 :: ls)).data from by simp]
    rw [splitAux_append_nl l.data _ [] (hl l (List.mem_cons_self l (l2 :: ls)))]
    rw [show splitAux (joinNl (l2 :: ls)).data [] = splitOnNl (joinNl (l2 :: ls)) from rfl]
    rw [splitOnNl_joinNl (l2 :: ls) (by simp)
      (fun x hx => hl x (List.mem_cons_of_mem l hx))]
    simp

theorem dropCR_eq {s : String} (h : s.data.getLast? ≠ some '\r') : dropCR s = s := by
  unfold dropCR
  rw [if_neg h]

/-! ### Matcher characterizations on canonical line shapes -/

theorem wsCount_zero_of_head {cs : List Char}
    (h : ∀ c, cs.head? = some c → goRegexSpace c = false) : wsCount cs = 0 := by
  cases cs with
  | nil => rfl
  | cons c cs' => rw [wsCount_cons, if_neg (by rw [h c rfl]; simp)]

theorem wsCount_one_of_head {cs : List Char}
    (h : ∀ c, cs.head? = some c → goRegexSpace c = false) : wsCount (' ' :: cs) = 1 := by
  rw [wsCount_cons, if_pos (by decide), wsCount_zero_of_head h]

theorem benign_head_not_ws {s : String} (htrim : goTrim s = s) {c : Char}
    (h : s.data.head? = some c) : goRegexSpace c = false := by
  have hd : s.data = trimChars s.data := (congrArg String.data htrim).symm
  rw [hd] at h
  exact not_goRegexSpace (trim_head h)

theorem data_ne_nil_of_ne {s : String} (h : s ≠ "") : s.data ≠ [] := by
  intro hd
  exact h (by cases s; cases hd; rfl)

theorem head_not_ws_of_all_word {x : String} (hw : ∀ c ∈ x.data, goWordChar c = true) :
    ∀ c, x.data.head? = some c → goRegexSpace c = false := by
  intro c hc
  cases hd : x.data with
  | nil => rw [hd] at hc; cases hc
  | cons c0 cs0 =>
    rw [hd, List.head?_cons, Option.some_inj] at hc
    rw [← hc]
    exact goWordChar_not_space (hw c0 (hd ▸ List.mem_cons_self c0 cs0))

theorem head_not_ws_of_all_digit {x : List Char} (hd : ∀ c ∈ x, goDigit c = true) :
    ∀ c, x.head? = some c → goRegexSpace c = false := by
  intro c hc
  cases hdd : x with
  | nil => rw [hdd] at hc; cases hc
  | cons c0 cs0 =>
    rw [hdd, List.head?_cons, Option.some_inj] at hc
    rw [← hc]
    exact goDigit_not_space (hd c0 (hdd ▸ List.mem_cons_self c0 cs0))

theorem tailCapture_canon {x : List Char} (hx : x ≠ [])
    (hh : ∀ c, x.head? = some c → goRegexSpace c = false) :
    tailCapture (' ' :: x) = some x := by
  unfold tailCapture
  rw [wsCount_one_of_head hh]
  simp [hx]

theorem head?_append_left {x : List Char} (y : List Char) {c : Char}
    (h : x.head? = some c) : (x ++ y).head? = some c := by
  rw [List.head?_append, h]
  rfl

theorem prefix_isPrefixOf (x y : List Char) : x.isPrefixOf (x ++ y) = true := by
  simp [List.isPrefixOf_iff_prefix]

theorem drop_left_succ : ∀ (l : List Char) (x : Char) (t : List Char),
    (l ++ x :: t).drop (l.length + 1) = t
  | [], _, _ => rfl
  | c :: l, x, t => by
    rw [List.cons_append]
    show (l ++ x :: t).drop (l.length + 1) = t
    exact drop_left_succ l x t

/-- `matchProjectChars` on a canonical title line with a nonempty name. -/
theorem matchProject_canon (name : String) (hne : name ≠ "") (htrim : goTrim name = name) :
    matchProjectChars ("# Project: " ++ name).data = some name.data := by
  have hdata : ("# Project: " ++ name).data =
      '#' :: ' ' :: 'P' :: 'r' :: 'o' :: 'j' :: 'e' :: 'c' :: 't' :: ':' :: ' ' :: name.data := by
    rw [String.data_append]
    rfl
  rw [hdata]
  simp only [matchProjectChars, if_true]
  rw [wsCount_one_of_head (fun c hc => by
    rw [List.head?_cons, Option.some_inj] at hc
    rw [← hc]
    decide)]
  have e1 : (('P' : Char) :: 'r' :: 'o' :: 'j' :: 'e' :: 'c' :: 't' :: ':' :: ' ' ::
      name.data).drop 0 = 'P' :: 'r' :: 'o' :: 'j' :: 'e' :: 'c' :: 't' :: ':' :: ' ' ::
      name.data := rfl
  rw [if_neg (by decide)]
  have e2 : ((' ' : Char) :: 'P' :: 'r' :: 'o' :: 'j' :: 'e' :: 'c' :: 't' :: ':' :: ' ' ::
      name.data).drop 1 = 'P' :: 'r' :: 'o' :: 'j' :: 'e' :: 'c' :: 't' :: ':' :: ' ' ::
      name.data := rfl
  rw [e2, if_pos (by simp [List.isPrefixOf])]
  have e3 : (('P' : Char) :: 'r' :: 'o' :: 'j' :: 'e' :: 'c' :: 't' :: ':' :: ' ' ::
      name.data).drop 8 = ' ' :: name.data := rfl
  rw [e3]
  exact tailCapture_canon (data_ne_nil_of_ne hne) (fun c hc => benign_head_not_ws htrim hc)

/-- `matchProjectChars` on a canonical title line with an empty name. -/
theorem matchProject_canon_empty :
    matchProjectChars ("# Project: " ++ "").data = none := by
  decide

theorem matchStatus_canon (x : String) (hx : x ≠ "")
    (hw : ∀ c ∈ x.data, goWordChar c = true) :
    matchStatusChars ("**Status**: " ++ x).data = some x.data := by
  have hdata : ("**Status**: " ++ x).data = statusLabel ++ ' ' :: x.data := by
    rw [String.data_append]
    rfl
  rw [hdata]
  unfold matchStatusChars
  rw [if_pos (prefix_isPrefixOf _ _), List.drop_left,
    wsCount_one_of_head (head_not_ws_of_all_word hw)]
  have e1 : (' ' :: x.data).drop 1 = x.data := rfl
  rw [if_neg (by decide), e1]
  rw [if_neg (by simp [data_ne_nil_of_ne hx]), if_pos (by simp; intro c hc; exact hw c hc)]

theorem matchLastRun_canon (x : String) (hx : x ≠ "")
    (hh : ∀ c, x.data.head? = some c → goRegexSpace c = false) :
    matchLastRunChars ("**Last Run**: " ++ x).data = some x.data := by
  have hdata : ("**Last Run**: " ++ x).data = lastRunLabel ++ ' ' :: x.data := by
    rw [String.data_append]
    rfl
  rw [hdata]
  unfold matchLastRunChars
  rw [if_pos (prefix_isPrefixOf _ _), List.drop_left]
  exact tailCapture_canon (data_ne_nil_of_ne hx) hh

theorem matchNotes_canon (x : String)
    (hh : ∀ c, x.data.head? = some c → goRegexSpace c = false) :
    matchNotesChars ("**Notes**: " ++ x).data = some x.data := by
  have hdata : ("**Notes**: " ++ x).data = notesLabel ++ ' ' :: x.data := by
    rw [String.data_append]
    rfl
  rw [hdata]
  unfold matchNotesChars
  rw [if_pos (prefix_isPrefixOf _ _), List.drop_left, wsCount_one_of_head hh]
  have e1 : (' ' :: x.data).drop 1 = x.data := rfl
  rw [if_neg (by decide), e1]

theorem matchRetries_canon (x : String) (hx : x ≠ "")
    (hd : ∀ c ∈ x.data, goDigit c = true) :
    matchRetriesChars ("**Retries**: " ++ x).data = some (natOfDigits x.data) := by
  have hdata : ("**Retries**: " ++ x).data = retriesLabel ++ ' ' :: x.data := by
    rw [String.data_append]
    rfl
  rw [hdata]
  unfold matchRetriesChars
  rw [if_pos (prefix_isPrefixOf _ _), List.drop_left,
    wsCount_one_of_head (head_not_ws_of_all_digit hd)]
  have e1 : (' ' :: x.data).drop 1 = x.data := rfl
  rw [if_neg (by decide), e1]
  rw [if_neg (by simp [data_ne_nil_of_ne hx]), if_pos (by simp; intro c hc; exact hd c hc)]

theorem matchNotesHeader_canon (i : Nat) :
    matchNotesHeaderChars ("### Step " ++ natDigits i).data = some i := by
  have hdata : ("### Step " ++ natDigits i).data =
      '#' :: '#' :: '#' :: ' ' :: 'S' :: 't' :: 'e' :: 'p' :: ' ' :: (natDigits i).data := by
    rw [String.data_append]
    rfl
  rw [hdata]
  unfold matchNotesHeaderChars
  rw [if_pos (by simp [List.isPrefixOf])]
  have e0 : (('#' : Char) :: '#' :: '#' :: ' ' :: 'S' :: 't' :: 'e' :: 'p' :: ' ' ::
      (natDigits i).data).drop 3 =
      ' ' :: 'S' :: 't' :: 'e' :: 'p' :: ' ' :: (natDigits i).data := rfl
  rw [e0, wsCount_one_of_head (fun c hc => by
    rw [List.head?_cons, Option.some_inj] at hc
    rw [← hc]
    decide)]
  have e1 : ((' ' : Char) :: 'S' :: 't' :: 'e' :: 'p' :: ' ' :: (natDigits i).data).drop 1 =
      'S' :: 't' :: 'e' :: 'p' :: ' ' :: (natDigits i).data := rfl
  rw [if_neg (by decide), e1, if_pos (by simp [List.isPrefixOf])]
  have e2 : (('S' : Char) :: 't' :: 'e' :: 'p' :: ' ' :: (natDigits i).data).drop 4 =
      ' ' :: (natDigits i).data := rfl
  rw [e2]
  unfold digitsTail
  rw [wsCount_one_of_head (head_not_ws_of_all_digit (natDigits_digits i))]
  have e3 : (' ' :: (natDigits i).data).drop 1 = (natDigits i).data := rfl
  rw [if_neg (by decide), e3, takeWhile_all _ (natDigits_digits i)]
  rw [if_neg (by simp [natDigits_ne_nil i]), List.drop_length]
  simp [natDigits_val]

/-- `matchStepLineChars` on a canonical step line. -/
theorem matchStepLine_canon (i : Nat) (s : CStep) (hm : s.marker ∈ stepMarkers)
    (hne : s.desc ≠ "") (htrim : goTrim s.desc = s.desc) :
    matchStepLineChars (stepLineOf i s).data = some (s.marker, s.desc.data) := by
  have hdata : (stepLineOf i s).data =
      '-' :: ' ' :: '[' :: s.marker :: ']' :: ' ' :: 'S' :: 't' :: 'e' :: 'p' :: ' ' ::
        ((natDigits i).data ++ ':' :: ' ' :: s.desc.data) := by
    show ("- [" ++ String.mk [s.marker] ++ "] Step " ++ natDigits i ++ ": " ++ s.desc).data = _
    simp only [String.data_append, List.append_assoc, List.cons_append, List.nil_append]
  rw [hdata]
  simp only [matchStepLineChars, if_true]
  rw [wsCount_one_of_head (fun c hc => by
    rw [List.head?_cons, Option.some_inj] at hc
    rw [← hc]
    decide)]
  rw [if_neg (by decide)]
  have e1 : ((' ' : Char) :: '[' :: s.marker :: ']' :: ' ' :: 'S' :: 't' :: 'e' :: 'p' :: ' ' ::
      ((natDigits i).data ++ ':' :: ' ' :: s.desc.data)).drop 1 =
      '[' :: s.marker :: ']' :: ' ' :: 'S' :: 't' :: 'e' :: 'p' :: ' ' ::
      ((natDigits i).data ++ ':' :: ' ' :: s.desc.data) := rfl
  rw [e1]
  simp only [bracketTail, if_true]
  rw [if_pos (by simp [hm])]
  rw [wsCount_one_of_head (fun c hc => by
    rw [List.head?_cons, Option.some_inj] at hc
    rw [← hc]
    decide)]
  rw [if_neg (by decide)]
  have e2 : ((' ' : Char) :: 'S' :: 't' :: 'e' :: 'p' :: ' ' ::
      ((natDigits i).data ++ ':' :: ' ' :: s.desc.data)).drop 1 =
      'S' :: 't' :: 'e' :: 'p' :: ' ' ::
      ((natDigits i).data ++ ':' :: ' ' :: s.desc.data) := rfl
  rw [e2, if_pos (by simp [List.isPrefixOf])]
  have e3 : (('S' : Char) :: 't' :: 'e' :: 'p' :: ' ' ::
      ((natDigits i).data ++ ':' :: ' ' :: s.desc.data)).drop 4 =
      ' ' :: ((natDigits i).data ++ ':' :: ' ' :: s.desc.data) := rfl
  rw [e3]
  have hlabel : stepLabelTail (' ' :: ((natDigits i).data ++ ':' :: ' ' :: s.desc.data)) =
      some s.desc.data := by
    unfold stepLabelTail
    rw [wsCount_one_of_head (fun c hc => by
      cases hdd : (natDigits i).data with
      | nil => exact absurd hdd (natDigits_ne_nil i)
      | cons c0 cs0 =>
        rw [hdd, List.cons_append, List.head?_cons, Option.some_inj] at hc
        rw [← hc]
        exact goDigit_not_space (natDigits_digits i c0 (hdd ▸ List.mem_cons_self c0 cs0)))]
    have f1 : ((' ' : Char) :: ((natDigits i).data ++ ':' :: ' ' :: s.desc.data)).drop 1 =
        (natDigits i).data ++ ':' :: ' ' :: s.desc.data := rfl
    rw [if_neg (by decide), f1,
      takeWhile_all_stop _ ':' _ (natDigits_digits i) (by decide)]
    rw [if_neg (by simp [natDigits_ne_nil i]), List.drop_left]
    rw [List.head?_cons, if_pos rfl, drop_left_succ]
    unfold stepColonTail
    rw [wsCount_one_of_head (fun c hc => benign_head_not_ws htrim hc)]
    have f2 : ((' ' : Char) :: s.desc.data).drop 1 = s.desc.data := rfl
    rw [if_neg (by decide), f2, if_neg (by simp [data_ne_nil_of_ne hne])]
  rw [hlabel]

/-! ### Negative matcher profiles -/

theorem matchProjectChars_cons_ne {c : Char} {cs : List Char} (h : ¬(c = '#')) :
    matchProjectChars (c :: cs) = none := by
  simp only [matchProjectChars]
  rw [if_neg h]

theorem matchStepLineChars_cons_ne {c : Char} {cs : List Char} (h : ¬(c = '-')) :
    matchStepLineChars (c :: cs) = none := by
  simp only [matchStepLineChars]
  rw [if_neg h]

theorem matchProjectChars_hash_no_ws {cs : List Char}
    (h : ∀ c, cs.head? = some c → goRegexSpace c = false) :
    matchProjectChars ('#' :: cs) = none := by
  simp only [matchProjectChars, if_true]
  rw [wsCount_zero_of_head h, if_pos rfl]

theorem matchNotesHeaderChars_no_prefix {cs : List Char}
    (h : ['#', '#', '#'].isPrefixOf cs = false) :
    matchNotesHeaderChars cs = none := by
  unfold matchNotesHeaderChars
  rw [if_neg (by rw [h]; simp)]

theorem matchStatusChars_no_prefix {cs : List Char}
    (h : statusLabel.isPrefixOf cs = false) : matchStatusChars cs = none := by
  unfold matchStatusChars
  rw [if_neg (by rw [h]; simp)]

theorem matchLastRunChars_no_prefix {cs : List Char}
    (h : lastRunLabel.isPrefixOf cs = false) : matchLastRunChars cs = none := by
  unfold matchLastRunChars
  rw [if_neg (by rw [h]; simp)]

theorem matchNotesChars_no_prefix {cs : List Char}
    (h : notesLabel.isPrefixOf cs = false) : matchNotesChars cs = none := by
  unfold matchNotesChars
  rw [if_neg (by rw [h]; simp)]

theorem matchRetriesChars_no_prefix {cs : List Char}
    (h : retriesLabel.isPrefixOf cs = false) : matchRetriesChars cs = none := by
  unfold matchRetriesChars
  rw [if_neg (by rw [h]; simp)]

theorem matchContextHeader_no_prefix {cs : List Char}
    (h : ['#', '#'].isPrefixOf cs = false) : matchContextHeader cs = false := by
  unfold matchContextHeader
  rw [if_neg (by rw [h]; simp)]

theorem matchContextHeader_hash3 (rest : List Char) :
    matchContextHeader ('#' :: '#' :: '#' :: rest) = false := by
  unfold matchContextHeader
  rw [if_pos (by simp [List.isPrefixOf])]
  have e1 : ('#' :: '#' :: '#' :: rest).drop 2 = '#' :: rest := rfl
  rw [e1, wsCount_cons, if_neg (by decide)]
  simp

/-! ### Well-formedness of canonical document lines -/

theorem string_mk_data (s : String) : String.mk s.data = s := rfl

theorem okLine_append {a b : String} (ha : okLine a) (hb : okLine b) : okLine (a ++ b) := by
  obtain ⟨ha1, ha2⟩ := ha
  obtain ⟨hb1, hb2⟩ := hb
  constructor
  · rw [String.data_append]
    intro hm
    rcases List.mem_append.mp hm with h | h
    · exact ha1 h
    · exact hb1 h
  · rw [String.data_append, List.getLast?_append]
    cases hb' : b.data.getLast? with
    | none => exact ha2
    | some c => rw [hb'] at hb2; exact hb2

theorem okLine_of_chars {s : String} (h : ∀ c ∈ s.data, ¬(c = '\n') ∧ ¬(c = '\r')) :
    okLine s := by
  refine ⟨fun hm => (h _ hm).1 rfl, fun hl => ?_⟩
  exact (h _ (List.mem_of_getLast?_eq_some hl)).2 rfl

theorem okLine_of_digits {s : String} (h : ∀ c ∈ s.data, goDigit c = true) : okLine s :=
  okLine_of_chars fun c hc => by
    have hd := h c hc
    constructor <;> intro he <;> rw [he] at hd <;> exact absurd hd (by decide)

theorem okLine_of_words {s : String} (h : ∀ c ∈ s.data, goWordChar c = true) : okLine s :=
  okLine_of_chars fun c hc => by
    have hd := h c hc
    constructor <;> intro he <;> rw [he] at hd <;> exact absurd hd (by decide)

theorem okLine_natDigits (i : Nat) : okLine (natDigits i) :=
  okLine_of_digits (natDigits_digits i)

theorem marker_cases {m : Char} (hm : m ∈ stepMarkers) :
    m = ' ' ∨ m = 'x' ∨ m = '!' ∨ m = '-' := by
  simpa [stepMarkers] using hm

theorem okLine_marker {m : Char} (hm : m ∈ stepMarkers) : okLine (String.mk [m]) := by
  rcases marker_cases hm with rfl | rfl | rfl | rfl <;> decide

theorem okLine_stepLine {j : Nat} {s : CStep} (hB : BenignStep s) :
    okLine (stepLineOf j s) := by
  obtain ⟨hm, hdesc, -⟩ := hB
  exact okLine_append (okLine_append (okLine_append (okLine_append
    (okLine_append (by decide) (okLine_marker hm)) (by decide))
    (okLine_natDigits j)) (by decide)) hdesc

theorem okLine_retries {s : CStep} (hB : BenignStep s) {t : String}
    (ht : s.retriesText = some t) : okLine ("**Retries**: " ++ t) := by
  obtain ⟨-, -, -, -, -, -, -, -, -, -, -, -, -, -, -, -, hr⟩ := hB
  exact okLine_append (by decide) (okLine_of_digits (hr t ht).2.1)

theorem okLine_blockLine {j : Nat} {s : CStep} (hB : BenignStep s) {l : String}
    (hl : l ∈ blockOf j s) : okLine l := by
  obtain ⟨hm, hd1, hd2, hd3, hd4, hd5, hs1, hs2, hs3, hl1, hl2, hl3, hl4,
    hn1, hn2, hn3, hr⟩ := hB
  unfold blockOf at hl
  cases hrt : s.retriesText with
  | none =>
    rw [hrt] at hl
    simp only [List.append_nil, List.mem_cons, List.not_mem_nil, or_false] at hl
    rcases hl with rfl | rfl | rfl | rfl | rfl
    · decide
    · exact okLine_append (by decide) (okLine_natDigits j)
    · exact okLine_append (by decide) (okLine_of_words hs2)
    · exact okLine_append (by decide) hl1
    · exact okLine_append (by decide) hn1
  | some t =>
    rw [hrt] at hl
    simp only [List.mem_append, List.mem_cons, List.not_mem_nil, or_false] at hl
    rcases hl with (rfl | rfl | rfl | rfl | rfl) | rfl
    · decide
    · exact okLine_append (by decide) (okLine_natDigits j)
    · exact okLine_append (by decide) (okLine_of_words hs2)
    · exact okLine_append (by decide) hl1
    · exact okLine_append (by decide) hn1
    · exact okLine_append (by decide)
        (okLine_of_digits (hr t hrt).2.1)

theorem mem_stepLinesFrom : ∀ {ss : List CStep} {i : Nat} {l : String},
    l ∈ stepLinesFrom i ss → ∃ j s, s ∈ ss ∧ l = stepLineOf j s ∧ i ≤ j ∧ j < i + ss.length := by
  intro ss
  induction ss with
  | nil => intro i l h; exact absurd h (by simp [stepLinesFrom])
  | cons s ss ih =>
    intro i l h
    rw [stepLinesFrom] at h
    rcases List.mem_cons.mp h with rfl | h2
    · exact ⟨i, s, List.mem_cons_self s ss, rfl, le_refl i, by simp⟩
    · obtain ⟨j, t, ht, rfl, hj1, hj2⟩ := ih h2
      exact ⟨j, t, List.mem_cons_of_mem s ht, rfl, by omega,
        by rw [List.length_cons]; omega⟩

theorem mem_blocksFrom : ∀ {ss : List CStep} {i : Nat} {l : String},
    l ∈ blocksFrom i ss → ∃ j s, s ∈ ss ∧ l ∈ blockOf j s ∧ i ≤ j ∧ j < i + ss.length := by
  intro ss
  induction ss with
  | nil => intro i l h; exact absurd h (by simp [blocksFrom])
  | cons s ss ih =>
    intro i l h
    rw [blocksFrom] at h
    rcases List.mem_append.mp h with h1 | h2
    · exact ⟨i, s, List.mem_cons_self s ss, h1, le_refl i, by simp⟩
    · obtain ⟨j, t, ht, hmem, hj1, hj2⟩ := ih h2
      exact ⟨j, t, List.mem_cons_of_mem s ht, hmem, by omega,
        by rw [List.length_cons]; omega⟩

theorem length_stepLine (j : Nat) (s : CStep) :
    (stepLineOf j s).length = 13 + (natDigits j).length + s.desc.length := by
  simp [stepLineOf, String.length_append]
  have e1 : "- [".length = 3 := rfl
  have e2 : "] Step ".length = 7 := rfl
  have e3 : ": ".length = 2 := rfl
  omega

theorem length_blockLine {j : Nat} {s : CStep} (hB : BenignStep s) {l : String}
    (hl : l ∈ blockOf j s) (hj : j ≤ 2000) : l.length ≤ 5000 := by
  obtain ⟨hm, hd1, hd2, hd3, hd4, hd5, hs1, hs2, hs3, hl1, hl2, hl3, hl4,
    hn1, hn2, hn3, hr⟩ := hB
  have hnd : (natDigits j).length ≤ 2001 := le_trans (natDigits_length_le j) (by omega)
  unfold blockOf at hl
  have e1 : "### Step ".length = 9 := rfl
  have e2 : "**Status**: ".length = 12 := rfl
  have e3 : "**Last Run**: ".length = 14 := rfl
  have e4 : "**Notes**: ".length = 11 := rfl
  have e5 : "**Retries**: ".length = 13 := rfl
  cases hrt : s.retriesText with
  | none =>
    rw [hrt] at hl
    simp only [List.append_nil, List.mem_cons, List.not_mem_nil, or_false] at hl
    rcases hl with rfl | rfl | rfl | rfl | rfl <;>
      (try simp only [String.length_append]) <;> first | decide | omega
  | some t =>
    rw [hrt] at hl
    simp only [List.mem_append, List.mem_cons, List.not_mem_nil, or_false] at hl
    have hrl : t.length ≤ 2000 := (hr t hrt).2.2
    rcases hl with (rfl | rfl | rfl | rfl | rfl) | rfl <;>
      (try simp only [String.length_append]) <;> first | decide | omega

theorem lineBytes_le_four_mul : ∀ cs : List Char, (cs.map Char.utf8Size).sum ≤ 4 * cs.length
  | [] => by simp
  | c :: cs => by
    rw [List.map_cons, List.sum_cons, List.length_cons]
    have h1 := Char.utf8Size_le_four c
    have h2 := lineBytes_le_four_mul cs
    omega

theorem lineBytes_small {l : String} (h : l.length ≤ 5000) :
    lineBytes l < bufioMaxScanTokenSize := by
  have h1 : lineBytes l ≤ 4 * l.data.length := lineBytes_le_four_mul l.data
  have h2 : l.data.length = l.length := rfl
  unfold bufioMaxScanTokenSize
  omega

/-- Every canonical line is newline-free, carriage-return-clean and
small (whence the `bufio` scan succeeds and splits it back). -/
theorem canonLines_ok (d : CanonDoc) (hB : BenignDoc d) :
    ∀ l ∈ canonLines d, okLine l ∧ l.length ≤ 5000 := by
  obtain ⟨hname, htrim, hne, hlen, hcount, hsteps⟩ := hB
  intro l hl
  unfold canonLines canonLinesCore at hl
  simp only [List.mem_append, List.mem_cons, List.not_mem_nil, or_false] at hl
  rcases hl with ((((rfl | rfl | rfl | rfl) | hstep) | (rfl | rfl)) | hblock) | rfl
  · refine ⟨okLine_append (by decide) hname, ?_⟩
    simp only [String.length_append]
    have e1 : "# Project: ".length = 11 := rfl
    omega
  · exact ⟨by decide, by decide⟩
  · exact ⟨by decide, by decide⟩
  · exact ⟨by decide, by decide⟩
  · obtain ⟨j, s, hsmem, rfl, hj1, hj2⟩ := mem_stepLinesFrom hstep
    have hBs := hsteps s hsmem
    refine ⟨okLine_stepLine hBs, ?_⟩
    rw [length_stepLine]
    have hnd : (natDigits j).length ≤ 2001 :=
      le_trans (natDigits_length_le j) (by omega)
    have hdl : s.desc.length ≤ 2000 := by
      obtain ⟨-, -, -, -, -, h5, -⟩ := hBs
      exact h5
    omega
  · exact ⟨by decide, by decide⟩
  · exact ⟨by decide, by decide⟩
  · obtain ⟨j, s, hsmem, hmem, hj1, hj2⟩ := mem_blocksFrom hblock
    have hBs := hsteps s hsmem
    exact ⟨okLine_blockLine hBs hmem, length_blockLine hBs hmem (by omega)⟩
  · exact ⟨by decide, by decide⟩

theorem canonLines_ne_nil (d : CanonDoc) : canonLines d ≠ [] := by
  unfold canonLines
  intro h
  exact absurd (congrArg List.length h) (by simp)

theorem splitOnNl_canon (d : CanonDoc) (hB : BenignDoc d) :
    splitOnNl (canonText d) = canonLines d := by
  refine splitOnNl_joinNl (canonLines d) (canonLines_ne_nil d) ?_
  intro l hl
  exact ((canonLines_ok d hB l hl).1).1

theorem goScanLines_canon (d : CanonDoc) (hB : BenignDoc d) :
    goScanLines (canonText d) = canonLinesCore d := by
  unfold goScanLines
  rw [splitOnNl_canon d hB]
  have h1 : (canonLines d).getLast? = some "" := by
    unfold canonLines
    exact List.getLast?_concat _
  rw [if_pos h1]
  have h2 : (canonLines d).dropLast = canonLinesCore d := by
    unfold canonLines
    exact List.dropLast_concat
  rw [h2]
  have h3 : ∀ l ∈ canonLinesCore d, dropCR l = l := by
    intro l hl
    refine dropCR_eq ?_
    have hm : l ∈ canonLines d := by
      unfold canonLines
      exact List.mem_append.mpr (Or.inl hl)
    exact ((canonLines_ok d hB l hm).1).2
  exact List.map_congr_left h3 |>.trans (List.map_id _)

theorem scanTooLong_canon (d : CanonDoc) (hB : BenignDoc d) :
    scanTooLong (splitOnNl (canonText d)) = false := by
  rw [splitOnNl_canon d hB]
  refine scanTooLong_eq_false _ ?_
  intro l hl
  exact lineBytes_small (canonLines_ok d hB l hl).2

/-! ### The character shape of each canonical line kind -/

theorem titleLine_data (x : String) : ("# Project: " ++ x).data =
    '#' :: ' ' :: 'P' :: 'r' :: 'o' :: 'j' :: 'e' :: 'c' :: 't' :: ':' :: ' ' :: x.data := by
  rw [String.data_append]
  rfl

theorem stepLine_data (i : Nat) (s : CStep) : (stepLineOf i s).data =
    '-' :: ' ' :: '[' :: s.marker :: ']' :: ' ' :: 'S' :: 't' :: 'e' :: 'p' :: ' ' ::
      ((natDigits i).data ++ ':' :: ' ' :: s.desc.data) := by
  show ("- [" ++ String.mk [s.marker] ++ "] Step " ++ natDigits i ++ ": " ++ s.desc).data = _
  simp only [String.data_append, List.append_assoc, List.cons_append, List.nil_append]

theorem hdrLine_data (x : String) : ("### Step " ++ x).data =
    '#' :: '#' :: '#' :: ' ' :: 'S' :: 't' :: 'e' :: 'p' :: ' ' :: x.data := by
  rw [String.data_append]
  rfl

theorem statusLine_data (x : String) : ("**Status**: " ++ x).data =
    '*' :: '*' :: 'S' :: 't' :: 'a' :: 't' :: 'u' :: 's' :: '*' :: '*' :: ':' :: ' ' ::
      x.data := by
  rw [String.data_append]
  rfl

theorem lastRunLine_data (x : String) : ("**Last Run**: " ++ x).data =
    '*' :: '*' :: 'L' :: 'a' :: 's' :: 't' :: ' ' :: 'R' :: 'u' :: 'n' :: '*' :: '*' :: ':' ::
      ' ' :: x.data := by
  rw [String.data_append]
  rfl

theorem notesLine_data (x : String) : ("**Notes**: " ++ x).data =
    '*' :: '*' :: 'N' :: 'o' :: 't' :: 'e' :: 's' :: '*' :: '*' :: ':' :: ' ' :: x.data := by
  rw [String.data_append]
  rfl

theorem retriesLine_data (x : String) : ("**Retries**: " ++ x).data =
    '*' :: '*' :: 'R' :: 'e' :: 't' :: 'r' :: 'i' :: 'e' :: 's' :: '*' :: '*' :: ':' :: ' ' ::
      x.data := by
  rw [String.data_append]
  rfl

/-! ### Matcher profiles of the canonical line kinds

For each line kind, the value of every matcher the scan loops consult on
it.  The `none`/`false` facts follow from a mismatch within the first
few characters, which the kernel computes. -/

theorem titleLine_profile (x : String) :
    matchContextHeader ("# Project: " ++ x).data = false ∧
    matchStepLineChars ("# Project: " ++ x).data = none ∧
    matchNotesHeaderChars ("# Project: " ++ x).data = none ∧
    stepHeaderLit.isPrefixOf ("# Project: " ++ x).data = false ∧
    matchLastRunChars ("# Project: " ++ x).data = none := by
  rw [titleLine_data]
  exact ⟨ matchContextHeader_no_prefix rfl, matchStepLineChars_cons_ne (by decide),
    matchNotesHeaderChars_no_prefix rfl, rfl, matchLastRunChars_no_prefix rfl⟩

theorem stepLine_profile (i : Nat) (s : CStep) :
    matchProjectChars (stepLineOf i s).data = none ∧
    matchContextHeader (stepLineOf i s).data = false ∧
    matchNotesHeaderChars (stepLineOf i s).data = none ∧
    stepHeaderLit.isPrefixOf (stepLineOf i s).data = false ∧
    matchStatusChars (stepLineOf i s).data = none ∧
    matchLastRunChars (stepLineOf i s).data = none ∧
    matchNotesChars (stepLineOf i s).data = none := by
  rw [stepLine_data]
  exact ⟨matchProjectChars_cons_ne (by decide), matchContextHeader_no_prefix rfl,
    matchNotesHeaderChars_no_prefix rfl, rfl, matchStatusChars_no_prefix rfl,
    matchLastRunChars_no_prefix rfl, matchNotesChars_no_prefix rfl⟩

theorem hdrLine_profile (x : String) :
    matchProjectChars ("### Step " ++ x).data = none ∧
    matchContextHeader ("### Step " ++ x).data = false ∧
    matchStepLineChars ("### Step " ++ x).data = none ∧
    stepHeaderLit.isPrefixOf ("### Step " ++ x).data = true ∧
    matchStatusChars ("### Step " ++ x).data = none ∧
    matchLastRunChars ("### Step " ++ x).data = none ∧
    matchNotesChars ("### Step " ++ x).data = none := by
  rw [hdrLine_data]
  refine ⟨?_, matchContextHeader_hash3 _, matchStepLineChars_cons_ne (by decide), rfl,
    matchStatusChars_no_prefix rfl, matchLastRunChars_no_prefix rfl,
    matchNotesChars_no_prefix rfl⟩
  exact matchProjectChars_hash_no_ws (fun c hc => by
    rw [List.head?_cons, Option.some_inj] at hc
    rw [← hc]
    decide)

theorem statusLine_canon_profile (x : String) :
    matchProjectChars ("**Status**: " ++ x).data = none ∧
    matchContextHeader ("**Status**: " ++ x).data = false ∧
    matchStepLineChars ("**Status**: " ++ x).data = none ∧
    matchNotesHeaderChars ("**Status**: " ++ x).data = none ∧
    stepHeaderLit.isPrefixOf ("**Status**: " ++ x).data = false ∧
    matchLastRunChars ("**Status**: " ++ x).data = none := by
  rw [statusLine_data]
  exact ⟨matchProjectChars_cons_ne (by decide), matchContextHeader_no_prefix rfl,
    matchStepLineChars_cons_ne (by decide), matchNotesHeaderChars_no_prefix rfl, rfl,
    matchLastRunChars_no_prefix rfl⟩

theorem lastRunLine_canon_profile (x : String) :
    matchProjectChars ("**Last Run**: " ++ x).data = none ∧
    matchContextHeader ("**Last Run**: " ++ x).data = false ∧
    matchStepLineChars ("**Last Run**: " ++ x).data = none ∧
    matchNotesHeaderChars ("**Last Run**: " ++ x).data = none ∧
    stepHeaderLit.isPrefixOf ("**Last Run**: " ++ x).data = false ∧
    matchStatusChars ("**Last Run**: " ++ x).data = none := by
  rw [lastRunLine_data]
  exact ⟨matchProjectChars_cons_ne (by decide), matchContextHeader_no_prefix rfl,
    matchStepLineChars_cons_ne (by decide), matchNotesHeaderChars_no_prefix rfl, rfl,
    matchStatusChars_no_prefix rfl⟩

theorem notesLine_canon_profile (x : String) :
    matchProjectChars ("**Notes**: " ++ x).data = none ∧
    matchContextHeader ("**Notes**: " ++ x).data = false ∧
    matchStepLineChars ("**Notes**: " ++ x).data = none ∧
    matchNotesHeaderChars ("**Notes**: " ++ x).data = none ∧
    stepHeaderLit.isPrefixOf ("**Notes**: " ++ x).data = false ∧
    matchStatusChars ("**Notes**: " ++ x).data = none ∧
    matchLastRunChars ("**Notes**: " ++ x).data = none := by
  rw [notesLine_data]
  exact ⟨matchProjectChars_cons_ne (by decide), matchContextHeader_no_prefix rfl,
    matchStepLineChars_cons_ne (by decide), matchNotesHeaderChars_no_prefix rfl, rfl,
    matchStatusChars_no_prefix rfl, matchLastRunChars_no_prefix rfl⟩

theorem retriesLine_canon_profile (x : String) :
    matchProjectChars ("**Retries**: " ++ x).data = none ∧
    matchContextHeader ("**Retries**: " ++ x).data = false ∧
    matchStepLineChars ("**Retries**: " ++ x).data = none ∧
    matchNotesHeaderChars ("**Retries**: " ++ x).data = none ∧
    stepHeaderLit.isPrefixOf ("**Retries**: " ++ x).data = false ∧
    matchStatusChars ("**Retries**: " ++ x).data = none ∧
    matchLastRunChars ("**Retries**: " ++ x).data = none ∧
    matchNotesChars ("**Retries**: " ++ x).data = none := by
  rw [retriesLine_data]
  exact ⟨matchProjectChars_cons_ne (by decide), matchContextHeader_no_prefix rfl,
    matchStepLineChars_cons_ne (by decide), matchNotesHeaderChars_no_prefix rfl, rfl,
    matchStatusChars_no_prefix rfl, matchLastRunChars_no_prefix rfl,
    matchNotesChars_no_prefix rfl⟩

/-! ### The scan loop on each canonical line kind -/

theorem parseLine_project (st : PState) (l : String) {cap : List Char}
    (hp : matchProjectChars l.data = some cap) :
    parseLine st l = { st with projectName := goTrim (String.mk cap) } := by
  simp only [parseLine, hp]

theorem parseLine_main_eq (st : PState) (l : String)
    (hp : matchProjectChars l.data = none) (hc : matchContextHeader l.data = false)
    (hctx : st.inContextSection = false) :
    parseLine st l = parseLineMain st l := by
  simp only [parseLine, hp, hc, hctx, Bool.false_eq_true, if_false, Bool.false_and]

theorem parseLineMain_step (st : PState) (l : String) {m : Char} {desc : List Char}
    (hs : matchStepLineChars l.data = some (m, desc)) :
    parseLineMain st l =
      { st with stepCount := st.stepCount + 1,
                steps := st.steps ++
                  [{ number := st.stepCount + 1, description := goTrim (String.mk desc),
                     status := parseCheckbox m, lastRun := none, notes := "",
                     retryCount := 0 }] } := by
  simp only [parseLineMain, hs]

theorem parseLineMain_hdr (st : PState) (l : String) {num : Nat}
    (hs : matchStepLineChars l.data = none)
    (hh : matchNotesHeaderChars l.data = some num) :
    parseLineMain st l =
      { st with currentNoteStep := num, inNotesSection := true,
                notesMap := fun k =>
                  if k = num then some ((st.notesMap num).getD emptyNotes)
                  else st.notesMap k } := by
  simp only [parseLineMain, hs, hh]

theorem parseLineMain_skip (st : PState) (l : String)
    (hs : matchStepLineChars l.data = none) (hh : matchNotesHeaderChars l.data = none)
    (hn : st.inNotesSection = false) :
    parseLineMain st l = st := by
  simp only [parseLineMain, hs, hh, hn, Bool.false_and, Bool.false_eq_true, if_false]

theorem parseLineMain_field (st : PState) (l : String)
    (hs : matchStepLineChars l.data = none) (hh : matchNotesHeaderChars l.data = none)
    (hn : st.inNotesSection = true) (hcur : 0 < st.currentNoteStep) :
    parseLineMain st l = applyNotesField st l := by
  simp only [parseLineMain, hs, hh, hn, Bool.true_and]
  rw [if_pos (by simpa using hcur)]

theorem applyNotesField_empty (st : PState) : applyNotesField st "" = st := rfl

theorem parseLineMain_empty (st : PState) : parseLineMain st "" = st := by
  simp only [parseLineMain, show matchStepLineChars ("" : String).data = none from rfl,
    show matchNotesHeaderChars ("" : String).data = none from rfl,
    applyNotesField_empty, ite_self]

theorem parseLine_empty (st : PState) (hctx : st.inContextSection = false) :
    parseLine st "" = st :=
  (parseLine_main_eq st "" rfl rfl hctx).trans (parseLineMain_empty st)

theorem parseLine_skip (st : PState) (l : String)
    (hp : matchProjectChars l.data = none) (hc : matchContextHeader l.data = false)
    (hs : matchStepLineChars l.data = none) (hh : matchNotesHeaderChars l.data = none)
    (hctx : st.inContextSection = false) (hn : st.inNotesSection = false) :
    parseLine st l = st :=
  (parseLine_main_eq st l hp hc hctx).trans (parseLineMain_skip st l hs hh hn)

theorem applyNotesField_status (st : PState) (l : String) {w : List Char}
    (h : matchStatusChars l.data = some w) :
    applyNotesField st l =
      { st with notesMap := fun k =>
          if k = st.currentNoteStep then
            some { (st.notesMap st.currentNoteStep).getD emptyNotes with
                     status := String.mk w }
          else st.notesMap k } := by
  simp only [applyNotesField, h]

theorem applyNotesField_lastRun (st : PState) (l : String) {cap : List Char}
    (hs : matchStatusChars l.data = none) (h : matchLastRunChars l.data = some cap) :
    applyNotesField st l =
      { st with notesMap := fun k =>
          if k = st.currentNoteStep then
            some { (st.notesMap st.currentNoteStep).getD emptyNotes with
                     lastRun := String.mk cap }
          else st.notesMap k } := by
  simp only [applyNotesField, hs, h]

theorem applyNotesField_notes (st : PState) (l : String) {cap : List Char}
    (hs : matchStatusChars l.data = none) (hlr : matchLastRunChars l.data = none)
    (h : matchNotesChars l.data = some cap) :
    applyNotesField st l =
      { st with notesMap := fun k =>
          if k = st.currentNoteStep then
            some { (st.notesMap st.currentNoteStep).getD emptyNotes with
                     notes := String.mk cap }
          else st.notesMap k } := by
  simp only [applyNotesField, hs, hlr, h]

theorem applyNotesField_retries (st : PState) (l : String) {k0 : Nat}
    (hs : matchStatusChars l.data = none) (hlr : matchLastRunChars l.data = none)
    (hn : matchNotesChars l.data = none) (h : matchRetriesChars l.data = some k0) :
    applyNotesField st l =
      { st with notesMap := fun k =>
          if k = st.currentNoteStep then
            some { (st.notesMap st.currentNoteStep).getD emptyNotes with
                     retryCount := k0 }
          else st.notesMap k } := by
  simp only [applyNotesField, hs, hlr, hn, h]

/-! ### Field handling at a known open block -/

theorem applyNotesField_status_at (st : PState) {j : Nat} (hcur : st.currentNoteStep = j)
    (rec : StepNotesRec) (hmap : st.notesMap j = some rec) (x : String) (hx1 : x ≠ "")
    (hx2 : ∀ c ∈ x.data, goWordChar c = true) :
    applyNotesField st ("**Status**: " ++ x) =
      { st with notesMap := fun k =>
          if k = j then some { rec with status := x } else st.notesMap k } := by
  rw [applyNotesField_status st _ (matchStatus_canon x hx1 hx2), hcur, hmap]
  simp [string_mk_data]

theorem applyNotesField_lastRun_at (st : PState) {j : Nat} (hcur : st.currentNoteStep = j)
    (rec : StepNotesRec) (hmap : st.notesMap j = some rec) (x : String) (hx1 : x ≠ "")
    (hx2 : ∀ c, x.data.head? = some c → goRegexSpace c = false) :
    applyNotesField st ("**Last Run**: " ++ x) =
      { st with notesMap := fun k =>
          if k = j then some { rec with lastRun := x } else st.notesMap k } := by
  rw [applyNotesField_lastRun st _ (lastRunLine_canon_profile x).2.2.2.2.2
    (matchLastRun_canon x hx1 hx2), hcur, hmap]
  simp [string_mk_data]

theorem applyNotesField_notes_at (st : PState) {j : Nat} (hcur : st.currentNoteStep = j)
    (rec : StepNotesRec) (hmap : st.notesMap j = some rec) (x : String)
    (hx2 : ∀ c, x.data.head? = some c → goRegexSpace c = false) :
    applyNotesField st ("**Notes**: " ++ x) =
      { st with notesMap := fun k =>
          if k = j then some { rec with notes := x } else st.notesMap k } := by
  rw [applyNotesField_notes st _ (notesLine_canon_profile x).2.2.2.2.2.1
    (notesLine_canon_profile x).2.2.2.2.2.2 (matchNotes_canon x hx2), hcur, hmap]
  simp [string_mk_data]

theorem applyNotesField_retries_at (st : PState) {j : Nat} (hcur : st.currentNoteStep = j)
    (rec : StepNotesRec) (hmap : st.notesMap j = some rec) (x : String) (hx1 : x ≠ "")
    (hx2 : ∀ c ∈ x.data, goDigit c = true) :
    applyNotesField st ("**Retries**: " ++ x) =
      { st with notesMap := fun k =>
          if k = j then some { rec with retryCount := natOfDigits x.data }
          else st.notesMap k } := by
  rw [applyNotesField_retries st _ (retriesLine_canon_profile x).2.2.2.2.2.1
    (retriesLine_canon_profile x).2.2.2.2.2.2.1 (retriesLine_canon_profile x).2.2.2.2.2.2.2
    (matchRetries_canon x hx1 hx2), hcur, hmap]
  simp

/-! ### The scan over the canonical step lines -/

theorem parse_stepLines : ∀ (ss : List CStep) (i : Nat) (st : PState),
    (∀ s ∈ ss, BenignStep s) → st.inContextSection = false →
    (stepLinesFrom i ss).foldl parseLine st =
      { st with steps := st.steps ++ mkRawSteps st.stepCount ss,
                stepCount := st.stepCount + ss.length }
  | [], i, st, _, _ => by
    show st = _
    simp [mkRawSteps]
  | s :: ss, i, st, hB, hctx => by
    obtain ⟨hm, hok, htrim, hne, -⟩ := hB s (List.mem_cons_self s ss)
    rw [stepLinesFrom, List.foldl_cons,
      parseLine_main_eq st _ (stepLine_profile i s).1 (stepLine_profile i s).2.1 hctx,
      parseLineMain_step st _ (matchStepLine_canon i s hm hne htrim),
      string_mk_data, htrim,
      parse_stepLines ss (i + 1)
        { st with stepCount := st.stepCount + 1,
                  steps := st.steps ++
                    [{ number := st.stepCount + 1, description := s.desc,
                       status := parseCheckbox s.marker, lastRun := none, notes := "",
                       retryCount := 0 }] }
        (fun t ht => hB t (List.mem_cons_of_mem s ht)) hctx]
    cases st
    simp only [PState.mk.injEq, mkRawSteps, List.append_assoc, List.singleton_append,
      List.length_cons, List.cons_append, List.nil_append, and_true, true_and]
    first | trivial | omega

/-! ### The scan over one canonical notes block -/

theorem parse_block (j : Nat) (hj : 0 < j) (s : CStep) (hB : BenignStep s) (st : PState)
    (hctx : st.inContextSection = false) (hmap : st.notesMap j = none) :
    (blockOf j s).foldl parseLine st =
      { st with inNotesSection := true, currentNoteStep := j,
                notesMap := fun k => if k = j then some (recOf s) else st.notesMap k } := by
  obtain ⟨hm, hok, htrim, hne, hnb, hdl, hs1, hs2, hs3, hl1, hl2, hl3, hl4,
    hn1, hn2, hn3, hr⟩ := hB
  obtain ⟨p0, steps0, cnt0, map0, cur0, inN0, inC0, cl0, cx0⟩ := st
  simp only [] at hctx hmap
  subst hctx
  have e1 : parseLine ⟨p0, steps0, cnt0, map0, cur0, inN0, false, cl0, cx0⟩
      ("### Step " ++ natDigits j) =
      ⟨p0, steps0, cnt0, fun k => if k = j then some emptyNotes else map0 k,
        j, true, false, cl0, cx0⟩ := by
    rw [parseLine_main_eq ⟨p0, steps0, cnt0, map0, cur0, inN0, false, cl0, cx0⟩ _
        (hdrLine_profile (natDigits j)).1 (hdrLine_profile (natDigits j)).2.1 rfl,
      parseLineMain_hdr ⟨p0, steps0, cnt0, map0, cur0, inN0, false, cl0, cx0⟩ _
        (hdrLine_profile (natDigits j)).2.2.1 (matchNotesHeader_canon j)]
    simp only [PState.mk.injEq, and_true, true_and]
    funext k
    by_cases hk : k = j
    · simp [hk, hmap]
    · simp [hk]
  have e2 : parseLine
      ⟨p0, steps0, cnt0, fun k => if k = j then some emptyNotes else map0 k,
        j, true, false, cl0, cx0⟩ ("**Status**: " ++ s.statusText) =
      ⟨p0, steps0, cnt0,
        fun k => if k = j then some ⟨s.statusText, "", "", 0⟩ else map0 k,
        j, true, false, cl0, cx0⟩ := by
    rw [parseLine_main_eq ⟨p0, steps0, cnt0,
          fun k => if k = j then some emptyNotes else map0 k, j, true, false, cl0, cx0⟩ _
        (statusLine_canon_profile s.statusText).1
        (statusLine_canon_profile s.statusText).2.1 rfl,
      parseLineMain_field ⟨p0, steps0, cnt0,
          fun k => if k = j then some emptyNotes else map0 k, j, true, false, cl0, cx0⟩ _
        (statusLine_canon_profile s.statusText).2.2.1
        (statusLine_canon_profile s.statusText).2.2.2.1 rfl hj,
      applyNotesField_status_at ⟨p0, steps0, cnt0,
          fun k => if k = j then some emptyNotes else map0 k, j, true, false, cl0, cx0⟩
        rfl emptyNotes (by simp) s.statusText hs1 hs2]
    simp only [PState.mk.injEq, and_true, true_and]
    funext k
    by_cases hk : k = j
    · simp [hk, emptyNotes]
    · simp [hk]
  have e3 : parseLine
      ⟨p0, steps0, cnt0,
        fun k => if k = j then some ⟨s.statusText, "", "", 0⟩ else map0 k,
        j, true, false, cl0, cx0⟩ ("**Last Run**: " ++ s.lastRunText) =
      ⟨p0, steps0, cnt0,
        fun k => if k = j then some ⟨s.statusText, s.lastRunText, "", 0⟩ else map0 k,
        j, true, false, cl0, cx0⟩ := by
    rw [parseLine_main_eq ⟨p0, steps0, cnt0,
          fun k => if k = j then some ⟨s.statusText, "", "", 0⟩ else map0 k,
          j, true, false, cl0, cx0⟩ _
        (lastRunLine_canon_profile s.lastRunText).1
        (lastRunLine_canon_profile s.lastRunText).2.1 rfl,
      parseLineMain_field ⟨p0, steps0, cnt0,
          fun k => if k = j then some ⟨s.statusText, "", "", 0⟩ else map0 k,
          j, true, false, cl0, cx0⟩ _
        (lastRunLine_canon_profile s.lastRunText).2.2.1
        (lastRunLine_canon_profile s.lastRunText).2.2.2.1 rfl hj,
      applyNotesField_lastRun_at ⟨p0, steps0, cnt0,
          fun k => if k = j then some ⟨s.statusText, "", "", 0⟩ else map0 k,
          j, true, false, cl0, cx0⟩
        rfl ⟨s.statusText, "", "", 0⟩ (by simp) s.lastRunText hl2 hl3]
    simp only [PState.mk.injEq, and_true, true_and]
    funext k
    by_cases hk : k = j
    · simp [hk]
    · simp [hk]
  have e4 : parseLine
      ⟨p0, steps0, cnt0,
        fun k => if k = j then some ⟨s.statusText, s.lastRunText, "", 0⟩ else map0 k,
        j, true, false, cl0, cx0⟩ ("**Notes**: " ++ s.notesText) =
      ⟨p0, steps0, cnt0,
        fun k => if k = j then some ⟨s.statusText, s.lastRunText, s.notesText, 0⟩
          else map0 k,
        j, true, false, cl0, cx0⟩ := by
    rw [parseLine_main_eq ⟨p0, steps0, cnt0,
          fun k => if k = j then some ⟨s.statusText, s.lastRunText, "", 0⟩ else map0 k,
          j, true, false, cl0, cx0⟩ _
        (notesLine_canon_profile s.notesText).1
        (notesLine_canon_profile s.notesText).2.1 rfl,
      parseLineMain_field ⟨p0, steps0, cnt0,
          fun k => if k = j then some ⟨s.statusText, s.lastRunText, "", 0⟩ else map0 k,
          j, true, false, cl0, cx0⟩ _
        (notesLine_canon_profile s.notesText).2.2.1
        (notesLine_canon_profile s.notesText).2.2.2.1 rfl hj,
      applyNotesField_notes_at ⟨p0, steps0, cnt0,
          fun k => if k = j then some ⟨s.statusText, s.lastRunText, "", 0⟩ else map0 k,
          j, true, false, cl0, cx0⟩
        rfl ⟨s.statusText, s.lastRunText, "", 0⟩ (by simp) s.notesText hn2]
    simp only [PState.mk.injEq, and_true, true_and]
    funext k
    by_cases hk : k = j
    · simp [hk]
    · simp [hk]
  have hcore : List.foldl parseLine ⟨p0, steps0, cnt0, map0, cur0, inN0, false, cl0, cx0⟩
      ["", "### Step " ++ natDigits j, "**Status**: " ++ s.statusText,
        "**Last Run**: " ++ s.lastRunText, "**Notes**: " ++ s.notesText] =
      ⟨p0, steps0, cnt0,
        fun k => if k = j then some ⟨s.statusText, s.lastRunText, s.notesText, 0⟩
          else map0 k,
        j, true, false, cl0, cx0⟩ := by
    rw [List.foldl_cons,
      parseLine_empty ⟨p0, steps0, cnt0, map0, cur0, inN0, false, cl0, cx0⟩ rfl,
      List.foldl_cons, e1, List.foldl_cons, e2, List.foldl_cons, e3, List.foldl_cons, e4,
      List.foldl_nil]
  unfold blockOf
  cases hrt : s.retriesText with
  | none =>
    rw [List.append_nil, hcore]
    simp only [PState.mk.injEq, and_true, true_and]
    funext k
    by_cases hk : k = j
    · simp [hk, recOf, hrt]
    · simp [hk]
  | some t =>
    obtain ⟨ht1, ht2, ht3⟩ := hr t hrt
    have e5 : parseLine
        ⟨p0, steps0, cnt0,
          fun k => if k = j then some ⟨s.statusText, s.lastRunText, s.notesText, 0⟩
            else map0 k,
          j, true, false, cl0, cx0⟩ ("**Retries**: " ++ t) =
        ⟨p0, steps0, cnt0,
          fun k => if k = j then
            some ⟨s.statusText, s.lastRunText, s.notesText, natOfDigits t.data⟩
          else map0 k,
          j, true, false, cl0, cx0⟩ := by
      rw [parseLine_main_eq ⟨p0, steps0, cnt0,
            fun k => if k = j then some ⟨s.statusText, s.lastRunText, s.notesText, 0⟩
              else map0 k,
            j, true, false, cl0, cx0⟩ _
          (retriesLine_canon_profile t).1 (retriesLine_canon_profile t).2.1 rfl,
        parseLineMain_field ⟨p0, steps0, cnt0,
            fun k => if k = j then some ⟨s.statusText, s.lastRunText, s.notesText, 0⟩
              else map0 k,
            j, true, false, cl0, cx0⟩ _
          (retriesLine_canon_profile t).2.2.1
          (retriesLine_canon_profile t).2.2.2.1 rfl hj,
        applyNotesField_retries_at ⟨p0, steps0, cnt0,
            fun k => if k = j then some ⟨s.statusText, s.lastRunText, s.notesText, 0⟩
              else map0 k,
            j, true, false, cl0, cx0⟩
          rfl ⟨s.statusText, s.lastRunText, s.notesText, 0⟩ (by simp) t ht1 ht2]
      simp only [PState.mk.injEq, and_true, true_and]
      funext k
      by_cases hk : k = j
      · simp [hk]
      · simp [hk]
    rw [List.foldl_append, hcore, List.foldl_cons, e5, List.foldl_nil]
    simp only [PState.mk.injEq, and_true, true_and]
    funext k
    by_cases hk : k = j
    · simp [hk, recOf, hrt]
    · simp [hk]

/-! ### The scan over all canonical blocks -/

theorem parse_blocks : ∀ (ss : List CStep) (j : Nat) (st : PState),
    (∀ s ∈ ss, BenignStep s) → 0 < j → st.inContextSection = false →
    (∀ k, j ≤ k → st.notesMap k = none) →
    ∃ cur inN, (blocksFrom j ss).foldl parseLine st =
      { st with notesMap := notesMapOf st.notesMap j ss, currentNoteStep := cur,
                inNotesSection := inN }
  | [], j, st, _, _, _, _ => ⟨st.currentNoteStep, st.inNotesSection, by
      show st = _
      rw [notesMapOf]⟩
  | s :: ss, j, st, hB, hj, hctx, hmap => by
    rw [blocksFrom, List.foldl_append,
      parse_block j hj s (hB s (List.mem_cons_self s ss)) st hctx (hmap j (le_refl j))]
    obtain ⟨cur, inN, hrec⟩ := parse_blocks ss (j + 1)
      { st with inNotesSection := true, currentNoteStep := j,
                notesMap := fun k => if k = j then some (recOf s) else st.notesMap k }
      (fun t ht => hB t (List.mem_cons_of_mem s ht)) (by omega) hctx
      (by
        intro k hk
        simp only []
        rw [if_neg (by omega)]
        exact hmap k (by omega))
    refine ⟨cur, inN, ?_⟩
    rw [hrec]
    obtain ⟨p0, steps0, cnt0, map0, cur0, inN0, inC0, cl0, cx0⟩ := st
    simp only [PState.mk.injEq, and_true, true_and]
    rw [notesMapOf]

/-! ### The merge phase on canonical documents -/

theorem notesMapOf_lt : ∀ (ss : List CStep) (j : Nat) (m : Nat → Option StepNotesRec)
    (k : Nat), k < j → notesMapOf m j ss k = m k
  | [], _, _, _, _ => rfl
  | s :: ss, j, m, k, hk => by
    rw [notesMapOf, notesMapOf_lt ss (j + 1) _ k (by omega)]
    rw [if_neg (by omega)]

theorem mergeNotes_some {M : Nat → Option StepNotesRec} {st : Step} {n : StepNotesRec}
    (h : M st.number = some n) :
    mergeNotes M st =
      { st with
        lastRun := if n.lastRun ≠ "" && n.lastRun ≠ "N/A" && goTimeParseOk n.lastRun
          then some n.lastRun else st.lastRun,
        notes := if n.notes ≠ "(none)" then n.notes else st.notes,
        retryCount := n.retryCount } := by
  simp only [mergeNotes, h]
  by_cases h1 : (¬n.lastRun = "" ∧ ¬n.lastRun = "N/A") ∧ goTimeParseOk n.lastRun = true <;>
    by_cases h2 : n.notes = "(none)" <;>
      simp [h1, h2]

theorem map_merge_canon : ∀ (ss : List CStep) (base : Nat) (m : Nat → Option StepNotesRec),
    (mkRawSteps base ss).map (mergeNotes (notesMapOf m (base + 1) ss)) =
      canonParsedSteps base ss
  | [], _, _ => rfl
  | s :: ss, base, m => by
    rw [mkRawSteps, List.map_cons, canonParsedSteps, notesMapOf]
    refine congrArg₂ List.cons ?_ (map_merge_canon ss (base + 1) _)
    have hM : notesMapOf (fun k => if k = base + 1 then some (recOf s) else m k)
        (base + 1 + 1) ss (base + 1) = some (recOf s) := by
      rw [notesMapOf_lt ss (base + 1 + 1) _ (base + 1) (by omega), if_pos rfl]
    rw [mergeNotes_some hM]
    unfold stepOf recOf
    simp only [Step.mk.injEq, and_true, true_and]
    by_cases h2 : s.notesText = "(none)"
    · simp [h2]
    · simp [h2]

/-! ### `Parse` on a canonical document -/

theorem parse_canon (d : CanonDoc) (hB : BenignDoc d) :
    Parse (canonText d) = Except.ok (planOf d) := by
  obtain ⟨hname, htrim, hnne, hnlen, hcount, hsteps⟩ := hB
  unfold Parse
  rw [scanTooLong_canon d ⟨hname, htrim, hnne, hnlen, hcount, hsteps⟩, if_neg (by simp)]
  rw [goScanLines_canon d ⟨hname, htrim, hnne, hnlen, hcount, hsteps⟩]
  unfold canonLinesCore
  refine congrArg Except.ok ?_
  unfold parseLines
  rw [List.foldl_append, List.foldl_append, List.foldl_append]
  have h0 : List.foldl parseLine initPState ["# Project: " ++ d.name, "", "## Plan", ""] =
      ⟨d.name, [], 0, fun _ => none, 0, false, false, [], ""⟩ := by
    rw [List.foldl_cons,
      parseLine_project initPState _ (matchProject_canon d.name hnne htrim),
      string_mk_data, htrim]
    have hs1 : ({ initPState with projectName := d.name } : PState) =
        ⟨d.name, [], 0, fun _ => none, 0, false, false, [], ""⟩ := rfl
    rw [hs1, List.foldl_cons,
      parseLine_empty ⟨d.name, [], 0, fun _ => none, 0, false, false, [], ""⟩ rfl,
      List.foldl_cons,
      parseLine_skip ⟨d.name, [], 0, fun _ => none, 0, false, false, [], ""⟩ "## Plan"
        rfl rfl rfl rfl rfl rfl,
      List.foldl_cons,
      parseLine_empty ⟨d.name, [], 0, fun _ => none, 0, false, false, [], ""⟩ rfl,
      List.foldl_nil]
  rw [h0, parse_stepLines d.steps 1 ⟨d.name, [], 0, fun _ => none, 0, false, false, [], ""⟩
    hsteps rfl]
  have hs2 : ({ (⟨d.name, [], 0, fun _ => none, 0, false, false, [], ""⟩ : PState) with
      steps := (⟨d.name, [], 0, fun _ => none, 0, false, false, [], ""⟩ : PState).steps ++
        mkRawSteps
          (⟨d.name, [], 0, fun _ => none, 0, false, false, [], ""⟩ : PState).stepCount
          d.steps,
      stepCount :=
        (⟨d.name, [], 0, fun _ => none, 0, false, false, [], ""⟩ : PState).stepCount +
          d.steps.length } : PState) =
      ⟨d.name, mkRawSteps 0 d.steps, 0 + d.steps.length, fun _ => none, 0, false, false,
        [], ""⟩ := by
    simp only [PState.mk.injEq, and_true, true_and, List.nil_append]
  rw [hs2]
  have h1 : List.foldl parseLine
      ⟨d.name, mkRawSteps 0 d.steps, 0 + d.steps.length, fun _ => none, 0, false, false,
        [], ""⟩ ["", "## Notes"] =
      ⟨d.name, mkRawSteps 0 d.steps, 0 + d.steps.length, fun _ => none, 0, false, false,
        [], ""⟩ := by
    rw [List.foldl_cons,
      parseLine_empty ⟨d.name, mkRawSteps 0 d.steps, 0 + d.steps.length, fun _ => none, 0,
        false, false, [], ""⟩ rfl,
      List.foldl_cons,
      parseLine_skip ⟨d.name, mkRawSteps 0 d.steps, 0 + d.steps.length, fun _ => none, 0,
        false, false, [], ""⟩ "## Notes" rfl rfl rfl rfl rfl rfl,
      List.foldl_nil]
  rw [h1]
  obtain ⟨cur, inN, hrec⟩ := parse_blocks d.steps 1
    ⟨d.name, mkRawSteps 0 d.steps, 0 + d.steps.length, fun _ => none, 0, false, false,
      [], ""⟩ hsteps (by omega) rfl (fun k _ => rfl)
  rw [hrec]
  unfold planOf
  simp only [Plan.mk.injEq, and_true, true_and]
  show (mkRawSteps 0 d.steps).map (mergeNotes (notesMapOf (fun _ => none) 1 d.steps)) =
    canonParsedSteps 0 d.steps
  exact map_merge_canon d.steps 0 (fun _ => none)

/-! ### The checkbox rewriting of the writer's first pass -/

theorem updateCheckboxAux_irrel (m : Char) : ∀ (f1 : Nat) (cs : List Char) (f2 : Nat),
    cs.length ≤ f1 → cs.length ≤ f2 →
    updateCheckboxAux m f1 cs = updateCheckboxAux m f2 cs
  | 0, cs, f2, h1, _ => by
    have hnil : cs = [] := List.length_eq_zero.mp (Nat.le_zero.mp h1)
    subst hnil
    cases f2 <;> rfl
  | f1 + 1, cs, f2, h1, h2 => by
    cases cs with
    | nil => cases f2 <;> rfl
    | cons c rest =>
      rw [List.length_cons] at h1 h2
      obtain ⟨g2, rfl⟩ : ∃ g2, f2 = g2 + 1 := ⟨f2 - 1, by omega⟩
      simp only [updateCheckboxAux]
      by_cases hc : c = '['
      · cases rest with
        | nil =>
          simp only [hc, if_true]
          rw [updateCheckboxAux_irrel m f1 [] g2 (by simp) (by simp)]
        | cons a rest1 =>
          cases rest1 with
          | nil =>
            simp only [hc, if_true]
            rw [updateCheckboxAux_irrel m f1 [a] g2 (by simp at h1 ⊢; omega)
              (by simp at h2 ⊢; omega)]
          | cons b rest2 =>
            simp only [hc, if_true]
            by_cases hcond : (b = ']' && (a = ' ' || a = 'x' || a = '!')) = true
            · rw [hcond]
              simp only [if_true]
              rw [updateCheckboxAux_irrel m f1 rest2 g2
                (by simp at h1 ⊢; omega) (by simp at h2 ⊢; omega)]
            · rw [Bool.not_eq_true] at hcond
              rw [hcond]
              simp only [Bool.false_eq_true, if_false]
              rw [updateCheckboxAux_irrel m f1 (a :: b :: rest2) g2
                (by simp at h1 ⊢; omega) (by simp at h2 ⊢; omega)]
      · simp only [hc, if_false]
        rw [updateCheckboxAux_irrel m f1 rest g2 (by omega) (by omega)]

theorem updateCheckboxChars_cons_ne (m c : Char) (h : ¬(c = '[')) (cs : List Char) :
    updateCheckboxChars m (c :: cs) = c :: updateCheckboxChars m cs := by
  unfold updateCheckboxChars
  rw [List.length_cons]
  simp only [updateCheckboxAux, h, if_false]

theorem updateCheckbox_no_bracket (m : Char) : ∀ (cs : List Char), '[' ∉ cs →
    updateCheckboxChars m cs = cs
  | [], _ => rfl
  | c :: cs, h => by
    rw [updateCheckboxChars_cons_ne m c (fun hc => h (hc ▸ List.mem_cons_self c cs)) cs,
      updateCheckbox_no_bracket m cs (fun hm => h (List.mem_cons_of_mem c hm))]

theorem updateCheckboxAux_box_step (mk c c2 : Char) (cs : List Char) (f : Nat)
    (h : (c2 = ']' && (c = ' ' || c = 'x' || c = '!')) = true) :
    updateCheckboxAux mk (f + 1) ('[' :: c :: c2 :: cs) =
      '[' :: mk :: ']' :: updateCheckboxAux mk f cs := by
  show (if c2 = ']' && (c = ' ' || c = 'x' || c = '!') then
      '[' :: mk :: ']' :: updateCheckboxAux mk f cs
    else '[' :: updateCheckboxAux mk f (c :: c2 :: cs)) = _
  rw [if_pos h]

theorem updateCheckboxAux_nobox_step (mk c c2 : Char) (cs : List Char) (f : Nat)
    (h : (c2 = ']' && (c = ' ' || c = 'x' || c = '!')) = false) :
    updateCheckboxAux mk (f + 1) ('[' :: c :: c2 :: cs) =
      '[' :: updateCheckboxAux mk f (c :: c2 :: cs) := by
  show (if c2 = ']' && (c = ' ' || c = 'x' || c = '!') then
      '[' :: mk :: ']' :: updateCheckboxAux mk f cs
    else '[' :: updateCheckboxAux mk f (c :: c2 :: cs)) = _
  rw [if_neg (by rw [h]; simp)]

theorem updateCheckbox_box (mk m : Char) (hm : m = ' ' ∨ m = 'x' ∨ m = '!')
    (cs : List Char) :
    updateCheckboxChars mk ('[' :: m :: ']' :: cs) =
      '[' :: mk :: ']' :: updateCheckboxChars mk cs := by
  unfold updateCheckboxChars
  simp only [List.length_cons]
  rw [updateCheckboxAux_box_step mk m ']' cs (cs.length + 1 + 1)
    (by rcases hm with rfl | rfl | rfl <;> decide)]
  rw [updateCheckboxAux_irrel mk (cs.length + 1 + 1) cs cs.length (by omega) (le_refl _)]

theorem updateCheckbox_skipbox (mk : Char) (cs : List Char) (h : '[' ∉ cs) :
    updateCheckboxChars mk ('[' :: '-' :: ']' :: cs) = '[' :: '-' :: ']' :: cs := by
  unfold updateCheckboxChars
  simp only [List.length_cons]
  rw [updateCheckboxAux_nobox_step mk '-' ']' cs (cs.length + 1 + 1) (by decide)]
  show '[' :: updateCheckboxChars mk ('-' :: ']' :: cs) = _
  rw [updateCheckboxChars_cons_ne mk '-' (by decide), updateCheckboxChars_cons_ne mk ']'
    (by decide), updateCheckbox_no_bracket mk cs h]

theorem mk_eq_of_data {t : String} {l : List Char} (h : t.data = l) : String.mk l = t := by
  rw [← h]

theorem bracket_not_digit {i : Nat} (hmem : '[' ∈ (natDigits i).data) : False := by
  have := natDigits_digits i '[' hmem
  exact absurd this (by decide)

theorem updateCheckbox_stepLine (mk : Char) (i : Nat) (s : CStep)
    (hm : s.marker ∈ stepMarkers) (hnb : '[' ∉ s.desc.data) :
    String.mk (updateCheckboxChars mk (stepLineOf i s).data) =
      stepLineOf i (markCStep mk s) := by
  have hrest : '[' ∉ ('S' :: 't' :: 'e' :: 'p' :: ' ' ::
      ((natDigits i).data ++ ':' :: ' ' :: s.desc.data) : List Char) := by
    intro hmem
    simp only [List.mem_cons, List.mem_append] at hmem
    rcases hmem with h | h | h | h | h | (h | h | h | h)
    · exact absurd h (by decide)
    · exact absurd h (by decide)
    · exact absurd h (by decide)
    · exact absurd h (by decide)
    · exact absurd h (by decide)
    · exact bracket_not_digit h
    · exact absurd h (by decide)
    · exact absurd h (by decide)
    · exact hnb h
  rw [stepLine_data]
  rw [updateCheckboxChars_cons_ne mk '-' (by decide),
    updateCheckboxChars_cons_ne mk ' ' (by decide)]
  rcases marker_cases hm with hmk | hmk | hmk | hmk
  · rw [hmk, updateCheckbox_box mk ' ' (Or.inl rfl),
      updateCheckboxChars_cons_ne mk ' ' (by decide), updateCheckbox_no_bracket mk _ hrest]
    refine mk_eq_of_data ?_
    rw [stepLine_data]
    simp [markCStep, isPlainMarker, hmk]
  · rw [hmk, updateCheckbox_box mk 'x' (Or.inr (Or.inl rfl)),
      updateCheckboxChars_cons_ne mk ' ' (by decide), updateCheckbox_no_bracket mk _ hrest]
    refine mk_eq_of_data ?_
    rw [stepLine_data]
    simp [markCStep, isPlainMarker, hmk]
  · rw [hmk, updateCheckbox_box mk '!' (Or.inr (Or.inr rfl)),
      updateCheckboxChars_cons_ne mk ' ' (by decide), updateCheckbox_no_bracket mk _ hrest]
    refine mk_eq_of_data ?_
    rw [stepLine_data]
    simp [markCStep, isPlainMarker, hmk]
  · rw [hmk, updateCheckbox_skipbox mk _ (by
      intro hmem
      simp only [List.mem_cons, List.mem_append] at hmem
      rcases hmem with h | h | h | h | h | h | (h | h | h)
      · exact absurd h (by decide)
      · exact absurd h (by decide)
      · exact absurd h (by decide)
      · exact absurd h (by decide)
      · exact absurd h (by decide)
      · exact absurd h (by decide)
      · exact bracket_not_digit h
      · exact absurd h (by decide)
      · rcases h with h | h
        · exact absurd h (by decide)
        · exact hnb h)]
    refine mk_eq_of_data ?_
    rw [stepLine_data]
    simp [markCStep, isPlainMarker, hmk]

/-! ### The writer's first pass on canonical lines -/

theorem pass1_inert (sn : Nat) (mk : Char) : ∀ (ls : List String) (c : Nat),
    (∀ l ∈ ls, matchStepLineChars l.data = none ∧ matchNotesHeaderChars l.data = none) →
    pass1 sn mk ls c = (ls, c, false)
  | [], _, _ => rfl
  | l :: ls, c, h => by
    obtain ⟨h1, h2⟩ := h l (List.mem_cons_self l ls)
    simp only [pass1, pass1Rewrite, pass1Count, h1, h2, Option.isSome_none, Bool.false_and,
      Bool.false_eq_true, if_false,
      pass1_inert sn mk ls c (fun x hx => h x (List.mem_cons_of_mem l hx)), Bool.false_or]

theorem pass1_append (sn : Nat) (mk : Char) : ∀ (l1 l2 : List String) (c : Nat),
    pass1 sn mk (l1 ++ l2) c =
      ((pass1 sn mk l1 c).1 ++ (pass1 sn mk l2 (pass1 sn mk l1 c).2.1).1,
        (pass1 sn mk l2 (pass1 sn mk l1 c).2.1).2.1,
        (pass1 sn mk l1 c).2.2 || (pass1 sn mk l2 (pass1 sn mk l1 c).2.1).2.2)
  | [], l2, c => by simp [pass1]
  | l :: l1, l2, c => by
    show pass1 sn mk (l :: (l1 ++ l2)) c = _
    simp only [pass1]
    rw [pass1_append sn mk l1 l2 (pass1Count c l)]
    simp [Bool.or_assoc]

theorem pass1_stepLines (sn : Nat) (mk : Char) : ∀ (ss : List CStep) (i c : Nat),
    (∀ s ∈ ss, BenignStep s) →
    pass1 sn mk (stepLinesFrom i ss) c =
      (stepLinesFrom i (markStepsFrom mk sn (c + 1) ss), c + ss.length, false)
  | [], i, c, _ => by
    simp [stepLinesFrom, markStepsFrom, pass1]
  | s :: ss, i, c, hB => by
    obtain ⟨hm, hok, htrim, hne, hnb, -⟩ := hB s (List.mem_cons_self s ss)
    have hs := matchStepLine_canon i s hm hne htrim
    rw [stepLinesFrom, markStepsFrom]
    simp only [pass1, pass1Rewrite, pass1Count, hs, Option.isSome_some, Bool.true_and,
      if_true, (stepLine_profile i s).2.2.1, Option.isSome_none, Bool.false_eq_true,
      if_false, Bool.false_or,
      pass1_stepLines sn mk ss (i + 1) (c + 1)
        (fun t ht => hB t (List.mem_cons_of_mem s ht))]
    by_cases hcn : c + 1 = sn
    · rw [if_pos (by simp [hcn]), updateCheckbox_stepLine mk i s hm hnb, if_pos hcn]
      simp only [stepLinesFrom, Prod.mk.injEq, List.length_cons, and_true, true_and]
      omega
    · rw [if_neg (by simp [hcn]), if_neg hcn]
      simp only [stepLinesFrom, Prod.mk.injEq, List.length_cons, and_true, true_and]
      omega

theorem pass1_block (sn : Nat) (mk : Char) (j : Nat) (s : CStep) (c : Nat) :
    pass1 sn mk (blockOf j s) c = (blockOf j s, c, true) := by
  unfold blockOf
  cases hrt : s.retriesText with
  | none =>
    rw [List.append_nil]
    simp only [pass1, pass1Rewrite, pass1Count,
      show matchStepLineChars ("" : String).data = none from rfl,
      show matchNotesHeaderChars ("" : String).data = none from rfl,
      (hdrLine_profile (natDigits j)).2.2.1, matchNotesHeader_canon j,
      (statusLine_canon_profile s.statusText).2.2.1,
      (statusLine_canon_profile s.statusText).2.2.2.1,
      (lastRunLine_canon_profile s.lastRunText).2.2.1,
      (lastRunLine_canon_profile s.lastRunText).2.2.2.1,
      (notesLine_canon_profile s.notesText).2.2.1,
      (notesLine_canon_profile s.notesText).2.2.2.1,
      Option.isSome_none, Option.isSome_some, Bool.false_and, Bool.false_eq_true, if_false,
      Bool.false_or, Bool.or_false, Bool.true_or, Bool.or_true]
  | some t =>
    simp only [List.cons_append, List.nil_append]
    simp only [pass1, pass1Rewrite, pass1Count,
      show matchStepLineChars ("" : String).data = none from rfl,
      show matchNotesHeaderChars ("" : String).data = none from rfl,
      (hdrLine_profile (natDigits j)).2.2.1, matchNotesHeader_canon j,
      (statusLine_canon_profile s.statusText).2.2.1,
      (statusLine_canon_profile s.statusText).2.2.2.1,
      (lastRunLine_canon_profile s.lastRunText).2.2.1,
      (lastRunLine_canon_profile s.lastRunText).2.2.2.1,
      (notesLine_canon_profile s.notesText).2.2.1,
      (notesLine_canon_profile s.notesText).2.2.2.1,
      (retriesLine_canon_profile t).2.2.1,
      (retriesLine_canon_profile t).2.2.2.1,
      Option.isSome_none, Option.isSome_some, Bool.false_and, Bool.false_eq_true, if_false,
      Bool.false_or, Bool.or_false, Bool.true_or, Bool.or_true]

theorem pass1_blocks (sn : Nat) (mk : Char) : ∀ (ss : List CStep) (j c : Nat),
    pass1 sn mk (blocksFrom j ss) c = (blocksFrom j ss, c, !ss.isEmpty)
  | [], _, _ => rfl
  | s :: ss, j, c => by
    rw [blocksFrom, pass1_append sn mk (blockOf j s) (blocksFrom (j + 1) ss) c,
      pass1_block sn mk j s c, pass1_blocks sn mk ss (j + 1) c]
    simp

theorem pass1_last_empty (sn : Nat) (mk : Char) (c : Nat) :
    pass1 sn mk [""] c = ([""], c, false) :=
  pass1_inert sn mk [""] c (by
    intro l hl
    rw [List.mem_singleton.mp hl]
    exact ⟨rfl, rfl⟩)

/-- The writer's first pass on a canonical document: only the target
step's checkbox line changes, the final count is the step count, and the
`notesSectionExists` flag is set (there is at least one block). -/
theorem pass1_canon (d : CanonDoc) (n : Nat) (mk : Char)
    (hsteps : ∀ s ∈ d.steps, BenignStep s) (hne : d.steps ≠ []) :
    pass1 n mk (canonLines d) 0 =
      (["# Project: " ++ d.name, "", "## Plan", ""] ++
        (stepLinesFrom 1 (markStepsFrom mk n 1 d.steps) ++
          (["", "## Notes"] ++ (blocksFrom 1 d.steps ++ [""]))), d.steps.length, true) := by
  have hflag : d.steps.isEmpty = false := by
    cases hss : d.steps with
    | nil => exact absurd hss hne
    | cons a as => rfl
  have hA : pass1 n mk ["# Project: " ++ d.name, "", "## Plan", ""] 0 =
      (["# Project: " ++ d.name, "", "## Plan", ""], 0, false) := by
    refine pass1_inert n mk _ 0 ?_
    intro l hl
    simp only [List.mem_cons, List.not_mem_nil, or_false] at hl
    rcases hl with rfl | rfl | rfl | rfl
    · exact ⟨(titleLine_profile d.name).2.1, (titleLine_profile d.name).2.2.1⟩
    · exact ⟨rfl, rfl⟩
    · exact ⟨rfl, rfl⟩
    · exact ⟨rfl, rfl⟩
  have hM : pass1 n mk ["", "## Notes"] (0 + d.steps.length) =
      (["", "## Notes"], 0 + d.steps.length, false) := by
    refine pass1_inert n mk _ _ ?_
    intro l hl
    simp only [List.mem_cons, List.not_mem_nil, or_false] at hl
    rcases hl with rfl | rfl
    · exact ⟨rfl, rfl⟩
    · exact ⟨rfl, rfl⟩
  unfold canonLines canonLinesCore
  simp only [List.append_assoc]
  rw [pass1_append n mk, hA]
  simp only []
  rw [pass1_append n mk, pass1_stepLines n mk d.steps 1 0 hsteps]
  simp only []
  rw [pass1_append n mk, hM]
  simp only []
  rw [pass1_append n mk, pass1_blocks n mk d.steps 1 (0 + d.steps.length),
    pass1_last_empty n mk (0 + d.steps.length)]
  simp only [hflag, Nat.zero_add, Bool.or_false, Bool.false_or, Bool.not_false,
    Bool.or_true, Bool.true_or]

/-! ### The writer's second pass on canonical lines -/

theorem pass2Line_hdr {l : String} {k : Nat} (sn : Nat) (sw nt now : String) (st : W2State)
    (hh : matchNotesHeaderChars l.data = some k) :
    pass2Line sn sw nt now st l =
      some ((if k = sn then pass2FieldRewrite sw nt now l else l),
        ⟨true, k, st.found || decide (k = sn)⟩) := by
  simp only [pass2Line, hh]

theorem pass2Line_noHdr (sn : Nat) (sw nt now : String) (st : W2State) (l : String)
    (hh : matchNotesHeaderChars l.data = none)
    (hp : stepHeaderLit.isPrefixOf l.data = false) :
    pass2Line sn sw nt now st l =
      some ((if st.inNotes && st.curNum = sn then pass2FieldRewrite sw nt now l else l),
        st) := by
  simp only [pass2Line, hh, hp, Bool.and_false, Bool.false_eq_true, if_false]

theorem pass2Line_inert (sn : Nat) (sw nt now : String) (st : W2State) (l : String)
    (hh : matchNotesHeaderChars l.data = none)
    (hp : stepHeaderLit.isPrefixOf l.data = false) (hin : st.inNotes = false) :
    pass2Line sn sw nt now st l = some (l, st) := by
  rw [pass2Line_noHdr sn sw nt now st l hh hp, hin]
  simp

theorem pass2Line_empty (sn : Nat) (sw nt now : String) (st : W2State) :
    pass2Line sn sw nt now st "" = some ("", st) := by
  rw [pass2Line_noHdr sn sw nt now st "" rfl rfl,
    show pass2FieldRewrite sw nt now "" = "" from rfl, ite_self]

theorem pass2_cons {sn : Nat} {sw nt now : String} {st st1 : W2State} {l l1 : String}
    (ls : List String) (h : pass2Line sn sw nt now st l = some (l1, st1)) :
    pass2 sn sw nt now (l :: ls) st =
      (match pass2 sn sw nt now ls st1 with
       | none => none
       | some (rest, st2) => some (l1 :: rest, st2)) := by
  simp only [pass2, h]

theorem pass2_cons_none {sn : Nat} {sw nt now : String} {st : W2State} {l : String}
    (ls : List String) (h : pass2Line sn sw nt now st l = none) :
    pass2 sn sw nt now (l :: ls) st = none := by
  simp only [pass2, h]

theorem pass2_append {sn : Nat} {sw nt now : String} :
    ∀ (ls1 : List String) {st st1 : W2State} {out1 : List String} (ls2 : List String),
    pass2 sn sw nt now ls1 st = some (out1, st1) →
    pass2 sn sw nt now (ls1 ++ ls2) st =
      (match pass2 sn sw nt now ls2 st1 with
       | none => none
       | some (rest, st2) => some (out1 ++ rest, st2))
  | [], st, st1, out1, ls2, h => by
    simp only [pass2, Option.some_inj, Prod.mk.injEq] at h
    obtain ⟨h1, h2⟩ := h
    subst h1
    subst h2
    rw [List.nil_append]
    cases hp : pass2 sn sw nt now ls2 st with
    | none => simp [hp]
    | some q =>
      obtain ⟨rest, st2⟩ := q
      simp [hp]
  | l :: ls1, st, st1, out1, ls2, h => by
    cases hl : pass2Line sn sw nt now st l with
    | none =>
      rw [pass2_cons_none ls1 hl] at h
      exact absurd h (by simp)
    | some p =>
      obtain ⟨l1, stA⟩ := p
      rw [pass2_cons ls1 hl] at h
      cases hrec : pass2 sn sw nt now ls1 stA with
      | none => rw [hrec] at h; exact absurd h (by simp)
      | some q =>
        obtain ⟨rest, st2⟩ := q
        rw [hrec] at h
        simp only [Option.some_inj, Prod.mk.injEq] at h
        obtain ⟨h1, h2⟩ := h
        subst h1
        subst h2
        rw [List.cons_append, pass2_cons (ls1 ++ ls2) hl,
          pass2_append ls1 ls2 hrec]
        cases hp2 : pass2 sn sw nt now ls2 st2 with
        | none => simp [hp2]
        | some r =>
          obtain ⟨rest2, st3⟩ := r
          simp [hp2]

theorem pass2_inert {sn : Nat} {sw nt now : String} : ∀ (ls : List String) (st : W2State),
    st.inNotes = false →
    (∀ l ∈ ls, matchNotesHeaderChars l.data = none ∧
      stepHeaderLit.isPrefixOf l.data = false) →
    pass2 sn sw nt now ls st = some (ls, st)
  | [], _, _, _ => rfl
  | l :: ls, st, hin, h => by
    obtain ⟨h1, h2⟩ := h l (List.mem_cons_self l ls)
    rw [pass2_cons ls (pass2Line_inert sn sw nt now st l h1 h2 hin),
      pass2_inert ls st hin (fun x hx => h x (List.mem_cons_of_mem l hx))]

/-! ### The field rewriting on each canonical line kind -/

theorem fieldRewrite_hdr (sw nt now x : String) :
    pass2FieldRewrite sw nt now ("### Step " ++ x) = "### Step " ++ x := by
  unfold pass2FieldRewrite
  rw [(hdrLine_profile x).2.2.2.2.1, (hdrLine_profile x).2.2.2.2.2.1,
    (hdrLine_profile x).2.2.2.2.2.2]
  simp

theorem fieldRewrite_status (sw nt now x : String) (hx1 : x ≠ "")
    (hx2 : ∀ c ∈ x.data, goWordChar c = true) :
    pass2FieldRewrite sw nt now ("**Status**: " ++ x) = "**Status**: " ++ sw := by
  unfold pass2FieldRewrite
  rw [matchStatus_canon x hx1 hx2]
  simp

theorem fieldRewrite_lastRun (sw nt now x : String) (hx1 : x ≠ "")
    (hx2 : ∀ c, x.data.head? = some c → goRegexSpace c = false) :
    pass2FieldRewrite sw nt now ("**Last Run**: " ++ x) = "**Last Run**: " ++ now := by
  unfold pass2FieldRewrite
  rw [(lastRunLine_canon_profile x).2.2.2.2.2, matchLastRun_canon x hx1 hx2]
  simp

theorem fieldRewrite_notes (sw nt now x : String)
    (hx2 : ∀ c, x.data.head? = some c → goRegexSpace c = false) :
    pass2FieldRewrite sw nt now ("**Notes**: " ++ x) = "**Notes**: " ++ nt := by
  unfold pass2FieldRewrite
  rw [(notesLine_canon_profile x).2.2.2.2.2.1, (notesLine_canon_profile x).2.2.2.2.2.2,
    matchNotes_canon x hx2]
  simp

theorem fieldRewrite_retries (sw nt now x : String) :
    pass2FieldRewrite sw nt now ("**Retries**: " ++ x) = "**Retries**: " ++ x := by
  unfold pass2FieldRewrite
  rw [(retriesLine_canon_profile x).2.2.2.2.2.1,
    (retriesLine_canon_profile x).2.2.2.2.2.2.1,
    (retriesLine_canon_profile x).2.2.2.2.2.2.2]
  simp

/-! ### The second pass over one canonical block -/

theorem pass2_block (sn : Nat) (sw nt now : String) (j : Nat) (s : CStep)
    (hB : BenignStep s) (st : W2State) :
    pass2 sn sw nt now (blockOf j s) st =
      some ((if j = sn then
          blockOf j { s with statusText := sw, lastRunText := now, notesText := nt }
        else blockOf j s), ⟨true, j, st.found || decide (j = sn)⟩) := by
  obtain ⟨hm, hok, htrim, hne, hnb, hdl, hs1, hs2, hs3, hl1, hl2, hl3, hl4,
    hn1, hn2, hn3, hr⟩ := hB
  obtain ⟨b0, c0, f0⟩ := st
  have e1 : pass2Line sn sw nt now ⟨b0, c0, f0⟩ ("### Step " ++ natDigits j) =
      some ("### Step " ++ natDigits j, ⟨true, j, f0 || decide (j = sn)⟩) := by
    rw [pass2Line_hdr sn sw nt now _ (matchNotesHeader_canon j), fieldRewrite_hdr,
      ite_self]
  have e2 : pass2Line sn sw nt now ⟨true, j, f0 || decide (j = sn)⟩
      ("**Status**: " ++ s.statusText) =
      some ((if j = sn then "**Status**: " ++ sw else "**Status**: " ++ s.statusText),
        ⟨true, j, f0 || decide (j = sn)⟩) := by
    rw [pass2Line_noHdr sn sw nt now _ _ (statusLine_canon_profile s.statusText).2.2.2.1
      (statusLine_canon_profile s.statusText).2.2.2.2.1]
    by_cases hj : j = sn
    · rw [if_pos (by simp [hj]), if_pos hj,
        fieldRewrite_status sw nt now s.statusText hs1 hs2]
    · rw [if_neg (by simp [hj]), if_neg hj]
  have e3 : pass2Line sn sw nt now ⟨true, j, f0 || decide (j = sn)⟩
      ("**Last Run**: " ++ s.lastRunText) =
      some ((if j = sn then "**Last Run**: " ++ now
          else "**Last Run**: " ++ s.lastRunText),
        ⟨true, j, f0 || decide (j = sn)⟩) := by
    rw [pass2Line_noHdr sn sw nt now _ _
      (lastRunLine_canon_profile s.lastRunText).2.2.2.1
      (lastRunLine_canon_profile s.lastRunText).2.2.2.2.1]
    by_cases hj : j = sn
    · rw [if_pos (by simp [hj]), if_pos hj,
        fieldRewrite_lastRun sw nt now s.lastRunText hl2 hl3]
    · rw [if_neg (by simp [hj]), if_neg hj]
  have e4 : pass2Line sn sw nt now ⟨true, j, f0 || decide (j = sn)⟩
      ("**Notes**: " ++ s.notesText) =
      some ((if j = sn then "**Notes**: " ++ nt else "**Notes**: " ++ s.notesText),
        ⟨true, j, f0 || decide (j = sn)⟩) := by
    rw [pass2Line_noHdr sn sw nt now _ _
      (notesLine_canon_profile s.notesText).2.2.2.1
      (notesLine_canon_profile s.notesText).2.2.2.2.1]
    by_cases hj : j = sn
    · rw [if_pos (by simp [hj]), if_pos hj, fieldRewrite_notes sw nt now s.notesText hn2]
    · rw [if_neg (by simp [hj]), if_neg hj]
  unfold blockOf
  cases hrt : s.retriesText with
  | none =>
    rw [List.append_nil,
      pass2_cons _ (pass2Line_empty sn sw nt now ⟨b0, c0, f0⟩),
      pass2_cons _ e1, pass2_cons _ e2, pass2_cons _ e3, pass2_cons _ e4,
      show pass2 sn sw nt now []
        ⟨true, j, f0 || decide (j = sn)⟩ =
        some ([], ⟨true, j, f0 || decide (j = sn)⟩) from rfl]
    by_cases hj : j = sn <;> simp [hj, hrt]
  | some t =>
    have e5 : pass2Line sn sw nt now ⟨true, j, f0 || decide (j = sn)⟩
        ("**Retries**: " ++ t) =
        some ("**Retries**: " ++ t, ⟨true, j, f0 || decide (j = sn)⟩) := by
      rw [pass2Line_noHdr sn sw nt now _ _ (retriesLine_canon_profile t).2.2.2.1
        (retriesLine_canon_profile t).2.2.2.2.1, fieldRewrite_retries, ite_self]
    simp only [List.cons_append, List.nil_append]
    rw [pass2_cons _ (pass2Line_empty sn sw nt now ⟨b0, c0, f0⟩),
      pass2_cons _ e1, pass2_cons _ e2, pass2_cons _ e3, pass2_cons _ e4,
      pass2_cons _ e5,
      show pass2 sn sw nt now []
        ⟨true, j, f0 || decide (j = sn)⟩ =
        some ([], ⟨true, j, f0 || decide (j = sn)⟩) from rfl]
    by_cases hj : j = sn <;> simp [hj, hrt]

theorem found_flag_merge (j sn len : Nat) :
    (decide (j = sn) || decide (j + 1 ≤ sn ∧ sn < j + 1 + len)) =
      decide (j ≤ sn ∧ sn < j + (len + 1)) := by
  rw [show (decide (j = sn) || decide (j + 1 ≤ sn ∧ sn < j + 1 + len)) =
      decide (j = sn ∨ (j + 1 ≤ sn ∧ sn < j + 1 + len)) from by
    by_cases h1 : j = sn <;> by_cases h2 : j + 1 ≤ sn ∧ sn < j + 1 + len <;>
      simp [h1, h2]]
  rw [decide_eq_decide]
  omega

/-! ### The second pass over all canonical blocks -/

theorem pass2_blocks (sn : Nat) (sw nt now : String) : ∀ (ss : List CStep) (j : Nat)
    (st : W2State), (∀ s ∈ ss, BenignStep s) →
    ∃ b c, pass2 sn sw nt now (blocksFrom j ss) st =
      some (blocksFrom j (fieldUpdFrom sn sw nt now j ss),
        ⟨b, c, st.found || decide (j ≤ sn ∧ sn < j + ss.length)⟩)
  | [], j, st, _ => ⟨st.inNotes, st.curNum, by
      obtain ⟨b0, c0, f0⟩ := st
      rw [blocksFrom, fieldUpdFrom, blocksFrom]
      show some ([], (⟨b0, c0, f0⟩ : W2State)) = _
      have hd : decide (j ≤ sn ∧ sn < j + ([] : List CStep).length) = false := by
        simp only [List.length_nil]
        rw [decide_eq_false_iff_not]
        omega
      rw [hd, Bool.or_false]⟩
  | s :: ss, j, st, hB => by
    obtain ⟨b, c, hrec⟩ := pass2_blocks sn sw nt now ss (j + 1)
      ⟨true, j, st.found || decide (j = sn)⟩
      (fun t ht => hB t (List.mem_cons_of_mem s ht))
    refine ⟨b, c, ?_⟩
    rw [blocksFrom,
      pass2_append (blockOf j s) (blocksFrom (j + 1) ss)
        (pass2_block sn sw nt now j s (hB s (List.mem_cons_self s ss)) st),
      hrec]
    simp only []
    rw [fieldUpdFrom, blocksFrom, apply_ite (blockOf j), Bool.or_assoc, List.length_cons,
      found_flag_merge j sn ss.length]

theorem pass2_last_empty (sn : Nat) (sw nt now : String) (st : W2State) :
    pass2 sn sw nt now [""] st = some ([""], st) := by
  rw [pass2_cons [] (pass2Line_empty sn sw nt now st),
    show pass2 sn sw nt now [] st = some ([], st) from rfl]

/-! ### The first-pass marking agrees with the canonical update -/

theorem stepLines_mark_upd (r : StepResult) (now : String) (n : Nat) :
    ∀ (ss : List CStep) (i j : Nat),
    stepLinesFrom i (markStepsFrom (newMarkerFor r) n j ss) =
      stepLinesFrom i (updStepsFrom r now n j ss)
  | [], _, _ => rfl
  | s :: ss, i, j => by
    rw [markStepsFrom, updStepsFrom, stepLinesFrom, stepLinesFrom,
      stepLines_mark_upd r now n ss (i + 1) (j + 1)]
    by_cases hj : j = n
    · simp [hj, stepLineOf, markCStep, updCStep]
    · simp [hj]

theorem blocks_field_upd (r : StepResult) (now : String) (n : Nat) :
    ∀ (ss : List CStep) (j : Nat),
    blocksFrom j (fieldUpdFrom n (statusWordFor r) (notesFor r) now j ss) =
      blocksFrom j (updStepsFrom r now n j ss)
  | [], _ => rfl
  | s :: ss, j => by
    rw [fieldUpdFrom, updStepsFrom, blocksFrom, blocksFrom,
      blocks_field_upd r now n ss (j + 1)]
    by_cases hj : j = n
    · simp [hj, blockOf, updCStep]
    · simp [hj]

/-! ### `updateStepInContent` on a canonical document -/

theorem updateStep_canon (d : CanonDoc) (n : Nat) (r : StepResult) (now : String)
    (hB : BenignDoc d) (hn1 : 1 ≤ n) (hn2 : n ≤ d.steps.length) :
    updateStepInContent (canonText d) n r now =
      some (canonText (canonUpdate d n r now)) := by
  obtain ⟨hname, htrim, hnne, hnlen, hcount, hsteps⟩ := hB
  have hne : d.steps ≠ [] := by
    intro h
    rw [h] at hn2
    simp at hn2
    omega
  unfold updateStepInContent
  rw [splitOnNl_canon d ⟨hname, htrim, hnne, hnlen, hcount, hsteps⟩,
    pass1_canon d n (newMarkerFor r) hsteps hne]
  simp only []
  obtain ⟨b, c, hblocks⟩ := pass2_blocks n (statusWordFor r) (notesFor r) now d.steps 1
    ⟨false, 0, false⟩ hsteps
  have hdec : decide (1 ≤ n ∧ n < 1 + d.steps.length) = true :=
    decide_eq_true ⟨hn1, by omega⟩
  rw [hdec, Bool.false_or] at hblocks
  have h4 : pass2 n (statusWordFor r) (notesFor r) now
      (blocksFrom 1 d.steps ++ [""]) ⟨false, 0, false⟩ =
      some (blocksFrom 1 (fieldUpdFrom n (statusWordFor r) (notesFor r) now 1 d.steps) ++
        [""], ⟨b, c, true⟩) := by
    rw [pass2_append (blocksFrom 1 d.steps) [""] hblocks,
      pass2_last_empty n (statusWordFor r) (notesFor r) now ⟨b, c, true⟩]
  have hM2 : pass2 n (statusWordFor r) (notesFor r) now ["", "## Notes"]
      ⟨false, 0, false⟩ = some (["", "## Notes"], ⟨false, 0, false⟩) := by
    refine pass2_inert _ _ rfl ?_
    intro l hl
    simp only [List.mem_cons, List.not_mem_nil, or_false] at hl
    rcases hl with rfl | rfl
    · exact ⟨rfl, rfl⟩
    · exact ⟨rfl, rfl⟩
  have h3 : pass2 n (statusWordFor r) (notesFor r) now
      (["", "## Notes"] ++ (blocksFrom 1 d.steps ++ [""])) ⟨false, 0, false⟩ =
      some (["", "## Notes"] ++
        (blocksFrom 1 (fieldUpdFrom n (statusWordFor r) (notesFor r) now 1 d.steps) ++
          [""]), ⟨b, c, true⟩) := by
    rw [pass2_append ["", "## Notes"] _ hM2, h4]
  have hS2 : pass2 n (statusWordFor r) (notesFor r) now
      (stepLinesFrom 1 (markStepsFrom (newMarkerFor r) n 1 d.steps))
      ⟨false, 0, false⟩ =
      some (stepLinesFrom 1 (markStepsFrom (newMarkerFor r) n 1 d.steps),
        ⟨false, 0, false⟩) := by
    refine pass2_inert _ _ rfl ?_
    intro l hl
    obtain ⟨j, s, _, rfl, _, _⟩ := mem_stepLinesFrom hl
    exact ⟨(stepLine_profile j s).2.2.1, (stepLine_profile j s).2.2.2.1⟩
  have h2 : pass2 n (statusWordFor r) (notesFor r) now
      (stepLinesFrom 1 (markStepsFrom (newMarkerFor r) n 1 d.steps) ++
        (["", "## Notes"] ++ (blocksFrom 1 d.steps ++ [""]))) ⟨false, 0, false⟩ =
      some (stepLinesFrom 1 (markStepsFrom (newMarkerFor r) n 1 d.steps) ++
        (["", "## Notes"] ++
          (blocksFrom 1 (fieldUpdFrom n (statusWordFor r) (notesFor r) now 1 d.steps) ++
            [""])), ⟨b, c, true⟩) := by
    rw [pass2_append _ _ hS2, h3]
  have hA2 : pass2 n (statusWordFor r) (notesFor r) now
      ["# Project: " ++ d.name, "", "## Plan", ""] ⟨false, 0, false⟩ =
      some (["# Project: " ++ d.name, "", "## Plan", ""], ⟨false, 0, false⟩) := by
    refine pass2_inert _ _ rfl ?_
    intro l hl
    simp only [List.mem_cons, List.not_mem_nil, or_false] at hl
    rcases hl with rfl | rfl | rfl | rfl
    · exact ⟨(titleLine_profile d.name).2.2.1, (titleLine_profile d.name).2.2.2.1⟩
    · exact ⟨rfl, rfl⟩
    · exact ⟨rfl, rfl⟩
    · exact ⟨rfl, rfl⟩
  have h1 : pass2 n (statusWordFor r) (notesFor r) now
      (["# Project: " ++ d.name, "", "## Plan", ""] ++
        (stepLinesFrom 1 (markStepsFrom (newMarkerFor r) n 1 d.steps) ++
          (["", "## Notes"] ++ (blocksFrom 1 d.steps ++ [""])))) ⟨false, 0, false⟩ =
      some (["# Project: " ++ d.name, "", "## Plan", ""] ++
        (stepLinesFrom 1 (markStepsFrom (newMarkerFor r) n 1 d.steps) ++
          (["", "## Notes"] ++
            (blocksFrom 1 (fieldUpdFrom n (statusWordFor r) (notesFor r) now 1 d.steps) ++
              [""]))), ⟨b, c, true⟩) := by
    rw [pass2_append _ _ hA2, h2]
  rw [h1]
  simp only [Bool.not_true, Bool.false_eq_true, if_false]
  refine congrArg some (congrArg joinNl ?_)
  rw [stepLines_mark_upd r now n d.steps 1 1, blocks_field_upd r now n d.steps 1]
  unfold canonLines canonLinesCore canonUpdate
  simp only [List.append_assoc]

/-! ### The derived notes text is itself benign -/

theorem splitAux_no_nl_mem : ∀ (cs acc : List Char), '\n' ∉ acc →
    ∀ l ∈ splitAux cs acc, '\n' ∉ l.data
  | [], acc, hacc => by
    intro l hl
    rw [splitAux] at hl
    simp only [List.mem_singleton] at hl
    subst hl
    intro hmem
    exact hacc (List.mem_reverse.mp hmem)
  | c :: rest, acc, hacc => by
    intro l hl
    rw [splitAux] at hl
    by_cases hc : c = '\n'
    · rw [if_pos hc] at hl
      rcases List.mem_cons.mp hl with rfl | h2
      · intro hmem
        exact hacc (List.mem_reverse.mp hmem)
      · exact splitAux_no_nl_mem rest [] (by simp) l h2
    · rw [if_neg hc] at hl
      refine splitAux_no_nl_mem rest (c :: acc) ?_ l hl
      intro hmem
      rcases List.mem_cons.mp hmem with h | h
      · exact hc h.symm
      · exact hacc h

theorem splitOnNl_no_nl (s : String) : ∀ l ∈ splitOnNl s, '\n' ∉ l.data :=
  splitAux_no_nl_mem s.data [] (by simp)

theorem goSpace_cr : goSpace '\r' = true := by decide

theorem summarizeLoop_ok : ∀ (ls : List String), (∀ l ∈ ls, '\n' ∉ l.data) →
    okLine (summarizeLoop ls) ∧
    (∀ c, (summarizeLoop ls).data.head? = some c → goRegexSpace c = false) ∧
    (summarizeLoop ls).length ≤ 2000
  | [], _ => ⟨by decide, by decide, by decide⟩
  | l :: rest, h => by
    have hnl : '\n' ∉ l.data := h l (List.mem_cons_self l rest)
    have hsub : ∀ c ∈ trimChars l.data, c ∈ l.data :=
      fun c hc => (trimChars_within l.data).subset hc
    simp only [summarizeLoop]
    by_cases hc : (decide ¬trimChars l.data = [] &&
        !(['S', 'T', 'E', 'P', '_'].isPrefixOf (trimChars l.data))) = true
    · rw [if_pos hc]
      have htne : trimChars l.data ≠ [] := by
        have hc' := hc
        simp only [Bool.and_eq_true, decide_eq_true_eq] at hc'
        exact hc'.1
      by_cases hlen : 100 < (trimChars l.data).length
      · rw [if_pos hlen]
        obtain ⟨c0, t0, ht0⟩ : ∃ c0 t0, trimChars l.data = c0 :: t0 := by
          cases hcl : trimChars l.data with
          | nil => exact absurd hcl htne
          | cons a as => exact ⟨a, as, rfl⟩
        refine ⟨⟨?_, ?_⟩, ?_, ?_⟩
        · rw [String.data_append]
          intro hmem
          rcases List.mem_append.mp hmem with hm | hm
          · exact hnl (hsub '\n' (List.mem_of_mem_take hm))
          · exact absurd hm (by decide)
        · rw [String.data_append, List.getLast?_append]
          rw [show ("..." : String).data.getLast? = some '.' from rfl]
          intro hEq
          exact absurd (Option.some_inj.mp hEq) (by decide)
        · intro c hhead
          rw [String.data_append, ht0] at hhead
          rw [show ((c0 :: t0).take 97) = c0 :: t0.take 96 from rfl] at hhead
          rw [List.cons_append, List.head?_cons, Option.some_inj] at hhead
          subst hhead
          exact not_goRegexSpace (@trim_head l.data c0 (by rw [ht0, List.head?_cons]))
        · rw [String.length_append]
          have h97 : ((trimChars l.data).take 97).length ≤ 97 := by
            rw [List.length_take]
            omega
          have hmk : (String.mk ((trimChars l.data).take 97)).length =
              ((trimChars l.data).take 97).length := rfl
          have hdots : ("..." : String).length = 3 := rfl
          omega
      · rw [if_neg hlen]
        refine ⟨⟨fun hmem => hnl (hsub '\n' hmem), ?_⟩, ?_, ?_⟩
        · intro hEq
          exact absurd (trim_getLast hEq) (by decide)
        · intro c hhead
          exact not_goRegexSpace (trim_head hhead)
        · have hl100 : (trimChars l.data).length ≤ 100 := by omega
          have hmk : (String.mk (trimChars l.data)).length =
              (trimChars l.data).length := rfl
          omega
    · rw [if_neg (by rw [Bool.not_eq_true] at hc; rw [hc]; simp)]
      exact summarizeLoop_ok rest (fun x hx => h x (List.mem_cons_of_mem l hx))

theorem summarize_ok (output : String) :
    okLine (summarizeOutput output) ∧
    (∀ c, (summarizeOutput output).data.head? = some c → goRegexSpace c = false) ∧
    (summarizeOutput output).length ≤ 2000 := by
  unfold summarizeOutput
  by_cases he : (splitOnNl (goTrim output)).isEmpty = true
  · simp only [he, if_true]
    exact ⟨by decide, by decide, by decide⟩
  · simp only [he, Bool.false_eq_true, if_false]
    refine summarizeLoop_ok (splitOnNl (goTrim output)).reverse ?_
    intro x hx
    exact splitOnNl_no_nl (goTrim output) x (List.mem_reverse.mp hx)

theorem benign_notesFor (r : StepResult) (hr : BenignResult r) :
    okLine (notesFor r) ∧
    (∀ c, (notesFor r).data.head? = some c → goRegexSpace c = false) ∧
    (notesFor r).length ≤ 2000 := by
  obtain ⟨hre, hrlen⟩ := hr
  unfold notesFor
  by_cases hc : (!r.success && decide ¬r.reason = "") = true
  · rw [if_pos hc]
    have hdata : ("Failed: " ++ r.reason).data =
        'F' :: 'a' :: 'i' :: 'l' :: 'e' :: 'd' :: ':' :: ' ' :: r.reason.data := by
      rw [String.data_append]
      rfl
    refine ⟨okLine_append (by decide) (okLine_of_chars hre), ?_, ?_⟩
    · intro c hhead
      rw [hdata, List.head?_cons, Option.some_inj] at hhead
      subst hhead
      decide
    · rw [String.length_append]
      have h8 : ("Failed: " : String).length = 8 := rfl
      omega
  · rw [if_neg (by rw [Bool.not_eq_true] at hc; rw [hc]; simp)]
    exact summarize_ok r.output

/-! ### The canonical update preserves benignity -/

theorem plain_newMarker (r : StepResult) : isPlainMarker (newMarkerFor r) = true := by
  unfold newMarkerFor
  by_cases hs : r.success = true
  · rw [if_pos hs]
    decide
  · rw [if_neg hs]
    decide

theorem newMarker_mem (r : StepResult) : newMarkerFor r ∈ stepMarkers := by
  unfold newMarkerFor
  by_cases hs : r.success = true
  · rw [if_pos hs]
    decide
  · rw [if_neg hs]
    decide

theorem statusWord_facts (r : StepResult) :
    statusWordFor r ≠ "" ∧ (∀ c ∈ (statusWordFor r).data, goWordChar c = true) ∧
      (statusWordFor r).length ≤ 2000 := by
  unfold statusWordFor
  by_cases hs : r.success = true
  · rw [if_pos hs]
    exact ⟨by decide, by decide, by decide⟩
  · rw [if_neg hs]
    exact ⟨by decide, by decide, by decide⟩

theorem benign_updCStep {s : CStep} (hBs : BenignStep s) (r : StepResult) {now : String}
    (hnow : BenignNow now) (hr : BenignResult r) : BenignStep (updCStep s r now) := by
  obtain ⟨hm, hd1, hd2, hd3, hd4, hd5, hs1, hs2, hs3, hl1, hl2, hl3, hl4,
    hn1, hn2, hn3, hret⟩ := hBs
  obtain ⟨hnow1, hnow2, hnow3, hnow4⟩ := hnow
  obtain ⟨hN1, hN2, hN3⟩ := benign_notesFor r hr
  refine ⟨?_, hd1, hd2, hd3, hd4, hd5, (statusWord_facts r).1, (statusWord_facts r).2.1,
    (statusWord_facts r).2.2, hnow1, hnow2, hnow3, hnow4, hN1, hN2, hN3, hret⟩
  show (if isPlainMarker s.marker = true then newMarkerFor r else s.marker) ∈ stepMarkers
  by_cases hp : isPlainMarker s.marker = true
  · rw [if_pos hp]
    exact newMarker_mem r
  · rw [if_neg hp]
    exact hm

theorem updStepsFrom_length (r : StepResult) (now : String) (n : Nat) :
    ∀ (ss : List CStep) (j : Nat), (updStepsFrom r now n j ss).length = ss.length
  | [], _ => rfl
  | s :: ss, j => by
    rw [updStepsFrom, List.length_cons, List.length_cons,
      updStepsFrom_length r now n ss (j + 1)]

theorem mem_updStepsFrom (r : StepResult) (now : String) (n : Nat) :
    ∀ {ss : List CStep} {j : Nat} {x : CStep}, x ∈ updStepsFrom r now n j ss →
    ∃ t ∈ ss, x = t ∨ x = updCStep t r now := by
  intro ss
  induction ss with
  | nil => intro j x hx; exact absurd hx (by simp [updStepsFrom])
  | cons s ss ih =>
    intro j x hx
    rw [updStepsFrom] at hx
    rcases List.mem_cons.mp hx with h1 | h2
    · by_cases hj : j = n
      · rw [if_pos hj] at h1
        exact ⟨s, List.mem_cons_self s ss, Or.inr h1⟩
      · rw [if_neg hj] at h1
        exact ⟨s, List.mem_cons_self s ss, Or.inl h1⟩
    · obtain ⟨t, ht, hor⟩ := ih h2
      exact ⟨t, List.mem_cons_of_mem s ht, hor⟩

theorem benign_canonUpdate (d : CanonDoc) (n : Nat) (r : StepResult) (now : String)
    (hB : BenignDoc d) (hnow : BenignNow now) (hr : BenignResult r) :
    BenignDoc (canonUpdate d n r now) := by
  obtain ⟨h1, h2, h3, h4, h5, h6⟩ := hB
  refine ⟨h1, h2, h3, h4, ?_, ?_⟩
  · show (updStepsFrom r now n 1 d.steps).length ≤ 2000
    rw [updStepsFrom_length r now n d.steps 1]
    exact h5
  · intro s hs
    obtain ⟨t, ht, hor⟩ := mem_updStepsFrom r now n hs
    rcases hor with h | h
    · rw [h]
      exact h6 t ht
    · rw [h]
      exact benign_updCStep (h6 t ht) r hnow hr

/-! ### Element access in the canonical step lists -/

theorem canonParsedSteps_length : ∀ (ss : List CStep) (b : Nat),
    (canonParsedSteps b ss).length = ss.length
  | [], _ => rfl
  | s :: ss, b => by
    rw [canonParsedSteps, List.length_cons, List.length_cons,
      canonParsedSteps_length ss (b + 1)]

theorem canonParsedSteps_getD : ∀ (ss : List CStep) (b j : Nat), j < ss.length →
    (canonParsedSteps b ss).getD j default = stepOf (b + j + 1) (ss.getD j default)
  | [], _, j, hj => absurd hj (by simp)
  | s :: ss, b, 0, _ => by
    rw [canonParsedSteps]
    rfl
  | s :: ss, b, j + 1, hj => by
    rw [canonParsedSteps]
    show (canonParsedSteps (b + 1) ss).getD j default = _
    rw [canonParsedSteps_getD ss (b + 1) j (by simp at hj; omega)]
    have harith : b + 1 + j + 1 = b + (j + 1) + 1 := by omega
    rw [harith]
    rfl

theorem updStepsFrom_getD (r : StepResult) (now : String) (n : Nat) :
    ∀ (ss : List CStep) (j0 j : Nat), j < ss.length →
    (updStepsFrom r now n j0 ss).getD j default =
      (if j0 + j = n then updCStep (ss.getD j default) r now else ss.getD j default)
  | [], _, j, hj => absurd hj (by simp)
  | s :: ss, j0, 0, _ => by
    rw [updStepsFrom]
    show (if j0 = n then updCStep s r now else s) = _
    rw [Nat.add_zero]
    rfl
  | s :: ss, j0, j + 1, hj => by
    rw [updStepsFrom]
    show (updStepsFrom r now n (j0 + 1) ss).getD j default = _
    rw [updStepsFrom_getD r now n ss (j0 + 1) j (by simp at hj; omega)]
    have harith : j0 + 1 + j = j0 + (j + 1) := by omega
    rw [harith]
    rfl

/-- C1 (amended): on a canonical annotated document — title, checkbox
plan, and one `### Step n` block per step holding Status/Last Run/Notes
and an optional Retries field, with single-line benign values — patching
step `n` (`1 ≤ n ≤ N`) whose checkbox marker is in the class `[ x!]` of
writer.go line 125 and re-parsing yields a plan whose non-target steps
keep description, status, notes and retry count, and whose target step
carries the checkbox status `completed`/`failed` dictated by
`result.Success` and the notes text the writer derives from the result
(the writer's literal `(none)` parses back as the empty notes).  The
original claim fails without the marker restriction (a Skipped `[-]`
checkbox is never rewritten, see the counterexample) and the target
step's stored retry count is never taken from the result (the writer
writes no Retries field, claim C3). -/
theorem c1_round_trip (d : CanonDoc) (n : Nat) (r : StepResult) (now : String)
    (hB : BenignDoc d) (hnow : BenignNow now) (hr : BenignResult r)
    (hn1 : 1 ≤ n) (hn2 : n ≤ d.steps.length)
    (hplain : isPlainMarker ((d.steps.getD (n - 1) default).marker) = true) :
    ∃ out p,
      updateStepInContent (canonText d) n r now = some out ∧
      Parse out = Except.ok p ∧
      Parse (canonText d) = Except.ok (planOf d) ∧
      p.steps.length = (planOf d).steps.length ∧
      (∀ j, j < p.steps.length → j + 1 ≠ n →
        stepCore (p.steps.getD j default) = stepCore ((planOf d).steps.getD j default)) ∧
      (p.steps.getD (n - 1) default).status =
        (if r.success then StepStatus.completed else StepStatus.failed) ∧
      (p.steps.getD (n - 1) default).notes =
        (if notesFor r = "(none)" then "" else notesFor r) ∧
      (p.steps.getD (n - 1) default).description =
        ((planOf d).steps.getD (n - 1) default).description ∧
      (p.steps.getD (n - 1) default).retryCount =
        ((planOf d).steps.getD (n - 1) default).retryCount := by
  have hB' := benign_canonUpdate d n r now hB hnow hr
  have hlen : ∀ (ss : List CStep), (planOf { d with steps := ss }).steps.length =
      ss.length := fun ss => canonParsedSteps_length ss 0
  have hnlt : n - 1 < d.steps.length := by omega
  have hnlt2 : n - 1 < (updStepsFrom r now n 1 d.steps).length := by
    rw [updStepsFrom_length r now n d.steps 1]
    omega
  refine ⟨canonText (canonUpdate d n r now), planOf (canonUpdate d n r now),
    updateStep_canon d n r now hB hn1 hn2, parse_canon _ hB', parse_canon d hB,
    ?_, ?_, ?_, ?_, ?_, ?_⟩
  · show (canonParsedSteps 0 (updStepsFrom r now n 1 d.steps)).length =
      (canonParsedSteps 0 d.steps).length
    rw [canonParsedSteps_length, canonParsedSteps_length,
      updStepsFrom_length r now n d.steps 1]
  · intro j hj hjn
    have hps : (planOf (canonUpdate d n r now)).steps.length =
        (canonParsedSteps 0 (updStepsFrom r now n 1 d.steps)).length := rfl
    have hjlt : j < d.steps.length := by
      rw [hps, canonParsedSteps_length, updStepsFrom_length r now n d.steps 1] at hj
      exact hj
    show stepCore ((canonParsedSteps 0 (updStepsFrom r now n 1 d.steps)).getD j default) =
      stepCore ((canonParsedSteps 0 d.steps).getD j default)
    rw [canonParsedSteps_getD _ 0 j (by rw [updStepsFrom_length r now n d.steps 1]; omega),
      canonParsedSteps_getD _ 0 j hjlt,
      updStepsFrom_getD r now n d.steps 1 j hjlt, if_neg (by omega)]
  · show ((canonParsedSteps 0 (updStepsFrom r now n 1 d.steps)).getD (n - 1)
        default).status = _
    rw [canonParsedSteps_getD _ 0 (n - 1) hnlt2,
      updStepsFrom_getD r now n d.steps 1 (n - 1) hnlt, if_pos (by omega)]
    show parseCheckbox (if isPlainMarker (d.steps.getD (n - 1) default).marker = true then
        newMarkerFor r else (d.steps.getD (n - 1) default).marker) = _
    rw [if_pos hplain]
    unfold newMarkerFor parseCheckbox
    by_cases hs : r.success = true
    · rw [if_pos hs, if_pos hs]
      rfl
    · rw [if_neg hs, if_neg hs]
      rfl
  · show ((canonParsedSteps 0 (updStepsFrom r now n 1 d.steps)).getD (n - 1)
        default).notes = _
    rw [canonParsedSteps_getD _ 0 (n - 1) hnlt2,
      updStepsFrom_getD r now n d.steps 1 (n - 1) hnlt, if_pos (by omega)]
    rfl
  · show ((canonParsedSteps 0 (updStepsFrom r now n 1 d.steps)).getD (n - 1)
        default).description = ((canonParsedSteps 0 d.steps).getD (n - 1)
        default).description
    rw [canonParsedSteps_getD _ 0 (n - 1) hnlt2, canonParsedSteps_getD _ 0 (n - 1) hnlt,
      updStepsFrom_getD r now n d.steps 1 (n - 1) hnlt, if_pos (by omega)]
    rfl
  · show ((canonParsedSteps 0 (updStepsFrom r now n 1 d.steps)).getD (n - 1)
        default).retryCount = ((canonParsedSteps 0 d.steps).getD (n - 1)
        default).retryCount
    rw [canonParsedSteps_getD _ 0 (n - 1) hnlt2, canonParsedSteps_getD _ 0 (n - 1) hnlt,
      updStepsFrom_getD r now n d.steps 1 (n - 1) hnlt, if_pos (by omega)]
    rfl

theorem updCStep_fields (s : CStep) (r : StepResult) (now : String) :
    updCStep s r now = ⟨if isPlainMarker s.marker then newMarkerFor r else s.marker,
      s.desc, statusWordFor r, now, notesFor r, s.retriesText⟩ := rfl

theorem eraseLRStep_fields (s : CStep) :
    eraseLRStep s = ⟨s.marker, s.desc, s.statusText, "-", s.notesText, s.retriesText⟩ := rfl

theorem updCStep_twice (s : CStep) (r : StepResult) (now1 now2 : String) :
    updCStep (updCStep s r now1) r now2 = updCStep s r now2 := by
  by_cases hp : isPlainMarker s.marker = true
  · simp [updCStep_fields, hp, plain_newMarker]
  · simp [updCStep_fields, hp]

theorem updStepsFrom_twice (r : StepResult) (now1 now2 : String) (n : Nat) :
    ∀ (ss : List CStep) (j : Nat),
      updStepsFrom r now2 n j (updStepsFrom r now1 n j ss) = updStepsFrom r now2 n j ss
  | [], _ => rfl
  | s :: ss, j => by
    show (if j = n then updCStep (if j = n then updCStep s r now1 else s) r now2
        else (if j = n then updCStep s r now1 else s)) ::
        updStepsFrom r now2 n (j + 1) (updStepsFrom r now1 n (j + 1) ss) =
      (if j = n then updCStep s r now2 else s) :: updStepsFrom r now2 n (j + 1) ss
    rw [updStepsFrom_twice r now1 now2 n ss (j + 1)]
    by_cases hj : j = n
    · simp [hj, updCStep_twice]
    · simp [hj]

theorem map_erase_updStepsFrom (r : StepResult) (now1 now2 : String) (n : Nat) :
    ∀ (ss : List CStep) (j : Nat),
      (updStepsFrom r now2 n j ss).map eraseLRStep =
        (updStepsFrom r now1 n j ss).map eraseLRStep
  | [], _ => rfl
  | s :: ss, j => by
    show eraseLRStep (if j = n then updCStep s r now2 else s) ::
        (updStepsFrom r now2 n (j + 1) ss).map eraseLRStep =
      eraseLRStep (if j = n then updCStep s r now1 else s) ::
        (updStepsFrom r now1 n (j + 1) ss).map eraseLRStep
    rw [map_erase_updStepsFrom r now1 now2 n ss (j + 1)]
    by_cases hj : j = n
    · rw [if_pos hj, if_pos hj]
      rfl
    · rw [if_neg hj, if_neg hj]

theorem erase_stepLines : ∀ (ss : List CStep) (i : Nat),
    (stepLinesFrom i ss).map eraseLine = stepLinesFrom i (ss.map eraseLRStep)
  | [], _ => rfl
  | s :: ss, i => by
    show eraseLine (stepLineOf i s) :: (stepLinesFrom (i + 1) ss).map eraseLine =
      stepLineOf i (eraseLRStep s) :: stepLinesFrom (i + 1) (ss.map eraseLRStep)
    rw [erase_stepLines ss (i + 1)]
    congr 1

theorem erase_blockOf (i : Nat) (s : CStep) (hBs : BenignStep s) :
    (blockOf i s).map eraseLine = blockOf i (eraseLRStep s) := by
  obtain ⟨hmk, hd1, hd2, hd3, hd4, hd5, hs1, hs2, hs3, hl1, hl2, hl3, hl4,
    hq1, hq2, hq3, hrt⟩ := hBs
  have e0 : eraseLine "" = "" := rfl
  have ehdr : eraseLine ("### Step " ++ natDigits i) = "### Step " ++ natDigits i := by
    unfold eraseLine
    rw [(hdrLine_profile (natDigits i)).2.2.2.2.2.1]
    rfl
  have est : eraseLine ("**Status**: " ++ s.statusText) = "**Status**: " ++ s.statusText := by
    unfold eraseLine
    rw [(statusLine_canon_profile s.statusText).2.2.2.2.2]
    rfl
  have elr : eraseLine ("**Last Run**: " ++ s.lastRunText) = "**Last Run**: " ++ "-" := by
    unfold eraseLine
    rw [matchLastRun_canon s.lastRunText hl2 hl3]
    rfl
  have ent : eraseLine ("**Notes**: " ++ s.notesText) = "**Notes**: " ++ s.notesText := by
    unfold eraseLine
    rw [(notesLine_canon_profile s.notesText).2.2.2.2.2.2]
    rfl
  rw [eraseLRStep_fields]
  cases hret : s.retriesText with
  | none =>
    simp only [blockOf, hret, List.append_nil, List.map_cons, List.map_nil,
      e0, ehdr, est, elr, ent]
  | some t =>
    have ert : eraseLine ("**Retries**: " ++ t) = "**Retries**: " ++ t := by
      unfold eraseLine
      rw [(retriesLine_canon_profile t).2.2.2.2.2.2.1]
      rfl
    simp only [blockOf, hret, List.map_append, List.map_cons, List.map_nil,
      e0, ehdr, est, elr, ent, ert]

theorem erase_blocks : ∀ (ss : List CStep) (i : Nat), (∀ s ∈ ss, BenignStep s) →
    (blocksFrom i ss).map eraseLine = blocksFrom i (ss.map eraseLRStep)
  | [], _, _ => rfl
  | s :: ss, i, h => by
    show (blockOf i s ++ blocksFrom (i + 1) ss).map eraseLine =
      blockOf i (eraseLRStep s) ++ blocksFrom (i + 1) (ss.map eraseLRStep)
    rw [List.map_append, erase_blockOf i s (h s (List.mem_cons_self s ss)),
      erase_blocks ss (i + 1) (fun t ht => h t (List.mem_cons_of_mem s ht))]

theorem eraseLastRun_canon (d : CanonDoc) (hB : BenignDoc d) :
    eraseLastRun (canonText d) = canonText (erasedDoc d) := by
  show joinNl ((splitOnNl (canonText d)).map eraseLine) = joinNl (canonLines (erasedDoc d))
  rw [splitOnNl_canon d hB]
  refine congrArg joinNl ?_
  obtain ⟨hname, htrim, hne, hlen, hcount, hsteps⟩ := hB
  have e1 : eraseLine ("# Project: " ++ d.name) = "# Project: " ++ d.name := by
    unfold eraseLine
    rw [(titleLine_profile d.name).2.2.2.2]
    rfl
  have e2 : eraseLine "" = "" := rfl
  have e3 : eraseLine "## Plan" = "## Plan" := rfl
  have e4 : eraseLine "## Notes" = "## Notes" := rfl
  show ((["# Project: " ++ d.name, "", "## Plan", ""] ++ stepLinesFrom 1 d.steps ++
      ["", "## Notes"] ++ blocksFrom 1 d.steps) ++ [""]).map eraseLine =
    (["# Project: " ++ d.name, "", "## Plan", ""] ++
      stepLinesFrom 1 (d.steps.map eraseLRStep) ++ ["", "## Notes"] ++
      blocksFrom 1 (d.steps.map eraseLRStep)) ++ [""]
  simp only [List.map_append, List.map_cons, List.map_nil, e1, e2, e3, e4,
    erase_stepLines d.steps 1, erase_blocks d.steps 1 hsteps]

/-- C7 (amended): on a canonical annotated document, patching step `n`
(`1 ≤ n ≤ N`) twice with the same result yields, after the second call,
a document identical to the first call's output except for the target
step's `**Last Run**` timestamp value (both writer calls succeed, and
the two outputs agree once every `**Last Run**` line's value is
erased).  On arbitrary documents the claim fails: when a stray field
line follows the target block, the first application's inserted block
shifts it into the rewritten region and the second application mutates
it, see the counterexample. -/
theorem c7_idempotence (d : CanonDoc) (n : Nat) (r : StepResult) (now1 now2 : String)
    (hB : BenignDoc d) (hnow1 : BenignNow now1) (hnow2 : BenignNow now2)
    (hr : BenignResult r) (hn1 : 1 ≤ n) (hn2 : n ≤ d.steps.length) :
    ∃ out1 out2,
      updateStepInContent (canonText d) n r now1 = some out1 ∧
      updateStepInContent out1 n r now2 = some out2 ∧
      eraseLastRun out2 = eraseLastRun out1 := by
  have hB1 := benign_canonUpdate d n r now1 hB hnow1 hr
  have hn2' : n ≤ (canonUpdate d n r now1).steps.length := by
    show n ≤ (updStepsFrom r now1 n 1 d.steps).length
    rw [updStepsFrom_length r now1 n d.steps 1]
    exact hn2
  have hB2 := benign_canonUpdate (canonUpdate d n r now1) n r now2 hB1 hnow2 hr
  refine ⟨canonText (canonUpdate d n r now1),
    canonText (canonUpdate (canonUpdate d n r now1) n r now2),
    updateStep_canon d n r now1 hB hn1 hn2,
    updateStep_canon (canonUpdate d n r now1) n r now2 hB1 hn1 hn2', ?_⟩
  rw [eraseLastRun_canon _ hB2, eraseLastRun_canon _ hB1]
  refine congrArg canonText ?_
  show (⟨d.name, (updStepsFrom r now2 n 1 (updStepsFrom r now1 n 1 d.steps)).map
      eraseLRStep⟩ : CanonDoc) =
    ⟨d.name, (updStepsFrom r now1 n 1 d.steps).map eraseLRStep⟩
  rw [updStepsFrom_twice r now1 now2 n d.steps 1,
    map_erase_updStepsFrom r now1 now2 n d.steps 1]

/-- Witness for C7 (amended): the one-step demo document patched twice
with the same successful result at two different timestamps. -/
theorem c7_idempotence_witness :
    BenignDoc witnessDoc ∧ BenignNow witnessNow ∧ BenignNow "2026-01-02 12:00:00" ∧
      BenignResult okResult ∧ (1 : Nat) ≤ 1 ∧ 1 ≤ witnessDoc.steps.length ∧
      (∃ out1 out2,
        updateStepInContent (canonText witnessDoc) 1 okResult witnessNow = some out1 ∧
        updateStepInContent out1 1 okResult "2026-01-02 12:00:00" = some out2 ∧
        eraseLastRun out2 = eraseLastRun out1) :=
  ⟨by decide, by decide, by decide, by decide, by decide, by decide,
    c7_idempotence witnessDoc 1 okResult witnessNow "2026-01-02 12:00:00"
      (by decide) (by decide) (by decide) (by decide) (by decide) (by decide)⟩

/-- Witness for C1 (amended): the one-step demo document patched with a
successful result. -/
theorem c1_round_trip_witness :
    BenignDoc witnessDoc ∧ BenignNow witnessNow ∧ BenignResult okResult ∧
      (1 : Nat) ≤ 1 ∧ 1 ≤ witnessDoc.steps.length ∧
      isPlainMarker ((witnessDoc.steps.getD (1 - 1) default).marker) = true ∧
      (∃ out p,
        updateStepInContent (canonText witnessDoc) 1 okResult witnessNow = some out ∧
        Parse out = Except.ok p ∧
        Parse (canonText witnessDoc) = Except.ok (planOf witnessDoc) ∧
        p.steps.length = (planOf witnessDoc).steps.length ∧
        (∀ j, j < p.steps.length → j + 1 ≠ 1 →
          stepCore (p.steps.getD j default) =
            stepCore ((planOf witnessDoc).steps.getD j default)) ∧
        (p.steps.getD (1 - 1) default).status =
          (if okResult.success then StepStatus.completed else StepStatus.failed) ∧
        (p.steps.getD (1 - 1) default).notes =
          (if notesFor okResult = "(none)" then "" else notesFor okResult) ∧
        (p.steps.getD (1 - 1) default).description =
          ((planOf witnessDoc).steps.getD (1 - 1) default).description ∧
        (p.steps.getD (1 - 1) default).retryCount =
          ((planOf witnessDoc).steps.getD (1 - 1) default).retryCount) :=
  ⟨by decide, by decide, by decide, by decide, by decide, by decide,
    c1_round_trip witnessDoc 1 okResult witnessNow (by decide) (by decide) (by decide)
      (by decide) (by decide) (by decide)⟩
end RalphLoop
